import Mathlib

/-!
The sweep-and-dispatch engine of `runjobs.go`.

A shallow embedding of `src/runjobs.go` and the properties of its request
builder, response normaliser, log writer and sweep controller.

Conventions of the embedding

* Go `string`s are Lean `String`s (the text they hold); the one place where the
  program handles raw bytes, the 4000-byte dry-run buffer, is modelled on the
  UTF-8 bytes of the text.
* `float64` and `float32` values are modelled exactly: a finite value is a sign
  and a magnitude counted in units of `2^-1074` (the smallest positive
  `float64`), so every finite value of either type is a natural number of units.
  Addition and conversion round to nearest, ties to even, as the hardware does.
* The package-level constants and variables of the program are the fields of
  `Config`; `sourceConfig` holds the values written in the source.
* The world outside the program (HTTP transport, `encoding/json`, file system)
  is the record `World`; the program's effects are the `Event`s it appends.
-/

set_option exponentiation.threshold 5000

namespace RunJobs

/-! ## Floating point -/

/-- Number of binary digits of `n`, by at most `fuel` halvings. -/
def bitLenAux : Nat → Nat → Nat
  | 0, _ => 0
  | fuel + 1, n => if n = 0 then 0 else bitLenAux fuel (n / 2) + 1

/-- Number of binary digits of `n` (`0` for `0`). -/
def bitLen (n : Nat) : Nat := bitLenAux n n

/-- Round the natural number `x` to `p` significant binary digits, the result
being a multiple of `2^qmin` at least; nearest value, ties to the even one. -/
def roundNE (p qmin x : Nat) : Nat :=
  let s := max (bitLen x - p) qmin
  let q := x / 2 ^ s
  let r := x % 2 ^ s
  if 2 ^ s < 2 * r ∨ (2 * r = 2 ^ s ∧ q % 2 = 1) then (q + 1) * 2 ^ s else q * 2 ^ s

/-- Round the fraction `num / den` to `p` significant binary digits (result a
natural number); nearest value, ties to the even one. -/
def roundRatNE (p num den : Nat) : Nat :=
  let s := bitLen (num / den) - p
  let d := den * 2 ^ s
  let q := num / d
  let r := num % d
  if d < 2 * r ∨ (2 * r = d ∧ q % 2 = 1) then (q + 1) * 2 ^ s else q * 2 ^ s

/-- A Go floating-point value. `fin neg mag` is the finite value
`(-1)^neg * mag * 2^-1074`. -/
inductive GoFloat where
  | fin (neg : Bool) (mag : Nat)
  | inf (neg : Bool)
  | nan
  deriving DecidableEq

/-- Magnitudes from `2^1024` (in units: `2^2098`) on overflow `float64`. -/
def f64Limit : Nat := 2 ^ 2098

/-- Magnitudes from `2^128` (in units: `2^1202`) on overflow `float32`. -/
def f32Limit : Nat := 2 ^ 1202

/-- The `float64` nearest to the exact magnitude `x` with sign `neg`. -/
def f64Round (neg : Bool) (x : Nat) : GoFloat :=
  let y := roundNE 53 0 x
  if y < f64Limit then .fin neg y else .inf neg

/-- The `float32` nearest to the exact magnitude `x` with sign `neg`; the
smallest positive `float32` is `2^-149`, that is `2^925` units. -/
def f32Round (neg : Bool) (x : Nat) : GoFloat :=
  let y := roundNE 24 925 x
  if y < f32Limit then .fin neg y else .inf neg

/-- Conversion of the constant `num / den` (negated when `neg`) to `float64`,
as the compiler does for an untyped constant used as a `float64`: nearest value,
ties to even, a zero result being the positive zero. (A constant that overflows
does not compile; the model yields an infinity, which `IsF64` excludes.) -/
def f64OfRat (neg : Bool) (num den : Nat) : GoFloat :=
  let y := roundRatNE 53 (num * 2 ^ 1074) den
  if y = 0 then .fin false 0 else if y < f64Limit then .fin neg y else .inf neg

/-- The predicate: `x` is a value a `float64` constant can have: finite, exactly
representable, and not the negative zero. -/
def IsF64 : GoFloat → Prop
  | .fin neg m => roundNE 53 0 m = m ∧ m < f64Limit ∧ (neg = true → m ≠ 0)
  | _ => False

instance : DecidablePred IsF64 := fun x => by
  cases x <;> unfold IsF64 <;> infer_instance

/-- Go `a + b` on `float64`. -/
def f64Add : GoFloat → GoFloat → GoFloat
  | .fin s1 m1, .fin s2 m2 =>
    if s1 = s2 then f64Round s1 (m1 + m2)
    else if m2 < m1 then f64Round s1 (m1 - m2)
    else if m1 < m2 then f64Round s2 (m2 - m1)
    else .fin false 0
  | .fin _ _, .inf s => .inf s
  | .inf s, .fin _ _ => .inf s
  | .inf s1, .inf s2 => if s1 = s2 then .inf s1 else .nan
  | _, _ => .nan

/-- Go `a <= b` on floating-point values. -/
def f64Le : GoFloat → GoFloat → Bool
  | .nan, _ => false
  | _, .nan => false
  | .inf true, _ => true
  | _, .inf false => true
  | .inf false, _ => false
  | _, .inf true => false
  | .fin s1 m1, .fin s2 m2 =>
    match s1, s2 with
    | false, false => decide (m1 ≤ m2)
    | true, true => decide (m2 ≤ m1)
    | true, false => true
    | false, true => decide (m1 = 0 ∧ m2 = 0)

/-- Go `a < b` on floating-point values. -/
def f64Lt : GoFloat → GoFloat → Bool
  | .nan, _ => false
  | _, .nan => false
  | a, b => f64Le a b && !f64Le b a

/-- Go `float32(x)` for a `float64` `x`. -/
def toFloat32 : GoFloat → GoFloat
  | .fin s m => f32Round s m
  | x => x

/-- The exact value of a finite float in units of `2^-1074`, as an integer. -/
def GoFloat.units : GoFloat → Int
  | .fin false m => (m : Int)
  | .fin true m => - (m : Int)
  | _ => 0

/-! ## Formatting -/

/-- The value `mag * 2^-1074` in tenths, rounded to nearest, ties to even. -/
def tenths (mag : Nat) : Nat :=
  let q := 10 * mag / 2 ^ 1074
  let r := 10 * mag % 2 ^ 1074
  if 2 ^ 1074 < 2 * r ∨ (2 * r = 2 ^ 1074 ∧ q % 2 = 1) then q + 1 else q

/-- The verb `%.1f` of `fmt.Sprintf`. -/
def fmtF1 : GoFloat → String
  | .fin neg m =>
    (if neg then "-" else "") ++ Nat.repr (tenths m / 10) ++ "." ++ Nat.repr (tenths m % 10)
  | .inf false => "+Inf"
  | .inf true => "-Inf"
  | .nan => "NaN"

/-- The verb `%0.2d` of `fmt.Sprintf` on a non-negative `int`: the decimal
digits, with zeros in front up to two digits. -/
def fmtD02 (j : Nat) : String :=
  if j < 10 then "0" ++ Nat.repr j else Nat.repr j

/-- The function `strings.ReplaceAll` on the characters of the text, for a
non-empty `old`: matches are taken left to right and do not overlap. -/
def replaceAllChars (old new : List Char) : Nat → List Char → List Char
  | 0, s => s
  | _ + 1, [] => []
  | fuel + 1, c :: t =>
    if old.isPrefixOf (c :: t) then
      new ++ replaceAllChars old new fuel ((c :: t).drop old.length)
    else c :: replaceAllChars old new fuel t

/-- The function `strings.ReplaceAll(s, old, new)` for a non-empty `old`. -/
def stringsReplaceAll (s old new : String) : String :=
  ⟨replaceAllChars old.data new.data s.length s.data⟩

/-- The bytes of a Go string: the UTF-8 encoding of its text. -/
def utf8 (s : String) : List UInt8 := s.data.flatMap String.utf8EncodeChar

/-! ## Data model -/

/-- The struct `GeneralResponse`. -/
structure GeneralResponse where
  Model : String
  ResponseContent : String
  deriving DecidableEq

/-- The anonymous struct of the `usage` field of both response schemas. -/
structure Usage where
  PromptTokens : Int
  CompletionTokens : Int
  TotalTokens : Int
  deriving DecidableEq

/-- The anonymous struct of the `message` field of a chat choice. -/
structure ChatMessage where
  Role : String
  Content : String
  deriving DecidableEq

/-- The anonymous element struct of `ChatCompletion.Choices`. -/
structure ChatChoice where
  Message : ChatMessage
  FinishReason : String
  Index : Int
  deriving DecidableEq

/-- The struct `ChatCompletion`. -/
structure ChatCompletion where
  ID : String
  Object : String
  Created : Int
  Model : String
  Usage : Usage
  Choices : List ChatChoice
  deriving DecidableEq

/-- The anonymous element struct of `Edits.Choices`. -/
structure EditChoice where
  Text : String
  Index : Int
  deriving DecidableEq

/-- The struct `Edits`. -/
structure Edits where
  Object : String
  Created : Int
  Choices : List EditChoice
  Usage : Usage
  deriving DecidableEq

/-- The package-level constants and variables of `runjobs.go`. The entries
`"model"` and `"input"` of the map `editsReq` are the fields `editsReqModel` and
`editsReqInput`; its entry `"instruction"` is `prompt`. `logSampleSize` is the
number of batches; the batch counter `j` of the program is an `int`, which
agrees with the model's natural number while `logSampleSize < 2^63 - 1`. -/
structure Config where
  API_KEY : String
  dryFire : Bool
  endpointSpecifier : Int
  prompt : String
  model : String
  messagesRole : String
  editsReqModel : String
  editsReqInput : String
  knob : String
  knobTuneMin : GoFloat
  knobTuneMax : GoFloat
  knobTuneIncrement : GoFloat
  logSampleSize : Nat
  promptFileTitle : String
  fileSeperator : String

/-- The map `endpoints`; a key that is absent yields the empty string. -/
def endpoints (k : Int) : String :=
  if k = 1 then "https://api.openai.com/v1/chat/completions"
  else if k = 2 then "https://api.openai.com/v1/edits"
  else ""

/-- The map `editsReq`; a key that is absent yields the empty string. -/
def editsReq (cfg : Config) (key : String) : String :=
  if key = "model" then cfg.editsReqModel
  else if key = "input" then cfg.editsReqInput
  else if key = "instruction" then cfg.prompt
  else ""

/-- The configuration written in the source; the source leaves `API_KEY` for
the operator to fill in. -/
def sourceConfig (apiKey : String) : Config where
  API_KEY := apiKey
  dryFire := false
  endpointSpecifier := 1
  prompt := "write me a hello world program in go"
  model := "gpt-3.5-turbo"
  messagesRole := "user"
  editsReqModel := "code-davinci-edit-001"
  editsReqInput := "service: my-service\n provider:\n     name: aws\n     runtime: nodejs12.x\nregion: us-east-1\n     resources:\n      Resources:\n    PromptsTable:\n           Type: AWS::DynamoDB::Table\n          Properties:\n                 TableName: prompts\n              AttributeDefinitions:\n- AttributeName: id\n                     AttributeType: S\n              StreamSpecification:\nStreamViewType: NEW_AND_OLD_IMAGES\n              KeySchema:\n                  - AttributeName: id\n             KeyType: HASH\n                 BillingMode: PAY_PER_REQUEST"
  knob := "temperature"
  knobTuneMin := f64OfRat false 6 10
  knobTuneMax := f64OfRat false 1 1
  knobTuneIncrement := f64OfRat false 2 10
  logSampleSize := 2
  promptFileTitle := "hello-world-program"
  fileSeperator := "_______________________________________"

/-! ## Request builder -/

/-- The function `chatCompletionRequest`: the text the returned reader holds. -/
def chatCompletionRequest (cfg : Config) (knobTune : GoFloat) : String :=
  "\x7b\"model\": \"" ++ cfg.model ++ "\",\"messages\":[\x7b\"role\":\"" ++ cfg.messagesRole
    ++ "\", \"content\":\"" ++ stringsReplaceAll cfg.prompt "\n" "\\n" ++ "\"\x7d],\""
    ++ cfg.knob ++ "\":" ++ fmtF1 knobTune ++ "\x7d"

/-- The function `editsRequest`: the text the returned reader holds. -/
def editsRequest (cfg : Config) (knobTune : GoFloat) : String :=
  "\x7b\"model\":\"" ++ editsReq cfg "model" ++ "\",\"input\":\""
    ++ stringsReplaceAll (editsReq cfg "input") "\n" "\\n" ++ "\",\"instruction\":\""
    ++ editsReq cfg "instruction" ++ "\",\"" ++ cfg.knob ++ "\":" ++ fmtF1 knobTune ++ "\x7d"

/-! ## Effects and the outside world -/

/-- How a run of the program ends. `fatal` is `log.Fatal` (exit status 1),
`panicked` a panic that nothing recovers, `outOfFuel` the model's step budget
running out before the program ends. -/
inductive Exit where
  | returned
  | panicked (msg : String)
  | fatal (msg : String)
  | outOfFuel
  deriving DecidableEq

/-- An HTTP request as built by `http.NewRequest` and `req.Header.Add`. -/
structure Request where
  method : String
  url : String
  headers : List (String × String)
  body : String
  deriving DecidableEq

/-- An effect of the program: bytes written to standard output, a request
handed to `client.Do`, text handed to `file.WriteString` for the file at `path`. -/
inductive Event where
  | stdout (bytes : List UInt8)
  | dispatch (req : Request)
  | write (path content : String)
  deriving DecidableEq

/-- What the transport answers to one `client.Do` followed by `ioutil.ReadAll`. -/
inductive TransportResult where
  | doError (msg : String)
  | readError (msg : String)
  | body (text : String)
  deriving DecidableEq

/-- What the file system answers to the three calls of one `writeResponse`:
`os.MkdirAll`, `os.OpenFile`, `file.WriteString`; `none` is success. -/
structure FsResult where
  mkdirErr : Option String
  openErr : Option String
  writeErr : Option String
  deriving DecidableEq

/-- The world outside the program: `json.Unmarshal` into each of the two
schemas, the answer to the `k`-th request sent, and the answer to the `k`-th
call of `writeResponse` (both counted from 0). -/
structure World where
  jsonChatCompletion : String → Except String ChatCompletion
  jsonEdits : String → Except String Edits
  transport : Nat → TransportResult
  fs : Nat → FsResult

/-- State of a run: the effects so far, in order, and how many requests were
sent and how many calls of `writeResponse` were made. -/
structure St where
  events : List Event
  sent : Nat
  wrote : Nat
  deriving DecidableEq

/-- The call `fmt.Println(s)`. -/
def println (s : String) : Event := .stdout (utf8 s ++ [10])

/-- Append effects to the state. -/
def St.emit (st : St) (evs : List Event) : St := { st with events := st.events ++ evs }

/-! ## Response normaliser -/

/-- The run-time panic of indexing an empty slice at 0. -/
def indexPanic : String := "runtime error: index out of range [0] with length 0"

/-- The function `unmarshalChatCompletion`. -/
def unmarshalChatCompletion (cfg : Config) (w : World) (data : String) :
    Except Exit GeneralResponse :=
  match w.jsonChatCompletion data with
  | .error err => .error (.fatal err)
  | .ok respStruct =>
    match respStruct.Choices with
    | [] => .error (.panicked indexPanic)
    | c :: _ => .ok ⟨cfg.model, c.Message.Content⟩

/-- The function `unmarshalEdit`: what it prints, and its result. -/
def unmarshalEdit (cfg : Config) (w : World) (data : String) :
    List Event × Except Exit GeneralResponse :=
  ([println ("data: " ++ data)],
    match w.jsonEdits data with
    | .error err => .error (.fatal err)
    | .ok respStruct =>
      match respStruct.Choices with
      | [] => .error (.panicked indexPanic)
      | c :: _ => .ok ⟨editsReq cfg "model", c.Text⟩)

/-- The function `handleResponseBody`: what it prints, and its result. -/
def handleResponseBody (cfg : Config) (w : World) (respString : String) :
    List Event × Except Exit GeneralResponse :=
  if cfg.endpointSpecifier = 1 then ([], unmarshalChatCompletion cfg w respString)
  else if cfg.endpointSpecifier = 2 then unmarshalEdit cfg w respString
  else ([], .ok ⟨"nil", "nil"⟩)

/-! ## Log writer -/

/-- The path computed by `writeResponse` for the prefix `prfx`. -/
def logPath (cfg : Config) (prfx : String) : String :=
  "logs/" ++ cfg.promptFileTitle ++ "/" ++ cfg.knob ++ "/" ++ prfx ++ "-api-log_" ++ cfg.knob
    ++ ".txt"

/-- The function `writeResponse`. A failure of `os.MkdirAll` is printed and the
function goes on; a failure of `os.OpenFile` is printed and ends the call; the
text is handed to `file.WriteString` otherwise, whose failure is printed. -/
def writeResponse (cfg : Config) (w : World) (content prfx : String) (st : St) : St :=
  let path := logPath cfg prfx
  let r := w.fs st.wrote
  let st1 : St := { st with wrote := st.wrote + 1 }
  let st2 := match r.mkdirErr with
    | some err => st1.emit [println ("Error: " ++ err)]
    | none => st1
  match r.openErr with
  | some err => st2.emit [println ("Error: " ++ err)]
  | none =>
    let st3 := st2.emit [.write path content]
    match r.writeErr with
    | some err => st3.emit [println ("Error: " ++ err)]
    | none => st3

/-! ## Sweep controller -/

/-- The 4000-byte buffer `data` of the dry run after `req.Body.Read(data)`: the
first 4000 bytes of the request body, the rest of the buffer being zero. -/
def dryFireData (body : String) : List UInt8 :=
  (utf8 body).take 4000 ++ List.replicate (4000 - (utf8 body).length) 0

/-- The panic of `http.NewRequest` on the nil `*strings.Reader` that the
`switch` leaves in `payload` when `endpointSpecifier` is neither 1 nor 2. -/
def nilPanic : String := "runtime error: invalid memory address or nil pointer dereference"

/-- The `switch` on `endpointSpecifier` in `executeRequests`; `none` is the nil
payload. -/
def payloadFor (cfg : Config) (knobTune : GoFloat) : Option String :=
  if cfg.endpointSpecifier = 1 then some (chatCompletionRequest cfg (toFloat32 knobTune))
  else if cfg.endpointSpecifier = 2 then some (editsRequest cfg (toFloat32 knobTune))
  else none

/-- The request built in one iteration for the payload `payload`. -/
def mkRequest (cfg : Config) (payload : String) : Request where
  method := "POST"
  url := endpoints cfg.endpointSpecifier
  headers := [("Authorization", "Bearer " ++ cfg.API_KEY), ("Content-Type", "application/json")]
  body := payload

/-- The body of the inner loop of `executeRequests`, for the batch prefix
`filePrefix` and the knob value `knobTune`. The second component is `none` when
the loop goes on and the way the run ends otherwise. -/
def iteration (cfg : Config) (w : World) (filePrefix : String) (knobTune : GoFloat) (st : St) :
    St × Option Exit :=
  match payloadFor cfg knobTune with
  | none => (st, some (.panicked nilPanic))
  | some payload =>
    let req := mkRequest cfg payload
    if cfg.dryFire then
      (st.emit [.stdout (dryFireData payload ++ [10])], some (.panicked "end"))
    else
      let st1 : St := { st.emit [.dispatch req] with sent := st.sent + 1 }
      match w.transport st.sent with
      | .doError err => (st1.emit [println err], some .returned)
      | .readError err => (st1.emit [println err], some .returned)
      | .body body =>
        let st2 := st1.emit (handleResponseBody cfg w body).1
        match (handleResponseBody cfg w body).2 with
        | .error x => (st2, some x)
        | .ok response =>
          let st3 := writeResponse cfg w
            (cfg.fileSeperator ++ "\nprompt: " ++ cfg.prompt ++ "\n") filePrefix st2
          let st4 := writeResponse cfg w
            (cfg.knob ++ ": " ++ fmtF1 knobTune ++ "\n") filePrefix st3
          let st5 := writeResponse cfg w
            ("endpoint: " ++ endpoints cfg.endpointSpecifier ++ "\n") filePrefix st4
          let st6 := writeResponse cfg w
            ("model: " ++ response.Model ++ "\n") filePrefix st5
          let st7 := writeResponse cfg w
            ("messages.role: " ++ cfg.messagesRole ++ "\n\n\nobservations:\n"
              ++ cfg.fileSeperator ++ "\n") filePrefix st6
          let st8 := writeResponse cfg w
            ("\nresponse:\n\n" ++ response.ResponseContent ++ "\n\n\n\n") filePrefix st7
          (st8, none)

/-- The inner loop of `executeRequests`, entered with the knob at `knobTune`;
every test of the loop condition that succeeds takes one unit of `fuel`. -/
def innerLoop (cfg : Config) (w : World) (filePrefix : String) :
    Nat → GoFloat → St → St × Option Exit
  | 0, knobTune, st =>
    if f64Le knobTune cfg.knobTuneMax then (st, some .outOfFuel) else (st, none)
  | fuel + 1, knobTune, st =>
    if f64Le knobTune cfg.knobTuneMax then
      match iteration cfg w filePrefix knobTune st with
      | (st1, some x) => (st1, some x)
      | (st1, none) =>
        innerLoop cfg w filePrefix fuel (f64Add knobTune cfg.knobTuneIncrement) st1
    else (st, none)

/-- The outer loop of `executeRequests` with `n` batches left, the next one
being batch `j`; each batch has `fuel` units for its inner loop. -/
def outerLoop (cfg : Config) (w : World) (fuel : Nat) : Nat → Nat → St → St × Exit
  | 0, _, st => (st, .returned)
  | n + 1, j, st =>
    match innerLoop cfg w (fmtD02 j) fuel cfg.knobTuneMin st with
    | (st1, some x) => (st1, x)
    | (st1, none) => outerLoop cfg w fuel n (j + 1) st1

/-- The function `executeRequests`: the effects of the run and how it ends. -/
def executeRequests (cfg : Config) (w : World) (fuel : Nat) : St × Exit :=
  outerLoop cfg w fuel cfg.logSampleSize 1 ⟨[], 0, 0⟩

/-- The knob values that the inner loop visits from `knobTune` on, within
`fuel` iterations. -/
def knobSweep (cfg : Config) : Nat → GoFloat → List GoFloat
  | 0, _ => []
  | fuel + 1, knobTune =>
    if f64Le knobTune cfg.knobTuneMax then
      knobTune :: knobSweep cfg fuel (f64Add knobTune cfg.knobTuneIncrement)
    else []

/-- Whether the inner loop entered at `knobTune` leaves within `fuel` iterations. -/
def sweepEnds (cfg : Config) : Nat → GoFloat → Bool
  | 0, knobTune => !f64Le knobTune cfg.knobTuneMax
  | fuel + 1, knobTune =>
    if f64Le knobTune cfg.knobTuneMax then
      sweepEnds cfg fuel (f64Add knobTune cfg.knobTuneIncrement)
    else true

/-! ## Definitions used in the statements -/

deriving instance DecidableEq for Except

/-- The escaping of one character by the request builder. -/
def escapeLF (c : Char) : List Char := if c = '\n' then ['\\', 'n'] else [c]

/-- The text `s` is a decimal numeral with exactly one digit after the point:
an optional minus sign, one digit or more, a point, one digit. -/
def OneDecimal (s : String) : Prop :=
  ∃ (sign ip : String) (d : Char),
    s = sign ++ ip ++ "." ++ String.singleton d ∧ (sign = "" ∨ sign = "-") ∧
      ip.data ≠ [] ∧ (∀ c ∈ ip.data, c.isDigit = true) ∧ d.isDigit = true

/-- The number of choices of the response that `data` decodes to in the schema
of the selected endpoint; `none` when `data` does not decode. -/
def decodedChoices (cfg : Config) (w : World) (data : String) : Option Nat :=
  if cfg.endpointSpecifier = 1 then
    match w.jsonChatCompletion data with
    | .ok r => some r.Choices.length
    | .error _ => none
  else
    match w.jsonEdits data with
    | .ok r => some r.Choices.length
    | .error _ => none

/-- A world for examples: every request is answered by the body `"resp"`, which
decodes to a chat completion of model `"m"` whose first choice has the content
`"X"`, and to an edit whose first choice has the text `"Y"`; no file-system call
fails. -/
def sampleWorld : World where
  jsonChatCompletion := fun _ =>
    .ok ⟨"id", "chat.completion", 0, "m", ⟨1, 2, 3⟩, [⟨⟨"assistant", "X"⟩, "stop", 0⟩]⟩
  jsonEdits := fun _ => .ok ⟨"edit", 0, [⟨"Y", 0⟩], ⟨1, 2, 3⟩⟩
  transport := fun _ => .body "resp"
  fs := fun _ => ⟨none, none, none⟩

/-! ## The run as a list of iterations -/

/-- Run the iterations of the list, each given by its batch prefix and its knob
value, in order; the first iteration that ends the run stops the list. -/
def runIters (cfg : Config) (w : World) : List (String × GoFloat) → St → St × Option Exit
  | [], st => (st, none)
  | (prfx, knobTune) :: rest, st =>
    match iteration cfg w prfx knobTune st with
    | (st1, some x) => (st1, some x)
    | (st1, none) => runIters cfg w rest st1

/-- The iterations of batch `j`: one for each knob value of the sweep. -/
def pass (cfg : Config) (fuel j : Nat) : List (String × GoFloat) :=
  (knobSweep cfg fuel cfg.knobTuneMin).map (fun v => (fmtD02 j, v))

/-- The iterations of the run, in order: all batches when the sweep of one
batch ends within `fuel` iterations, the unfinished first batch otherwise. -/
def schedule (cfg : Config) (fuel : Nat) : List (String × GoFloat) :=
  if sweepEnds cfg fuel cfg.knobTuneMin then
    (List.range' 1 cfg.logSampleSize).flatMap (pass cfg fuel)
  else if cfg.logSampleSize = 0 then [] else pass cfg fuel 1

/-- How the run ends when no iteration of the schedule ends it. -/
def scheduleExit (cfg : Config) (fuel : Nat) : Exit :=
  if sweepEnds cfg fuel cfg.knobTuneMin then .returned
  else if cfg.logSampleSize = 0 then .returned else .outOfFuel

/-- The texts handed to `file.WriteString` for the file at `path`, in order. -/
def writesTo (path : String) (evs : List Event) : List String :=
  evs.filterMap fun e =>
    match e with
    | .write p c => if p = path then some c else none
    | _ => none

/-- The paths of the files written to, in order. -/
def writtenPaths (evs : List Event) : List String :=
  evs.filterMap fun e =>
    match e with
    | .write p _ => some p
    | _ => none

/-- The requests handed to `client.Do`, in order. -/
def requestsOf (evs : List Event) : List Request :=
  evs.filterMap fun e =>
    match e with
    | .dispatch r => some r
    | _ => none

/-- The bytes printed on standard output, print by print. -/
def printsOf (evs : List Event) : List (List UInt8) :=
  evs.filterMap fun e =>
    match e with
    | .stdout b => some b
    | _ => none

/-- The body that the transport answers to request `k` (empty on an error). -/
def bodyOf (w : World) (k : Nat) : String :=
  match w.transport k with
  | .body b => b
  | _ => ""

/-- The normalised result of the answer to request `k`. -/
def responseOf (cfg : Config) (w : World) (k : Nat) : GeneralResponse :=
  match (handleResponseBody cfg w (bodyOf w k)).2 with
  | .ok r => r
  | .error _ => ⟨"", ""⟩

/-- A world without errors for the configuration: every request is answered by
a body that normalises to a result, and every file-system call succeeds. -/
def ErrorFree (cfg : Config) (w : World) : Prop :=
  ∀ k, (∃ b r, w.transport k = .body b ∧ (handleResponseBody cfg w b).2 = .ok r) ∧
    w.fs k = ⟨none, none, none⟩

/-- The six texts written to the log for one iteration, in order. -/
def logBlocks (cfg : Config) (knobTune : GoFloat) (response : GeneralResponse) : List String :=
  [cfg.fileSeperator ++ "\nprompt: " ++ cfg.prompt ++ "\n",
   cfg.knob ++ ": " ++ fmtF1 knobTune ++ "\n",
   "endpoint: " ++ endpoints cfg.endpointSpecifier ++ "\n",
   "model: " ++ response.Model ++ "\n",
   "messages.role: " ++ cfg.messagesRole ++ "\n\n\nobservations:\n" ++ cfg.fileSeperator ++ "\n",
   "\nresponse:\n\n" ++ response.ResponseContent ++ "\n\n\n\n"]

/-- The request of the iteration with knob value `knobTune`. -/
def requestFor (cfg : Config) (knobTune : GoFloat) : Request :=
  mkRequest cfg ((payloadFor cfg knobTune).getD "")

/-- The effects of an iteration without error whose request is request `k`. -/
def iterationEvents (cfg : Config) (w : World) (prfx : String) (knobTune : GoFloat) (k : Nat) :
    List Event :=
  [.dispatch (requestFor cfg knobTune)] ++ (handleResponseBody cfg w (bodyOf w k)).1
    ++ (logBlocks cfg knobTune (responseOf cfg w k)).map (.write (logPath cfg prfx))

/-- The effects of the iterations of the list when none has an error, the first
request being request `k`. -/
def eventsFrom (cfg : Config) (w : World) : List (String × GoFloat) → Nat → List Event
  | [], _ => []
  | (prfx, knobTune) :: rest, k =>
    iterationEvents cfg w prfx knobTune k ++ eventsFrom cfg w rest (k + 1)

/-- The texts written for the knob values of the list, six for each, when the
request of the first value is request `k`. -/
def blocksFrom (cfg : Config) (w : World) : List GoFloat → Nat → List String
  | [], _ => []
  | knobTune :: rest, k =>
    logBlocks cfg knobTune (responseOf cfg w k) ++ blocksFrom cfg w rest (k + 1)

/-- The number that a text of decimal digits denotes. -/
def decValue (s : List Char) : Nat :=
  s.foldl (fun a c => 10 * a + (c.toNat - 48)) 0

/-- A world for examples: as `sampleWorld`, but the transport fails on the
second request (request 1) with the error "timeout". -/
def failingWorld : World :=
  { sampleWorld with
    transport := fun k => if k = 1 then .doError "timeout" else .body "resp" }

/-- A prompt of 4000 letters. -/
def longPrompt : String := String.mk (List.replicate 4000 'a')

/-- A configuration for examples: the source's, with the dry run enabled. -/
def dryConfig : Config := { sourceConfig "" with dryFire := true }

/-- A configuration for examples: the source's, with the dry run enabled and a
prompt of 4000 letters. -/
def longPromptConfig : Config where
  API_KEY := ""
  dryFire := true
  endpointSpecifier := 1
  prompt := longPrompt
  model := "gpt-3.5-turbo"
  messagesRole := "user"
  editsReqModel := "code-davinci-edit-001"
  editsReqInput := (sourceConfig "").editsReqInput
  knob := "temperature"
  knobTuneMin := f64OfRat false 6 10
  knobTuneMax := f64OfRat false 1 1
  knobTuneIncrement := f64OfRat false 2 10
  logSampleSize := 2
  promptFileTitle := "hello-world-program"
  fileSeperator := "_______________________________________"

/-- The predicate: `x` is finite and exactly representable as a `float64`. -/
def Rep : GoFloat → Prop
  | .fin _ m => roundNE 53 0 m = m ∧ m < f64Limit
  | _ => False

/-- The count of requests of one pass by the formula of the specification,
`floor((max - min) / increment) + 1`, on the exact values of the three floats. -/
def specCount (min max inc : GoFloat) : Int :=
  Int.fdiv (max.units - min.units) inc.units + 1

/-- The configuration of the source with the knob swept from 1.0 to 1.3 by 0.1. -/
def tenthsConfig : Config :=
  { sourceConfig "" with
    knobTuneMin := f64OfRat false 1 1
    knobTuneMax := f64OfRat false 13 10
    knobTuneIncrement := f64OfRat false 1 10 }

/-- The configuration of the source with the knob swept from 0.0 to 0.8 by 0.2,
the example of the comment on the knob constants. -/
def commentConfig : Config :=
  { sourceConfig "" with
    knobTuneMin := f64OfRat false 0 1
    knobTuneMax := f64OfRat false 8 10
    knobTuneIncrement := f64OfRat false 2 10 }

/-- The predicate: the `float64` sum `a + b` is finite and exact (the addition
does not round). -/
def AddsExactly (a b : GoFloat) : Prop :=
  ∃ s m, f64Add a b = .fin s m ∧ (GoFloat.fin s m).units = a.units + b.units

/-- A configuration for examples: the source's, with the knob swept from 2^53
to 2^53 + 2 by 1; the sum 2^53 + 1 rounds to 2^53. -/
def stuckConfig : Config :=
  { sourceConfig "" with
    knobTuneMin := f64OfRat false 9007199254740992 1
    knobTuneMax := f64OfRat false 9007199254740994 1
    knobTuneIncrement := f64OfRat false 1 1 }

/-- A configuration for examples: the source's, with the knob swept from 0.5 to
1.0 by 0.25; no sum of this sweep rounds. -/
def quarterConfig : Config :=
  { sourceConfig "" with
    knobTuneMin := f64OfRat false 1 2
    knobTuneMax := f64OfRat false 1 1
    knobTuneIncrement := f64OfRat false 1 4 }

/-- A configuration for examples: the source's, with the knob range reversed
(from 1.0 up to 0.6), so that the sweep of a batch has no value. -/
def emptySweepConfig : Config :=
  { sourceConfig "" with
    knobTuneMin := f64OfRat false 1 1
    knobTuneMax := f64OfRat false 6 10 }

/-! ## JSON texts: the grammar of RFC 8259, used in the statements -/

/-- A JSON value; a number is kept as the text of its literal. -/
inductive Json where
  | null
  | bool (b : Bool)
  | num (literal : List Char)
  | str (s : List Char)
  | arr (items : List Json)
  | obj (members : List (List Char × Json))

/-- Skip JSON white space: space, tab, line feed, carriage return. -/
def skipWs : List Char → List Char
  | [] => []
  | c :: r => if c = ' ' ∨ c = '\t' ∨ c = '\n' ∨ c = '\r' then skipWs r else c :: r

/-- The value of a hexadecimal digit. -/
def hexVal (c : Char) : Option Nat :=
  if c.isDigit then some (c.toNat - 48)
  else if 'a'.toNat ≤ c.toNat ∧ c.toNat ≤ 'f'.toNat then some (c.toNat - 87)
  else if 'A'.toNat ≤ c.toNat ∧ c.toNat ≤ 'F'.toNat then some (c.toNat - 55)
  else none

/-- The characters of a JSON string after its opening quote, up to the closing
quote: the text they denote, and what follows the closing quote. -/
def parseStr : List Char → Option (List Char × List Char)
  | [] => none
  | c :: r =>
    if c = '"' then some ([], r)
    else if c = '\\' then
      match r with
      | [] => none
      | e :: r2 =>
        if e = 'u' then
          match r2 with
          | a :: b :: c2 :: d :: r3 =>
            match hexVal a, hexVal b, hexVal c2, hexVal d with
            | some x, some y, some z, some u =>
              (parseStr r3).map fun p =>
                (Char.ofNat (((x * 16 + y) * 16 + z) * 16 + u) :: p.1, p.2)
            | _, _, _, _ => none
          | _ => none
        else
          let dec : Option Char :=
            if e = '"' then some '"' else if e = '\\' then some '\\'
            else if e = '/' then some '/' else if e = 'b' then some (Char.ofNat 8)
            else if e = 'f' then some (Char.ofNat 12) else if e = 'n' then some '\n'
            else if e = 'r' then some '\r' else if e = 't' then some '\t' else none
          match dec with
          | none => none
          | some x => (parseStr r2).map fun p => (x :: p.1, p.2)
    else if c.toNat < 32 then none
    else (parseStr r).map fun p => (c :: p.1, p.2)

/-- The longest run of decimal digits in front, and what follows it. -/
def spanDigits : List Char → List Char × List Char
  | [] => ([], [])
  | c :: r => if c.isDigit then ((c :: (spanDigits r).1), (spanDigits r).2) else ([], c :: r)

/-- The integer part of a JSON number: `0`, or digits that do not start with `0`. -/
def parseInt (cs : List Char) : Option (List Char × List Char) :=
  match cs with
  | [] => none
  | c :: r =>
    if c = '0' then some (['0'], r)
    else if c.isDigit then some (c :: (spanDigits r).1, (spanDigits r).2)
    else none

/-- The optional fraction part of a JSON number: a point and one digit or more. -/
def parseFrac (cs : List Char) : Option (List Char × List Char) :=
  match cs with
  | c :: r =>
    if c = '.' then
      if (spanDigits r).1 = [] then none else some ('.' :: (spanDigits r).1, (spanDigits r).2)
    else some ([], cs)
  | [] => some ([], [])

/-- The optional exponent part of a JSON number. -/
def parseExp (cs : List Char) : Option (List Char × List Char) :=
  match cs with
  | e :: r =>
    if e = 'e' ∨ e = 'E' then
      match r with
      | s :: r2 =>
        if s = '+' ∨ s = '-' then
          if (spanDigits r2).1 = [] then none
          else some (e :: s :: (spanDigits r2).1, (spanDigits r2).2)
        else if (spanDigits r).1 = [] then none
        else some (e :: (spanDigits r).1, (spanDigits r).2)
      | [] => none
    else some ([], cs)
  | [] => some ([], [])

/-- A JSON number in front: its literal, and what follows it. -/
def parseNum (cs : List Char) : Option (List Char × List Char) :=
  let sign : List Char := match cs with
    | c :: _ => if c = '-' then ['-'] else []
    | [] => []
  match parseInt (cs.drop sign.length) with
  | none => none
  | some (ip, r1) =>
    match parseFrac r1 with
    | none => none
    | some (fp, r2) =>
      match parseExp r2 with
      | none => none
      | some (ep, r3) => some (sign ++ ip ++ fp ++ ep, r3)

/-- A JSON value that is not an array or an object, in front: a string, one of
the three literal names, or a number. -/
def parseAtom (c : Char) (r : List Char) : Option (Json × List Char) :=
  if c = '"' then (parseStr r).map fun p => (.str p.1, p.2)
  else if c = 't' then
    if r.take 3 = ['r', 'u', 'e'] then some (.bool true, r.drop 3) else none
  else if c = 'f' then
    if r.take 4 = ['a', 'l', 's', 'e'] then some (.bool false, r.drop 4) else none
  else if c = 'n' then
    if r.take 3 = ['u', 'l', 'l'] then some (.null, r.drop 3) else none
  else (parseNum (c :: r)).map fun p => (.num p.1, p.2)

mutual
/-- A JSON value in front (no white space before it): the value, and what
follows it. -/
def parseValue : Nat → List Char → Option (Json × List Char)
  | 0, _ => none
  | fuel + 1, cs =>
    if cs.head? = some '\x7b' then
      if (skipWs cs.tail).head? = some '\x7d' then some (.obj [], (skipWs cs.tail).tail)
      else (parseMembers fuel (skipWs cs.tail)).map fun p => (.obj p.1, p.2)
    else if cs.head? = some '[' then
      if (skipWs cs.tail).head? = some ']' then some (.arr [], (skipWs cs.tail).tail)
      else (parseElems fuel (skipWs cs.tail)).map fun p => (.arr p.1, p.2)
    else
      match cs with
      | [] => none
      | c :: r => parseAtom c r
/-- The elements of a JSON array from its first element on, up to the closing
bracket: each element is followed by a comma and a further element, or by the
closing bracket. -/
def parseElems : Nat → List Char → Option (List Json × List Char)
  | 0, _ => none
  | fuel + 1, cs =>
    (parseValue fuel cs).bind fun vr =>
      if (skipWs vr.2).head? = some ',' then
        (parseElems fuel (skipWs (skipWs vr.2).tail)).map fun p => (vr.1 :: p.1, p.2)
      else if (skipWs vr.2).head? = some ']' then some ([vr.1], (skipWs vr.2).tail)
      else none
/-- The members of a JSON object from its first member on, up to the closing
brace: each member is a string, a colon and a value, and is followed by a comma
and a further member, or by the closing brace. -/
def parseMembers : Nat → List Char → Option (List (List Char × Json) × List Char)
  | 0, _ => none
  | fuel + 1, cs =>
    if cs.head? = some '"' then
      (parseStr cs.tail).bind fun kr =>
        if (skipWs kr.2).head? = some ':' then
          (parseValue fuel (skipWs (skipWs kr.2).tail)).bind fun vr =>
            if (skipWs vr.2).head? = some ',' then
              (parseMembers fuel (skipWs (skipWs vr.2).tail)).map fun p =>
                ((kr.1, vr.1) :: p.1, p.2)
            else if (skipWs vr.2).head? = some '\x7d' then
              some ([(kr.1, vr.1)], (skipWs vr.2).tail)
            else none
        else none
    else none
end

/-- The JSON value that the text denotes, if the text is a JSON text. -/
def parseJson (s : String) : Option Json :=
  match parseValue (2 * s.length + 2) (skipWs s.data) with
  | none => none
  | some (v, r) => if skipWs r = [] then some v else none

/-- The text holds no double quote, no backslash and no control character: it
stands for itself inside a JSON string. -/
def Plain (s : List Char) : Prop :=
  ∀ c ∈ s, c ≠ '"' ∧ c ≠ '\\' ∧ 32 ≤ c.toNat

/-- As `Plain`, line feeds being allowed. -/
def PlainLF (s : List Char) : Prop :=
  ∀ c ∈ s, c = '\n' ∨ (c ≠ '"' ∧ c ≠ '\\' ∧ 32 ≤ c.toNat)

instance (s : List Char) : Decidable (Plain s) := by
  unfold Plain; infer_instance

instance (s : List Char) : Decidable (PlainLF s) := by
  unfold PlainLF; infer_instance

/-! ## Examples for the request builder -/

/-- A configuration for examples: as `hugeKnobConfig`, with the edit endpoint
selected. -/
def hugeKnobEditConfig : Config :=
  { sourceConfig "" with
    endpointSpecifier := 2
    knobTuneMin := f64OfRat false (10 ^ 39) 1
    knobTuneMax := f64OfRat false (10 ^ 39) 1 }

/-- A configuration for examples: the source's, with the edit endpoint selected
and a prompt of two lines. -/
def twoLinePromptConfig : Config :=
  { sourceConfig "" with
    endpointSpecifier := 2
    prompt := "fix the region\nkeep the rest" }

/-- The `float32` nearest to 0.6, which is `10066330 * 2^-24`. -/
def sixTenths32 : GoFloat := .fin false (10066330 * 2 ^ 1050)

/-! ## Lemmas on formatting -/

theorem replaceAllChars_lf (s : List Char) :
    ∀ fuel, s.length ≤ fuel → replaceAllChars ['\n'] ['\\', 'n'] fuel s = s.flatMap escapeLF := by
  induction s with
  | nil => intro fuel _; cases fuel <;> simp [replaceAllChars]
  | cons c t ih =>
    intro fuel h
    cases fuel with
    | zero => simp at h
    | succ f =>
      have hf : t.length ≤ f := by simpa using h
      by_cases hc : c = '\n'
      · subst hc
        simp [replaceAllChars, escapeLF, ih f hf]
      · have hc2 : ¬ '\n' = c := fun h => hc h.symm
        simp [replaceAllChars, hc, hc2, escapeLF, ih f hf]

theorem stringsReplaceAll_lf (s : String) :
    (stringsReplaceAll s "\n" "\\n").data = s.data.flatMap escapeLF := by
  show replaceAllChars ['\n'] ['\\', 'n'] s.length s.data = _
  exact replaceAllChars_lf s.data s.length (le_refl _)

theorem lf_not_mem_flatMap_escapeLF (s : List Char) : '\n' ∉ s.flatMap escapeLF := by
  induction s with
  | nil => simp
  | cons c t ih =>
    simp only [List.flatMap_cons, List.mem_append, not_or]
    refine ⟨?_, ih⟩
    unfold escapeLF
    split
    · decide
    · rename_i hc
      simpa using fun h => hc h.symm

theorem digitChar_isDigit (d : Nat) (h : d < 10) : (Nat.digitChar d).isDigit = true := by
  interval_cases d <;> decide

theorem toDigitsCore_isDigit (fuel : Nat) :
    ∀ (n : Nat) (ds : List Char), (∀ c ∈ ds, c.isDigit = true) →
      ∀ c ∈ Nat.toDigitsCore 10 fuel n ds, c.isDigit = true := by
  induction fuel with
  | zero => intro n ds h; simpa [Nat.toDigitsCore] using h
  | succ f ih =>
    intro n ds h
    have hd : (Nat.digitChar (n % 10)).isDigit = true :=
      digitChar_isDigit _ (Nat.mod_lt _ (by norm_num))
    have h2 : ∀ c ∈ Nat.digitChar (n % 10) :: ds, c.isDigit = true := by
      intro c hc
      rcases List.mem_cons.1 hc with rfl | hc
      · exact hd
      · exact h c hc
    simp only [Nat.toDigitsCore]
    split
    · exact h2
    · exact ih _ _ h2

theorem toDigitsCore_ne_nil (fuel : Nat) :
    ∀ (n : Nat) (ds : List Char), ds ≠ [] → Nat.toDigitsCore 10 fuel n ds ≠ [] := by
  induction fuel with
  | zero => intro n ds h; simpa [Nat.toDigitsCore] using h
  | succ f ih =>
    intro n ds _
    simp only [Nat.toDigitsCore]
    split
    · simp
    · exact ih _ _ (by simp)

theorem repr_isDigit (n : Nat) : ∀ c ∈ (Nat.repr n).data, c.isDigit = true := by
  show ∀ c ∈ Nat.toDigitsCore 10 (n + 1) n [], c.isDigit = true
  exact toDigitsCore_isDigit _ _ _ (by simp)

theorem repr_ne_nil (n : Nat) : (Nat.repr n).data ≠ [] := by
  show Nat.toDigitsCore 10 (n + 1) n [] ≠ []
  simp only [Nat.toDigitsCore]
  split
  · simp
  · exact toDigitsCore_ne_nil _ _ _ (by simp)

theorem repr_lt_ten (d : Nat) (h : d < 10) : Nat.repr d = String.singleton (Nat.digitChar d) := by
  interval_cases d <;> rfl

theorem fmtF1_oneDecimal (neg : Bool) (m : Nat) : OneDecimal (fmtF1 (.fin neg m)) := by
  refine ⟨if neg then "-" else "", Nat.repr (tenths m / 10), Nat.digitChar (tenths m % 10),
    ?_, ?_, repr_ne_nil _, repr_isDigit _, digitChar_isDigit _ (Nat.mod_lt _ (by norm_num))⟩
  · simp only [fmtF1]
    rw [repr_lt_ten _ (Nat.mod_lt _ (by norm_num))]
  · cases neg <;> simp

/-! ## Response normaliser: properties -/

/-- Claim C1 as stated fails: with the source's configuration, a chat response
of model "m" whose first choice has the content "X" is normalised to the model
"gpt-3.5-turbo", the configured constant, not to the model "m" of the response. -/
theorem C1_counterexample :
    (handleResponseBody (sourceConfig "") sampleWorld "resp").2
        = .ok ⟨"gpt-3.5-turbo", "X"⟩ ∧
      (handleResponseBody (sourceConfig "") sampleWorld "resp").2 ≠ .ok ⟨"m", "X"⟩ := by
  decide

/-- Claim C1, amended: for the chat endpoint (selector 1), a response that
decodes with a non-empty choices array is normalised, by `handleResponseBody`
and by `unmarshalChatCompletion`, to the configured constant `model` (whatever
model the response reports) and to the text `choices[0].message.content`, and
nothing is printed. -/
theorem C1_chat_normalised (cfg : Config) (w : World) (data : String) (r : ChatCompletion)
    (c : ChatChoice) (cs : List ChatChoice) (hsel : cfg.endpointSpecifier = 1)
    (hdec : w.jsonChatCompletion data = .ok r) (hch : r.Choices = c :: cs) :
    handleResponseBody cfg w data = ([], .ok ⟨cfg.model, c.Message.Content⟩) ∧
      unmarshalChatCompletion cfg w data = .ok ⟨cfg.model, c.Message.Content⟩ := by
  simp [handleResponseBody, unmarshalChatCompletion, hsel, hdec, hch]

theorem C1_chat_normalised_witness :
    handleResponseBody (sourceConfig "") sampleWorld "resp" = ([], .ok ⟨"gpt-3.5-turbo", "X"⟩) ∧
      unmarshalChatCompletion (sourceConfig "") sampleWorld "resp"
        = .ok ⟨"gpt-3.5-turbo", "X"⟩ :=
  C1_chat_normalised (sourceConfig "") sampleWorld "resp"
    ⟨"id", "chat.completion", 0, "m", ⟨1, 2, 3⟩, [⟨⟨"assistant", "X"⟩, "stop", 0⟩]⟩
    ⟨⟨"assistant", "X"⟩, "stop", 0⟩ [] rfl rfl rfl

/-- Claim C2: for the edit endpoint (selector 2), a response that decodes with
a non-empty choices array is normalised, by `handleResponseBody` and by
`unmarshalEdit`, to the configured edit model `editsReq["model"]`, whatever the
response holds, and to the text `choices[0].text`. -/
theorem C2_edit_normalised (cfg : Config) (w : World) (data : String) (r : Edits)
    (c : EditChoice) (cs : List EditChoice) (hsel : cfg.endpointSpecifier = 2)
    (hdec : w.jsonEdits data = .ok r) (hch : r.Choices = c :: cs) :
    (handleResponseBody cfg w data).2 = .ok ⟨editsReq cfg "model", c.Text⟩ ∧
      (unmarshalEdit cfg w data).2 = .ok ⟨editsReq cfg "model", c.Text⟩ ∧
      editsReq cfg "model" = cfg.editsReqModel := by
  simp [handleResponseBody, unmarshalEdit, hsel, hdec, hch, editsReq]

theorem C2_edit_normalised_witness :
    (handleResponseBody { sourceConfig "" with endpointSpecifier := 2 } sampleWorld "resp").2
        = .ok ⟨"code-davinci-edit-001", "Y"⟩ ∧
      (unmarshalEdit { sourceConfig "" with endpointSpecifier := 2 } sampleWorld "resp").2
        = .ok ⟨"code-davinci-edit-001", "Y"⟩ ∧
      editsReq { sourceConfig "" with endpointSpecifier := 2 } "model" = "code-davinci-edit-001" :=
  C2_edit_normalised { sourceConfig "" with endpointSpecifier := 2 } sampleWorld "resp"
    ⟨"edit", 0, [⟨"Y", 0⟩], ⟨1, 2, 3⟩⟩ ⟨"Y", 0⟩ [] rfl rfl rfl

/-! ## The loops as a list of iterations -/

theorem runIters_append (cfg : Config) (w : World) (l1 l2 : List (String × GoFloat)) :
    ∀ st, runIters cfg w (l1 ++ l2) st =
      match runIters cfg w l1 st with
      | (st1, some x) => (st1, some x)
      | (st1, none) => runIters cfg w l2 st1 := by
  induction l1 with
  | nil => intro st; rfl
  | cons a l ih =>
    intro st
    obtain ⟨p, v⟩ := a
    simp only [List.cons_append, runIters]
    rcases h : iteration cfg w p v st with ⟨st1, _ | x⟩
    · exact ih st1
    · rfl

theorem innerLoop_eq (cfg : Config) (w : World) (prfx : String) :
    ∀ fuel knobTune st, innerLoop cfg w prfx fuel knobTune st =
      match runIters cfg w ((knobSweep cfg fuel knobTune).map (fun v => (prfx, v))) st with
      | (st1, some x) => (st1, some x)
      | (st1, none) => (st1, if sweepEnds cfg fuel knobTune then none else some .outOfFuel) := by
  intro fuel
  induction fuel with
  | zero =>
    intro k st
    cases h : f64Le k cfg.knobTuneMax <;> simp [innerLoop, knobSweep, sweepEnds, runIters, h]
  | succ f ih =>
    intro k st
    cases h : f64Le k cfg.knobTuneMax
    · simp [innerLoop, knobSweep, sweepEnds, runIters, h]
    · simp only [innerLoop, knobSweep, sweepEnds, h, if_true, List.map_cons, runIters]
      rcases hi : iteration cfg w prfx k st with ⟨st1, _ | x⟩
      · simp only [ih]
      · rfl

theorem outerLoop_eq_of_ends (cfg : Config) (w : World) (fuel : Nat)
    (hends : sweepEnds cfg fuel cfg.knobTuneMin = true) :
    ∀ n j st, outerLoop cfg w fuel n j st =
      match runIters cfg w ((List.range' j n).flatMap (pass cfg fuel)) st with
      | (st1, some x) => (st1, x)
      | (st1, none) => (st1, .returned) := by
  intro n
  induction n with
  | zero => intro j st; simp [outerLoop, runIters]
  | succ n ih =>
    intro j st
    simp only [outerLoop, List.range'_succ, List.flatMap_cons, runIters_append, innerLoop_eq,
      hends, if_true]
    unfold pass
    rcases h : runIters cfg w
        ((knobSweep cfg fuel cfg.knobTuneMin).map (fun v => (fmtD02 j, v))) st with ⟨st1, _ | x⟩
    · simp only [ih]
      rfl
    · rfl

theorem executeRequests_eq (cfg : Config) (w : World) (fuel : Nat) :
    executeRequests cfg w fuel =
      match runIters cfg w (schedule cfg fuel) ⟨[], 0, 0⟩ with
      | (st1, some x) => (st1, x)
      | (st1, none) => (st1, scheduleExit cfg fuel) := by
  unfold executeRequests schedule scheduleExit
  cases hends : sweepEnds cfg fuel cfg.knobTuneMin
  · cases hn : cfg.logSampleSize with
    | zero => simp [outerLoop, runIters]
    | succ n =>
      simp only [outerLoop, innerLoop_eq, hends, Bool.false_eq_true, if_false, Nat.succ_ne_zero,
        Nat.add_one_ne_zero]
      unfold pass
      rcases h : runIters cfg w
          ((knobSweep cfg fuel cfg.knobTuneMin).map (fun v => (fmtD02 1, v))) ⟨[], 0, 0⟩
        with ⟨st1, _ | x⟩ <;> rfl
  · simp only [if_true]
    exact outerLoop_eq_of_ends cfg w fuel hends _ _ _

/-! ## Runs without error -/

theorem writeResponse_ok (cfg : Config) (w : World) (content prfx : String) (st : St)
    (h : w.fs st.wrote = ⟨none, none, none⟩) :
    writeResponse cfg w content prfx st
      = ⟨st.events ++ [.write (logPath cfg prfx) content], st.sent, st.wrote + 1⟩ := by
  simp [writeResponse, h, St.emit]

theorem payloadFor_of_sel (cfg : Config) (knobTune : GoFloat)
    (hsel : cfg.endpointSpecifier = 1 ∨ cfg.endpointSpecifier = 2) :
    payloadFor cfg knobTune = some ((payloadFor cfg knobTune).getD "") := by
  rcases hsel with h | h <;> simp [payloadFor, h]

theorem iteration_ok (cfg : Config) (w : World) (prfx : String) (knobTune : GoFloat) (st : St)
    (hsel : cfg.endpointSpecifier = 1 ∨ cfg.endpointSpecifier = 2)
    (hdry : cfg.dryFire = false) (hE : ErrorFree cfg w) :
    iteration cfg w prfx knobTune st
      = (⟨st.events ++ iterationEvents cfg w prfx knobTune st.sent, st.sent + 1, st.wrote + 6⟩,
          none) := by
  obtain ⟨⟨b, r, hb, hr⟩, -⟩ := hE st.sent
  have hfs : ∀ k, w.fs k = ⟨none, none, none⟩ := fun k => (hE k).2
  have hbody : bodyOf w st.sent = b := by simp [bodyOf, hb]
  have hresp : responseOf cfg w st.sent = r := by simp [responseOf, hbody, hr]
  unfold iteration
  rw [payloadFor_of_sel cfg knobTune hsel]
  simp only [hdry, hb, hr, Bool.false_eq_true, if_false]
  simp only [writeResponse_ok, hfs, St.emit, iterationEvents, requestFor, logBlocks, hbody,
    hresp, List.map_cons, List.map_nil, List.append_assoc, List.cons_append, List.nil_append,
    List.singleton_append]

theorem runIters_ok (cfg : Config) (w : World)
    (hsel : cfg.endpointSpecifier = 1 ∨ cfg.endpointSpecifier = 2)
    (hdry : cfg.dryFire = false) (hE : ErrorFree cfg w) (l : List (String × GoFloat)) :
    ∀ st, runIters cfg w l st
      = (⟨st.events ++ eventsFrom cfg w l st.sent, st.sent + l.length,
          st.wrote + 6 * l.length⟩, none) := by
  induction l with
  | nil => intro st; simp [runIters, eventsFrom]
  | cons a l ih =>
    intro st
    obtain ⟨p, v⟩ := a
    simp only [runIters, iteration_ok cfg w p v st hsel hdry hE, ih, eventsFrom,
      List.length_cons, List.append_assoc]
    have h1 : st.sent + 1 + l.length = st.sent + (l.length + 1) := by omega
    have h2 : st.wrote + 6 + 6 * l.length = st.wrote + 6 * (l.length + 1) := by omega
    rw [h1, h2]

theorem executeRequests_ok (cfg : Config) (w : World) (fuel : Nat)
    (hsel : cfg.endpointSpecifier = 1 ∨ cfg.endpointSpecifier = 2)
    (hdry : cfg.dryFire = false) (hE : ErrorFree cfg w) :
    executeRequests cfg w fuel
      = (⟨eventsFrom cfg w (schedule cfg fuel) 0, (schedule cfg fuel).length,
          6 * (schedule cfg fuel).length⟩, scheduleExit cfg fuel) := by
  rw [executeRequests_eq, runIters_ok cfg w hsel hdry hE]
  simp

theorem eventsFrom_append (cfg : Config) (w : World) (l1 l2 : List (String × GoFloat)) :
    ∀ k, eventsFrom cfg w (l1 ++ l2) k
      = eventsFrom cfg w l1 k ++ eventsFrom cfg w l2 (k + l1.length) := by
  induction l1 with
  | nil => intro k; simp [eventsFrom]
  | cons a l ih =>
    intro k
    obtain ⟨p, v⟩ := a
    have h1 : k + 1 + l.length = k + (l.length + 1) := by omega
    show iterationEvents cfg w p v k ++ eventsFrom cfg w (l ++ l2) (k + 1)
      = (iterationEvents cfg w p v k ++ eventsFrom cfg w l (k + 1))
          ++ eventsFrom cfg w l2 (k + (l.length + 1))
    rw [ih, List.append_assoc, h1]

theorem writesTo_append (p : String) (a b : List Event) :
    writesTo p (a ++ b) = writesTo p a ++ writesTo p b := by
  simp [writesTo, List.filterMap_append]

theorem writtenPaths_append (a b : List Event) :
    writtenPaths (a ++ b) = writtenPaths a ++ writtenPaths b := by
  simp [writtenPaths, List.filterMap_append]

theorem requestsOf_append (a b : List Event) :
    requestsOf (a ++ b) = requestsOf a ++ requestsOf b := by
  simp [requestsOf, List.filterMap_append]

theorem handleResponseBody_events (cfg : Config) (w : World) (b : String) :
    (handleResponseBody cfg w b).1 = [] ∨
      (handleResponseBody cfg w b).1 = [println ("data: " ++ b)] := by
  unfold handleResponseBody
  split
  · exact Or.inl rfl
  · split
    · exact Or.inr rfl
    · exact Or.inl rfl

theorem writesTo_handle (cfg : Config) (w : World) (b p : String) :
    writesTo p (handleResponseBody cfg w b).1 = [] := by
  rcases handleResponseBody_events cfg w b with h | h <;> simp [h, writesTo, println]

theorem writtenPaths_handle (cfg : Config) (w : World) (b : String) :
    writtenPaths (handleResponseBody cfg w b).1 = [] := by
  rcases handleResponseBody_events cfg w b with h | h <;> simp [h, writtenPaths, println]

theorem requestsOf_handle (cfg : Config) (w : World) (b : String) :
    requestsOf (handleResponseBody cfg w b).1 = [] := by
  rcases handleResponseBody_events cfg w b with h | h <;> simp [h, requestsOf, println]

theorem writesTo_map_write (p q : String) (l : List String) :
    writesTo p (l.map (.write q)) = if q = p then l else [] := by
  induction l with
  | nil => simp [writesTo]
  | cons a l ih =>
    have : writesTo p ((a :: l).map (.write q))
        = (if q = p then [a] else []) ++ writesTo p (l.map (.write q)) := by
      by_cases h : q = p <;> simp [writesTo, h]
    rw [this, ih]
    by_cases h : q = p <;> simp [h]

theorem writtenPaths_map_write (q : String) (l : List String) :
    writtenPaths (l.map (.write q)) = List.replicate l.length q := by
  induction l with
  | nil => simp [writtenPaths]
  | cons a l ih =>
    have : writtenPaths ((a :: l).map (.write q)) = q :: writtenPaths (l.map (.write q)) := by
      simp [writtenPaths]
    rw [this, ih]
    simp [List.replicate_succ]

theorem requestsOf_map_write (q : String) (l : List String) :
    requestsOf (l.map (.write q)) = [] := by
  induction l with
  | nil => simp [requestsOf]
  | cons a l ih =>
    have : requestsOf ((a :: l).map (.write q)) = requestsOf (l.map (.write q)) := by
      simp [requestsOf]
    rw [this, ih]

theorem writesTo_iterationEvents (cfg : Config) (w : World) (prfx : String) (v : GoFloat)
    (k : Nat) (p : String) :
    writesTo p (iterationEvents cfg w prfx v k)
      = if logPath cfg prfx = p then logBlocks cfg v (responseOf cfg w k) else [] := by
  unfold iterationEvents
  rw [writesTo_append, writesTo_append, writesTo_handle, writesTo_map_write]
  simp [writesTo]

theorem writtenPaths_iterationEvents (cfg : Config) (w : World) (prfx : String) (v : GoFloat)
    (k : Nat) :
    writtenPaths (iterationEvents cfg w prfx v k) = List.replicate 6 (logPath cfg prfx) := by
  unfold iterationEvents
  rw [writtenPaths_append, writtenPaths_append, writtenPaths_handle, writtenPaths_map_write]
  simp [writtenPaths, logBlocks]

theorem requestsOf_iterationEvents (cfg : Config) (w : World) (prfx : String) (v : GoFloat)
    (k : Nat) :
    requestsOf (iterationEvents cfg w prfx v k) = [requestFor cfg v] := by
  unfold iterationEvents
  rw [requestsOf_append, requestsOf_append, requestsOf_handle, requestsOf_map_write]
  simp [requestsOf]

/-! ## Batch prefixes and log paths -/

theorem digitChar_toNat (d : Nat) (h : d < 10) : (Nat.digitChar d).toNat - 48 = d := by
  interval_cases d <;> rfl

theorem toDigitsCore_value (fuel : Nat) :
    ∀ (n : Nat) (ds : List Char), n < fuel →
      (Nat.toDigitsCore 10 fuel n ds).foldl (fun a c => 10 * a + (c.toNat - 48)) 0
        = ds.foldl (fun a c => 10 * a + (c.toNat - 48)) n := by
  induction fuel with
  | zero => intro n ds h; omega
  | succ f ih =>
    intro n ds h
    have hd : (Nat.digitChar (n % 10)).toNat - 48 = n % 10 :=
      digitChar_toNat _ (Nat.mod_lt _ (by norm_num))
    simp only [Nat.toDigitsCore]
    split
    · rename_i h0
      have hn : n % 10 = n := by omega
      rw [hn] at hd
      simp only [List.foldl_cons, hd, hn, Nat.mul_zero, Nat.zero_add]
    · rename_i h0
      rw [ih (n / 10) _ (by omega)]
      simp only [List.foldl_cons, hd]
      congr 1
      omega

theorem decValue_repr (n : Nat) : decValue (Nat.repr n).data = n := by
  show (Nat.toDigitsCore 10 (n + 1) n []).foldl (fun a c => 10 * a + (c.toNat - 48)) 0 = n
  rw [toDigitsCore_value _ _ _ (Nat.lt_succ_self n)]
  rfl

theorem decValue_fmtD02 (j : Nat) : decValue (fmtD02 j).data = j := by
  unfold fmtD02
  split
  · have h : ("0" ++ Nat.repr j).data = '0' :: (Nat.repr j).data := by
      simp [String.data_append]
    rw [h]
    have := decValue_repr j
    unfold decValue at this ⊢
    simpa using this
  · exact decValue_repr j

theorem fmtD02_injective (j k : Nat) (h : fmtD02 j = fmtD02 k) : j = k := by
  rw [← decValue_fmtD02 j, ← decValue_fmtD02 k, h]

theorem logPath_injective (cfg : Config) (p q : String) (h : logPath cfg p = logPath cfg q) :
    p = q := by
  have h2 := congrArg String.data h
  simp only [logPath, String.data_append, List.append_assoc] at h2
  have h3 := List.append_cancel_left h2
  have h4 := List.append_cancel_left h3
  have h5 := List.append_cancel_left h4
  have h6 := List.append_cancel_left h5
  have h7 := List.append_cancel_left h6
  have h8 := List.append_cancel_right h7
  exact String.ext h8

theorem batchPath_injective (cfg : Config) (j k : Nat)
    (h : logPath cfg (fmtD02 j) = logPath cfg (fmtD02 k)) : j = k :=
  fmtD02_injective j k (logPath_injective cfg _ _ h)

theorem blocksFrom_length (cfg : Config) (w : World) (l : List GoFloat) :
    ∀ k, (blocksFrom cfg w l k).length = 6 * l.length := by
  induction l with
  | nil => intro k; rfl
  | cons a l ih =>
    intro k
    simp only [blocksFrom, List.length_append, ih, List.length_cons]
    simp [logBlocks]
    omega

theorem writesTo_pass (cfg : Config) (w : World) (j j2 : Nat) (l : List GoFloat) :
    ∀ k, writesTo (logPath cfg (fmtD02 j)) (eventsFrom cfg w (l.map (fun v => (fmtD02 j2, v))) k)
      = if j2 = j then blocksFrom cfg w l k else [] := by
  induction l with
  | nil => intro k; simp [eventsFrom, writesTo, blocksFrom]
  | cons a l ih =>
    intro k
    show writesTo _ (iterationEvents cfg w (fmtD02 j2) a k
      ++ eventsFrom cfg w (l.map (fun v => (fmtD02 j2, v))) (k + 1)) = _
    rw [writesTo_append, ih, writesTo_iterationEvents]
    by_cases h : j2 = j
    · subst h
      simp [blocksFrom]
    · have h2 : ¬ logPath cfg (fmtD02 j2) = logPath cfg (fmtD02 j) :=
        fun e => h (batchPath_injective cfg _ _ e)
      simp [h, h2]

theorem writtenPaths_pass (cfg : Config) (w : World) (j : Nat) (l : List GoFloat) :
    ∀ k, writtenPaths (eventsFrom cfg w (l.map (fun v => (fmtD02 j, v))) k)
      = List.replicate (6 * l.length) (logPath cfg (fmtD02 j)) := by
  induction l with
  | nil => intro k; simp [eventsFrom, writtenPaths]
  | cons a l ih =>
    intro k
    show writtenPaths (iterationEvents cfg w (fmtD02 j) a k
      ++ eventsFrom cfg w (l.map (fun v => (fmtD02 j, v))) (k + 1)) = _
    rw [writtenPaths_append, ih, writtenPaths_iterationEvents, List.length_cons,
      ← List.replicate_add]
    congr 1
    omega

theorem writesTo_batches (cfg : Config) (w : World) (fuel j : Nat) :
    ∀ n a k,
      writesTo (logPath cfg (fmtD02 j))
          (eventsFrom cfg w ((List.range' a n).flatMap (pass cfg fuel)) k)
        = if a ≤ j ∧ j < a + n then
            blocksFrom cfg w (knobSweep cfg fuel cfg.knobTuneMin)
              (k + (j - a) * (knobSweep cfg fuel cfg.knobTuneMin).length)
          else [] := by
  intro n
  induction n with
  | zero =>
    intro a k
    have : ¬ (a ≤ j ∧ j < a + 0) := by omega
    simp [eventsFrom, writesTo, this]
  | succ n ih =>
    intro a k
    rw [List.range'_succ, List.flatMap_cons, eventsFrom_append, writesTo_append, ih]
    unfold pass
    rw [writesTo_pass, List.length_map]
    by_cases h : a = j
    · subst h
      have h1 : ¬ (a + 1 ≤ a ∧ a < a + 1 + n) := by omega
      have h2 : a ≤ a ∧ a < a + (n + 1) := by omega
      simp [h1, h2]
    · by_cases h3 : a + 1 ≤ j ∧ j < a + 1 + n
      · have h4 : a ≤ j ∧ j < a + (n + 1) := by omega
        have h5 : j - a = (j - (a + 1)) + 1 := by omega
        simp only [h, h3, h4, if_true, if_false, and_self, List.nil_append]
        rw [h5, Nat.add_mul, Nat.one_mul]
        congr 1
        omega
      · have h4 : ¬ (a ≤ j ∧ j < a + (n + 1)) := by omega
        simp [h, h3, h4]

theorem mem_writtenPaths_batches (cfg : Config) (w : World) (fuel : Nat) (p : String)
    (hne : knobSweep cfg fuel cfg.knobTuneMin ≠ []) :
    ∀ n a k,
      p ∈ writtenPaths (eventsFrom cfg w ((List.range' a n).flatMap (pass cfg fuel)) k)
        ↔ ∃ j, a ≤ j ∧ j < a + n ∧ p = logPath cfg (fmtD02 j) := by
  intro n
  induction n with
  | zero =>
    intro a k
    simp only [List.range'_zero, List.flatMap_nil, eventsFrom, writtenPaths, List.filterMap_nil,
      List.not_mem_nil, false_iff]
    rintro ⟨j, h1, h2, -⟩
    omega
  | succ n ih =>
    intro a k
    rw [List.range'_succ, List.flatMap_cons, eventsFrom_append, writtenPaths_append,
      List.mem_append, ih]
    unfold pass
    rw [writtenPaths_pass]
    have hlen : 6 * (knobSweep cfg fuel cfg.knobTuneMin).length ≠ 0 := by
      have := List.length_pos.2 hne
      omega
    rw [List.mem_replicate]
    constructor
    · rintro (⟨-, rfl⟩ | ⟨j, h1, h2, rfl⟩)
      · exact ⟨a, le_refl _, by omega, rfl⟩
      · exact ⟨j, by omega, by omega, rfl⟩
    · rintro ⟨j, h1, h2, rfl⟩
      by_cases h : j = a
      · subst h
        exact Or.inl ⟨hlen, rfl⟩
      · exact Or.inr ⟨j, by omega, by omega, rfl⟩

/-! ## Writes of a batch, in every run -/

theorem extends_trans (q : String) (a b c : List Event)
    (h1 : ∃ r, b = a ++ r ∧ ∀ p ∈ writtenPaths r, p = q)
    (h2 : ∃ r, c = b ++ r ∧ ∀ p ∈ writtenPaths r, p = q) :
    ∃ r, c = a ++ r ∧ ∀ p ∈ writtenPaths r, p = q := by
  obtain ⟨r1, e1, w1⟩ := h1
  obtain ⟨r2, e2, w2⟩ := h2
  refine ⟨r1 ++ r2, by rw [e2, e1, List.append_assoc], ?_⟩
  intro p hp
  rw [writtenPaths_append, List.mem_append] at hp
  rcases hp with hp | hp
  · exact w1 p hp
  · exact w2 p hp

theorem writeResponse_writes (cfg : Config) (w : World) (content prfx : String) (st : St) :
    ∃ r, (writeResponse cfg w content prfx st).events = st.events ++ r ∧
      ∀ p ∈ writtenPaths r, p = logPath cfg prfx := by
  rcases h : w.fs st.wrote with ⟨a, b, c⟩
  rcases a with _ | a <;> rcases b with _ | b <;> rcases c with _ | c
  · exact ⟨[.write (logPath cfg prfx) content],
      by simp [writeResponse, h, St.emit], by simp [writtenPaths]⟩
  · exact ⟨[.write (logPath cfg prfx) content, println ("Error: " ++ c)],
      by simp [writeResponse, h, St.emit], by simp [writtenPaths, println]⟩
  · exact ⟨[println ("Error: " ++ b)],
      by simp [writeResponse, h, St.emit], by simp [writtenPaths, println]⟩
  · exact ⟨[println ("Error: " ++ b)],
      by simp [writeResponse, h, St.emit], by simp [writtenPaths, println]⟩
  · exact ⟨[println ("Error: " ++ a), .write (logPath cfg prfx) content],
      by simp [writeResponse, h, St.emit], by simp [writtenPaths, println]⟩
  · exact ⟨[println ("Error: " ++ a), .write (logPath cfg prfx) content,
        println ("Error: " ++ c)],
      by simp [writeResponse, h, St.emit], by simp [writtenPaths, println]⟩
  · exact ⟨[println ("Error: " ++ a), println ("Error: " ++ b)],
      by simp [writeResponse, h, St.emit], by simp [writtenPaths, println]⟩
  · exact ⟨[println ("Error: " ++ a), println ("Error: " ++ b)],
      by simp [writeResponse, h, St.emit], by simp [writtenPaths, println]⟩

theorem six_writes (cfg : Config) (w : World) (prfx c1 c2 c3 c4 c5 c6 : String) (s : St) :
    ∃ r, (writeResponse cfg w c6 prfx (writeResponse cfg w c5 prfx (writeResponse cfg w c4 prfx
        (writeResponse cfg w c3 prfx (writeResponse cfg w c2 prfx
          (writeResponse cfg w c1 prfx s)))))).events = s.events ++ r ∧
      ∀ p ∈ writtenPaths r, p = logPath cfg prfx :=
  extends_trans _ _ _ _ (extends_trans _ _ _ _ (extends_trans _ _ _ _
    (extends_trans _ _ _ _ (extends_trans _ _ _ _ (writeResponse_writes cfg w c1 prfx s)
      (writeResponse_writes cfg w c2 prfx _)) (writeResponse_writes cfg w c3 prfx _))
    (writeResponse_writes cfg w c4 prfx _)) (writeResponse_writes cfg w c5 prfx _))
    (writeResponse_writes cfg w c6 prfx _)

theorem dispatch_handle_writes (cfg : Config) (w : World) (b q : String) (req : Request)
    (l : List Event) :
    ∃ r, l ++ Event.dispatch req :: (handleResponseBody cfg w b).1 = l ++ r ∧
      ∀ p ∈ writtenPaths r, p = q := by
  refine ⟨Event.dispatch req :: (handleResponseBody cfg w b).1, rfl, ?_⟩
  intro p hp
  have : writtenPaths (Event.dispatch req :: (handleResponseBody cfg w b).1)
      = writtenPaths (handleResponseBody cfg w b).1 := by
    simp [writtenPaths]
  rw [this, writtenPaths_handle] at hp
  simp at hp

theorem iteration_writes (cfg : Config) (w : World) (prfx : String) (v : GoFloat) (st : St) :
    ∃ r, (iteration cfg w prfx v st).1.events = st.events ++ r ∧
      ∀ p ∈ writtenPaths r, p = logPath cfg prfx := by
  unfold iteration
  rcases payloadFor cfg v with _ | payload
  · exact ⟨[], by simp, by simp [writtenPaths]⟩
  · simp only
    cases hdry : cfg.dryFire
    · simp only [Bool.false_eq_true, if_false]
      rcases w.transport st.sent with e | e | b
      · exact ⟨[.dispatch (mkRequest cfg payload), println e], by simp [St.emit],
          by simp [writtenPaths, println]⟩
      · exact ⟨[.dispatch (mkRequest cfg payload), println e], by simp [St.emit],
          by simp [writtenPaths, println]⟩
      · simp only
        have h2 := dispatch_handle_writes cfg w b (logPath cfg prfx) (mkRequest cfg payload)
          st.events
        rcases (handleResponseBody cfg w b).2 with x | r
        · simpa [St.emit] using h2
        · simp only
          refine extends_trans _ _ _ _ h2 ?_
          have h6 := six_writes cfg w prfx
            (cfg.fileSeperator ++ "\nprompt: " ++ cfg.prompt ++ "\n")
            (cfg.knob ++ ": " ++ fmtF1 v ++ "\n")
            ("endpoint: " ++ endpoints cfg.endpointSpecifier ++ "\n")
            ("model: " ++ r.Model ++ "\n")
            ("messages.role: " ++ cfg.messagesRole ++ "\n\n\nobservations:\n"
              ++ cfg.fileSeperator ++ "\n")
            ("\nresponse:\n\n" ++ r.ResponseContent ++ "\n\n\n\n")
            (({ (st.emit [Event.dispatch (mkRequest cfg payload)])
              with sent := st.sent + 1 } : St).emit (handleResponseBody cfg w b).1)
          simpa [St.emit] using h6
    · simp only [if_true]
      exact ⟨[.stdout (dryFireData payload ++ [10])], by simp [St.emit], by simp [writtenPaths]⟩

theorem innerLoop_writes (cfg : Config) (w : World) (prfx : String) :
    ∀ (fuel : Nat) (knobTune : GoFloat) (st : St),
      ∃ r, (innerLoop cfg w prfx fuel knobTune st).1.events = st.events ++ r ∧
        ∀ p ∈ writtenPaths r, p = logPath cfg prfx := by
  intro fuel
  induction fuel with
  | zero =>
    intro k st
    refine ⟨[], ?_, by simp [writtenPaths]⟩
    cases h : f64Le k cfg.knobTuneMax <;> simp [innerLoop, h]
  | succ f ih =>
    intro k st
    cases h : f64Le k cfg.knobTuneMax
    · exact ⟨[], by simp [innerLoop, h], by simp [writtenPaths]⟩
    · simp only [innerLoop, h, if_true]
      have h1 := iteration_writes cfg w prfx k st
      rcases hi : iteration cfg w prfx k st with ⟨st1, _ | x⟩
      · rw [hi] at h1
        exact extends_trans _ _ _ _ h1 (ih _ st1)
      · rw [hi] at h1
        exact h1

theorem outerLoop_segments (cfg : Config) (w : World) (fuel : Nat) :
    ∀ (n j : Nat) (st : St), ∃ segs : List (List Event),
      (outerLoop cfg w fuel n j st).1.events = st.events ++ segs.flatten ∧ segs.length ≤ n ∧
      ∀ (i : Nat) (seg : List Event), segs[i]? = some seg →
        (∃ st0 : St, st0.events = st.events ++ (segs.take i).flatten ∧
          (innerLoop cfg w (fmtD02 (j + i)) fuel cfg.knobTuneMin st0).1.events
            = st0.events ++ seg) ∧
        ∀ p ∈ writtenPaths seg, p = logPath cfg (fmtD02 (j + i)) := by
  intro n
  induction n with
  | zero =>
    intro j st
    exact ⟨[], by simp [outerLoop], by simp, by simp⟩
  | succ n ih =>
    intro j st
    obtain ⟨r, hr, hw⟩ := innerLoop_writes cfg w (fmtD02 j) fuel cfg.knobTuneMin st
    simp only [outerLoop]
    rcases hi : innerLoop cfg w (fmtD02 j) fuel cfg.knobTuneMin st with ⟨st1, _ | x⟩
    · rw [hi] at hr
      obtain ⟨segs, h1, h2, h3⟩ := ih (j + 1) st1
      refine ⟨r :: segs, ?_, by simpa using h2, ?_⟩
      · show (outerLoop cfg w fuel n (j + 1) st1).1.events = _
        rw [h1, hr]
        simp
      · intro i seg hseg
        cases i with
        | zero =>
          simp only [List.getElem?_cons_zero, Option.some.injEq] at hseg
          subst hseg
          refine ⟨⟨st, by simp, ?_⟩, hw⟩
          rw [Nat.add_zero, hi]
          exact hr
        | succ i =>
          simp only [List.getElem?_cons_succ] at hseg
          obtain ⟨⟨st0, e0, e1⟩, hp⟩ := h3 i seg hseg
          have hj : j + (i + 1) = j + 1 + i := by omega
          rw [hj]
          refine ⟨⟨st0, ?_, e1⟩, hp⟩
          rw [e0, hr]
          simp
    · rw [hi] at hr
      refine ⟨[r], by simpa using hr, by simp, ?_⟩
      intro i seg hseg
      cases i with
      | zero =>
        simp only [List.getElem?_cons_zero, Option.some.injEq] at hseg
        subst hseg
        refine ⟨⟨st, by simp, ?_⟩, hw⟩
        rw [Nat.add_zero, hi]
        exact hr
      | succ i => simp at hseg

theorem mem_writtenPaths_flatten (segs : List (List Event)) (p : String)
    (h : p ∈ writtenPaths segs.flatten) :
    ∃ (i : Nat) (seg : List Event), segs[i]? = some seg ∧ p ∈ writtenPaths seg := by
  induction segs with
  | nil => simp [writtenPaths] at h
  | cons s rest ih =>
    rw [List.flatten_cons, writtenPaths_append, List.mem_append] at h
    rcases h with h | h
    · exact ⟨0, s, by simp, h⟩
    · obtain ⟨i, seg, h1, h2⟩ := ih h
      exact ⟨i + 1, seg, by simpa using h1, h2⟩

theorem executeRequests_segments (cfg : Config) (w : World) (fuel : Nat) :
    ∃ segs : List (List Event),
      (executeRequests cfg w fuel).1.events = segs.flatten ∧
      segs.length ≤ cfg.logSampleSize ∧
      ∀ (i : Nat) (seg : List Event), segs[i]? = some seg →
        (∃ st0 : St, st0.events = (segs.take i).flatten ∧
          (innerLoop cfg w (fmtD02 (i + 1)) fuel cfg.knobTuneMin st0).1.events
            = st0.events ++ seg) ∧
        ∀ p ∈ writtenPaths seg, p = logPath cfg (fmtD02 (i + 1)) := by
  obtain ⟨segs, h1, h2, h3⟩ := outerLoop_segments cfg w fuel cfg.logSampleSize 1 ⟨[], 0, 0⟩
  refine ⟨segs, by simpa [executeRequests] using h1, h2, ?_⟩
  intro i seg hseg
  obtain ⟨⟨st0, e0, e1⟩, hp⟩ := h3 i seg hseg
  rw [Nat.add_comm 1 i] at e1 hp
  exact ⟨⟨st0, by simpa using e0, e1⟩, hp⟩

theorem executeRequests_paths (cfg : Config) (w : World) (fuel : Nat) (p : String)
    (h : p ∈ writtenPaths (executeRequests cfg w fuel).1.events) :
    ∃ j, 1 ≤ j ∧ j ≤ cfg.logSampleSize ∧ p = logPath cfg (fmtD02 j) := by
  obtain ⟨segs, h1, h2, h3⟩ := executeRequests_segments cfg w fuel
  rw [h1] at h
  obtain ⟨i, seg, hi, hp⟩ := mem_writtenPaths_flatten segs p h
  have hlt : i < segs.length := by
    rcases Nat.lt_or_ge i segs.length with h | h
    · exact h
    · rw [List.getElem?_eq_none h] at hi
      cases hi
  exact ⟨i + 1, by omega, by omega, (h3 i seg hi).2 p hp⟩

/-! ## Log files: properties -/

theorem knobSweep_ne_nil (cfg : Config) (fuel : Nat)
    (hends : sweepEnds cfg fuel cfg.knobTuneMin = true)
    (hne : f64Le cfg.knobTuneMin cfg.knobTuneMax = true) :
    knobSweep cfg fuel cfg.knobTuneMin ≠ [] := by
  cases fuel with
  | zero => simp [sweepEnds, hne] at hends
  | succ f => simp [knobSweep, hne]

theorem schedule_of_ends (cfg : Config) (fuel : Nat)
    (hends : sweepEnds cfg fuel cfg.knobTuneMin = true) :
    schedule cfg fuel = (List.range' 1 cfg.logSampleSize).flatMap (pass cfg fuel) ∧
      scheduleExit cfg fuel = .returned := by
  simp [schedule, scheduleExit, hends]

/-- Claim C5, amended. With `logSampleSize = N` below `2^63 - 1` (so that the
`int` batch counter of the program does not overflow):
in every run, errors included, every file write goes to the path of a batch
index `j` with `1 ≤ j ≤ N`, and the effects of the run are those of the inner
loops of the batches `1, 2, ...` one after the other (at most `N` of them), the
writes of the inner loop of batch `j` going to the path of `j` only;
the path of `j` is `logs/<title>/<knob>/<NN>-api-log_<knob>.txt`, where `NN` is
`j` in decimal with a zero in front when `j` is below 10 ("01", "02", ...), and
different indices have different paths;
in a run without error (selector 1 or 2, dry run off) whose sweep has at least
one knob value and ends, the run returns and the files written to are exactly
the `N` paths of the indices `1..N`. -/
theorem C5_log_files (cfg : Config) (_hN : cfg.logSampleSize < 2 ^ 63 - 1) :
    (∀ (w : World) (fuel : Nat),
      (∀ p ∈ writtenPaths (executeRequests cfg w fuel).1.events,
        ∃ j, 1 ≤ j ∧ j ≤ cfg.logSampleSize ∧ p = logPath cfg (fmtD02 j)) ∧
      ∃ segs : List (List Event),
        (executeRequests cfg w fuel).1.events = segs.flatten ∧
        segs.length ≤ cfg.logSampleSize ∧
        ∀ (i : Nat) (seg : List Event), segs[i]? = some seg →
          (∃ st0 : St, st0.events = (segs.take i).flatten ∧
            (innerLoop cfg w (fmtD02 (i + 1)) fuel cfg.knobTuneMin st0).1.events
              = st0.events ++ seg) ∧
          ∀ p ∈ writtenPaths seg, p = logPath cfg (fmtD02 (i + 1))) ∧
      (∀ (w : World) (prfx : String) (fuel : Nat) (knobTune : GoFloat) (st : St),
        ∃ r, (innerLoop cfg w prfx fuel knobTune st).1.events = st.events ++ r ∧
          ∀ p ∈ writtenPaths r, p = logPath cfg prfx) ∧
      ((List.range' 1 cfg.logSampleSize).map (fun j => logPath cfg (fmtD02 j))).Nodup ∧
      ((List.range' 1 cfg.logSampleSize).map (fun j => logPath cfg (fmtD02 j))).length
        = cfg.logSampleSize ∧
      (∀ j k, logPath cfg (fmtD02 j) = logPath cfg (fmtD02 k) → j = k) ∧
      (∀ j, logPath cfg (fmtD02 j)
          = "logs/" ++ cfg.promptFileTitle ++ "/" ++ cfg.knob ++ "/" ++ fmtD02 j ++ "-api-log_"
              ++ cfg.knob ++ ".txt" ∧
        (j < 10 → fmtD02 j = "0" ++ String.singleton (Nat.digitChar j)) ∧
        (10 ≤ j → fmtD02 j = Nat.repr j) ∧ decValue (fmtD02 j).data = j) ∧
      fmtD02 1 = "01" ∧ fmtD02 2 = "02" ∧
      (∀ (w : World) (fuel : Nat),
        (cfg.endpointSpecifier = 1 ∨ cfg.endpointSpecifier = 2) → cfg.dryFire = false →
        ErrorFree cfg w → sweepEnds cfg fuel cfg.knobTuneMin = true →
        f64Le cfg.knobTuneMin cfg.knobTuneMax = true →
        (executeRequests cfg w fuel).2 = .returned ∧
        (∀ p, p ∈ writtenPaths (executeRequests cfg w fuel).1.events ↔
          ∃ j, 1 ≤ j ∧ j ≤ cfg.logSampleSize ∧ p = logPath cfg (fmtD02 j)) ∧
        (executeRequests cfg w fuel).1.events
          = eventsFrom cfg w ((List.range' 1 cfg.logSampleSize).flatMap (pass cfg fuel)) 0 ∧
        (∀ j k, writtenPaths (eventsFrom cfg w (pass cfg fuel j) k)
          = List.replicate (6 * (knobSweep cfg fuel cfg.knobTuneMin).length)
              (logPath cfg (fmtD02 j)))) := by
  refine ⟨fun w fuel => ⟨executeRequests_paths cfg w fuel, executeRequests_segments cfg w fuel⟩,
    fun w prfx => innerLoop_writes cfg w prfx, ?_, by simp, batchPath_injective cfg, ?_, rfl,
    rfl, ?_⟩
  · refine (List.nodup_range' 1 cfg.logSampleSize).map ?_
    intro j k h
    exact batchPath_injective cfg j k h
  · intro j
    refine ⟨rfl, ?_, ?_, decValue_fmtD02 j⟩
    · intro h
      simp only [fmtD02, h, if_true]
      rw [repr_lt_ten j h]
    · intro h
      have : ¬ j < 10 := by omega
      simp only [fmtD02, this, if_false]
  · intro w fuel hsel hdry hE hends hne
    have hs := schedule_of_ends cfg fuel hends
    have hrun := executeRequests_ok cfg w fuel hsel hdry hE
    rw [hs.1, hs.2] at hrun
    refine ⟨by rw [hrun], ?_, by rw [hrun], ?_⟩
    · intro p
      rw [hrun]
      rw [mem_writtenPaths_batches cfg w fuel p (knobSweep_ne_nil cfg fuel hends hne)]
      constructor
      · rintro ⟨j, h1, h2, h3⟩
        exact ⟨j, h1, by omega, h3⟩
      · rintro ⟨j, h1, h2, h3⟩
        exact ⟨j, h1, by omega, h3⟩
    · intro j k
      unfold pass
      exact writtenPaths_pass cfg w j _ k

theorem sampleWorld_errorFree : ErrorFree (sourceConfig "") sampleWorld :=
  fun _ => ⟨⟨"resp", ⟨"gpt-3.5-turbo", "X"⟩, rfl, rfl⟩, rfl⟩

set_option maxRecDepth 100000 in
theorem sourceConfig_sweepEnds :
    sweepEnds (sourceConfig "") 10 (sourceConfig "").knobTuneMin = true := by
  decide

set_option maxRecDepth 100000 in
theorem sourceConfig_min_le_max :
    f64Le (sourceConfig "").knobTuneMin (sourceConfig "").knobTuneMax = true := by
  decide

theorem C5_log_files_witness :
    (sourceConfig "").logSampleSize < 2 ^ 63 - 1 ∧
      (∀ p ∈ writtenPaths (executeRequests (sourceConfig "") failingWorld 10).1.events,
        ∃ j, 1 ≤ j ∧ j ≤ 2 ∧ p = logPath (sourceConfig "") (fmtD02 j)) ∧
      (executeRequests (sourceConfig "") sampleWorld 10).2 = .returned ∧
      (∀ p, p ∈ writtenPaths (executeRequests (sourceConfig "") sampleWorld 10).1.events ↔
        ∃ j, 1 ≤ j ∧ j ≤ 2 ∧ p = logPath (sourceConfig "") (fmtD02 j)) :=
  ⟨by decide,
    ((C5_log_files (sourceConfig "") (by decide)).1 failingWorld 10).1,
    ((C5_log_files (sourceConfig "") (by decide)).2.2.2.2.2.2.2.2 sampleWorld 10 (Or.inl rfl) rfl
      sampleWorld_errorFree sourceConfig_sweepEnds sourceConfig_min_le_max).1,
    ((C5_log_files (sourceConfig "") (by decide)).2.2.2.2.2.2.2.2 sampleWorld 10 (Or.inl rfl) rfl
      sampleWorld_errorFree sourceConfig_sweepEnds sourceConfig_min_le_max).2.1⟩

set_option maxRecDepth 100000 in
theorem emptySweepConfig_gt :
    f64Le emptySweepConfig.knobTuneMin emptySweepConfig.knobTuneMax = false := by
  decide

/-- Claim C5 as stated fails: with the source's configuration and the knob
range reversed (from 1.0 up to 0.6), two batches, selector 1, the dry run off
and a world without error, the run returns with no effect at all: no file is
written to, not two. -/
theorem C5_counterexample :
    emptySweepConfig.logSampleSize = 2 ∧ emptySweepConfig.endpointSpecifier = 1 ∧
      emptySweepConfig.dryFire = false ∧ ErrorFree emptySweepConfig sampleWorld ∧
      ∀ fuel, executeRequests emptySweepConfig sampleWorld fuel = (⟨[], 0, 0⟩, .returned) ∧
        writtenPaths (executeRequests emptySweepConfig sampleWorld fuel).1.events = [] ∧
        ¬ (∀ j, 1 ≤ j → j ≤ emptySweepConfig.logSampleSize →
          logPath emptySweepConfig (fmtD02 j)
            ∈ writtenPaths (executeRequests emptySweepConfig sampleWorld fuel).1.events) := by
  have hN : emptySweepConfig.logSampleSize = 2 := rfl
  have hrun : ∀ fuel,
      executeRequests emptySweepConfig sampleWorld fuel = (⟨[], 0, 0⟩, .returned) := by
    intro fuel
    have hin : ∀ (p : String) (st : St),
        innerLoop emptySweepConfig sampleWorld p fuel emptySweepConfig.knobTuneMin st
          = (st, none) := by
      intro p st
      cases fuel <;> simp [innerLoop, emptySweepConfig_gt]
    simp only [executeRequests, hN, outerLoop, hin]
  refine ⟨hN, rfl, rfl, fun _ => ⟨⟨"resp", ⟨"gpt-3.5-turbo", "X"⟩, rfl, rfl⟩, rfl⟩, ?_⟩
  intro fuel
  refine ⟨hrun fuel, by rw [hrun fuel]; rfl, ?_⟩
  intro h
  have h1 := h 1 (by decide) (by rw [hN]; decide)
  rw [hrun fuel] at h1
  simp [writtenPaths] at h1

set_option maxRecDepth 100000 in
/-- Claim C6 as stated fails: in the run of the source's configuration, the
fifth text written to the first log file is the role line with its label
`messages.role: ` in front, not the bare role followed by the observations
header. -/
theorem C6_counterexample :
    (writesTo "logs/hello-world-program/temperature/01-api-log_temperature.txt"
        (executeRequests (sourceConfig "") sampleWorld 10).1.events)[4]?
      = some "messages.role: user\n\n\nobservations:\n_______________________________________\n" ∧
    (writesTo "logs/hello-world-program/temperature/01-api-log_temperature.txt"
        (executeRequests (sourceConfig "") sampleWorld 10).1.events)[4]?
      ≠ some "user\n\n\nobservations:\n_______________________________________\n" := by
  decide

/-- Claim C6, amended: in a run without error whose sweep ends, the texts
written to the log file of batch `j` are, for each swept knob value in the order
of the sweep, six texts of these forms and in this order, the six of one knob
value being contiguous: separator and prompt; knob name and value with one
decimal; endpoint; model of the normalised result; the label `messages.role: `,
the role and the observations header; the response text of the normalised
result. The result used for a knob value is that of the answer to its own
request. (The number of batches is below `2^63 - 1`, so that the `int` batch
counter of the program does not overflow.) -/
theorem C6_log_text (cfg : Config) (w : World) (fuel : Nat)
    (hsel : cfg.endpointSpecifier = 1 ∨ cfg.endpointSpecifier = 2)
    (hdry : cfg.dryFire = false) (hE : ErrorFree cfg w)
    (hends : sweepEnds cfg fuel cfg.knobTuneMin = true)
    (_hN : cfg.logSampleSize < 2 ^ 63 - 1)
    (j : Nat) (hj1 : 1 ≤ j) (hj2 : j ≤ cfg.logSampleSize) :
    writesTo (logPath cfg (fmtD02 j)) (executeRequests cfg w fuel).1.events
        = blocksFrom cfg w (knobSweep cfg fuel cfg.knobTuneMin)
            ((j - 1) * (knobSweep cfg fuel cfg.knobTuneMin).length) ∧
      (∀ k, blocksFrom cfg w [] k = []) ∧
      (∀ v vs k, blocksFrom cfg w (v :: vs) k =
        [cfg.fileSeperator ++ "\nprompt: " ++ cfg.prompt ++ "\n",
         cfg.knob ++ ": " ++ fmtF1 v ++ "\n",
         "endpoint: " ++ endpoints cfg.endpointSpecifier ++ "\n",
         "model: " ++ (responseOf cfg w k).Model ++ "\n",
         "messages.role: " ++ cfg.messagesRole ++ "\n\n\nobservations:\n" ++ cfg.fileSeperator
           ++ "\n",
         "\nresponse:\n\n" ++ (responseOf cfg w k).ResponseContent ++ "\n\n\n\n"]
        ++ blocksFrom cfg w vs (k + 1)) := by
  have hs := schedule_of_ends cfg fuel hends
  have hrun := executeRequests_ok cfg w fuel hsel hdry hE
  rw [hs.1, hs.2] at hrun
  refine ⟨?_, fun _ => rfl, fun _ _ _ => rfl⟩
  rw [hrun]
  simp only
  rw [writesTo_batches]
  have h : 1 ≤ j ∧ j < 1 + cfg.logSampleSize := by omega
  simp [h]

theorem C6_log_text_witness :
    writesTo (logPath (sourceConfig "") (fmtD02 2))
        (executeRequests (sourceConfig "") sampleWorld 10).1.events
      = blocksFrom (sourceConfig "") sampleWorld
          (knobSweep (sourceConfig "") 10 (sourceConfig "").knobTuneMin)
          ((2 - 1) * (knobSweep (sourceConfig "") 10 (sourceConfig "").knobTuneMin).length) :=
  (C6_log_text (sourceConfig "") sampleWorld 10 (Or.inl rfl) rfl sampleWorld_errorFree
    sourceConfig_sweepEnds (by decide) 2 (by decide) (by decide)).1

/-! ## Runs that end early -/

theorem executeRequests_halts_at (cfg : Config) (w : World) (fuel : Nat)
    (pre post : List (String × GoFloat)) (p : String) (v : GoFloat) (st st1 : St) (x : Exit)
    (hsched : schedule cfg fuel = pre ++ (p, v) :: post)
    (hpre : runIters cfg w pre ⟨[], 0, 0⟩ = (st, none))
    (hit : iteration cfg w p v st = (st1, some x)) :
    executeRequests cfg w fuel = (st1, x) := by
  rw [executeRequests_eq, hsched, runIters_append, hpre]
  simp only [runIters, hit]

theorem writeResponse_sent (cfg : Config) (w : World) (content prfx : String) (st : St) :
    (writeResponse cfg w content prfx st).sent = st.sent := by
  rcases h : w.fs st.wrote with ⟨a, b, c⟩
  cases a <;> cases b <;> cases c <;> simp [writeResponse, h, St.emit]

theorem writeResponse_events (cfg : Config) (w : World) (content prfx : String) (st : St) :
    ∃ r, (writeResponse cfg w content prfx st).events = st.events ++ r := by
  rcases h : w.fs st.wrote with ⟨a, b, c⟩
  cases a <;> cases b <;> cases c <;> simp [writeResponse, h, St.emit]

theorem iteration_sent (cfg : Config) (w : World) (p : String) (v : GoFloat) (st st1 : St)
    (h : iteration cfg w p v st = (st1, none)) : st1.sent = st.sent + 1 := by
  unfold iteration at h
  split at h
  · simp at h
  · split at h
    · simp at h
    · split at h
      · simp at h
      · simp at h
      · split at h
        · simp at h
        · simp only [Prod.mk.injEq, and_true] at h
          rw [← h]
          simp only [writeResponse_sent, St.emit]

theorem runIters_sent (cfg : Config) (w : World) (l : List (String × GoFloat)) :
    ∀ st st1, runIters cfg w l st = (st1, none) → st1.sent = st.sent + l.length := by
  induction l with
  | nil =>
    intro st st1 h
    simp only [runIters, Prod.mk.injEq, and_true] at h
    simp [h]
  | cons a l ih =>
    intro st st1 h
    obtain ⟨p, v⟩ := a
    simp only [runIters] at h
    rcases hi : iteration cfg w p v st with ⟨st2, _ | x⟩
    · rw [hi] at h
      have h1 := iteration_sent cfg w p v st st2 hi
      have h2 := ih st2 st1 h
      simp only [List.length_cons]
      omega
    · rw [hi] at h
      simp at h

theorem iteration_congr (cfg : Config) (w : World) (t : Nat → TransportResult) (p : String)
    (v : GoFloat) (st : St) (ht : t st.sent = w.transport st.sent) :
    iteration cfg { w with transport := t } p v st = iteration cfg w p v st := by
  unfold iteration
  simp only [ht]
  rfl

theorem runIters_congr (cfg : Config) (w : World) (t : Nat → TransportResult)
    (l : List (String × GoFloat)) :
    ∀ st st1, runIters cfg w l st = (st1, none) →
      (∀ k, st.sent ≤ k → k < st1.sent → t k = w.transport k) →
      runIters cfg { w with transport := t } l st = (st1, none) := by
  induction l with
  | nil => intro st st1 h _; simpa [runIters] using h
  | cons a l ih =>
    intro st st1 h ht
    obtain ⟨p, v⟩ := a
    simp only [runIters] at h ⊢
    rcases hi : iteration cfg w p v st with ⟨st2, _ | x⟩
    · rw [hi] at h
      have h1 := iteration_sent cfg w p v st st2 hi
      have h2 := runIters_sent cfg w l st2 st1 h
      rw [iteration_congr cfg w t p v st (ht _ (le_refl _) (by omega)), hi]
      exact ih st2 st1 h (fun k hk1 hk2 => ht k (by omega) hk2)
    · rw [hi] at h
      simp at h

theorem iteration_transport_error (cfg : Config) (w : World) (p : String) (v : GoFloat) (st : St)
    (e : String) (hsel : cfg.endpointSpecifier = 1 ∨ cfg.endpointSpecifier = 2)
    (hdry : cfg.dryFire = false)
    (herr : w.transport st.sent = .doError e ∨ w.transport st.sent = .readError e) :
    iteration cfg w p v st
      = (⟨st.events ++ [.dispatch (requestFor cfg v), println e], st.sent + 1, st.wrote⟩,
          some .returned) := by
  unfold iteration
  rw [payloadFor_of_sel cfg v hsel]
  rcases herr with h | h <;>
    simp [hdry, h, St.emit, requestFor]

theorem iteration_events (cfg : Config) (w : World) (p : String) (v : GoFloat) (st : St)
    (hsel : cfg.endpointSpecifier = 1 ∨ cfg.endpointSpecifier = 2)
    (hdry : cfg.dryFire = false) :
    ∃ r, (iteration cfg w p v st).1.events
      = st.events ++ .dispatch (requestFor cfg v) :: r := by
  unfold iteration
  rw [payloadFor_of_sel cfg v hsel]
  simp only [hdry, Bool.false_eq_true, if_false]
  rcases w.transport st.sent with e | e | b
  · exact ⟨[println e], by simp [St.emit, requestFor]⟩
  · exact ⟨[println e], by simp [St.emit, requestFor]⟩
  · simp only
    rcases (handleResponseBody cfg w b).2 with x | r
    · exact ⟨(handleResponseBody cfg w b).1, by simp [St.emit, requestFor]⟩
    · simp only
      generalize hs2 : ({ (st.emit [Event.dispatch (mkRequest cfg ((payloadFor cfg v).getD ""))])
        with sent := st.sent + 1 } : St).emit (handleResponseBody cfg w b).1 = s2
      have e2 : s2.events = st.events ++ .dispatch (requestFor cfg v)
          :: (handleResponseBody cfg w b).1 := by
        rw [← hs2]; simp [St.emit, requestFor]
      generalize hs3 : writeResponse cfg w _ p s2 = s3
      obtain ⟨r3, e3⟩ := writeResponse_events cfg w _ p s2
      rw [hs3] at e3
      generalize hs4 : writeResponse cfg w _ p s3 = s4
      obtain ⟨r4, e4⟩ := writeResponse_events cfg w _ p s3
      rw [hs4] at e4
      generalize hs5 : writeResponse cfg w _ p s4 = s5
      obtain ⟨r5, e5⟩ := writeResponse_events cfg w _ p s4
      rw [hs5] at e5
      generalize hs6 : writeResponse cfg w _ p s5 = s6
      obtain ⟨r6, e6⟩ := writeResponse_events cfg w _ p s5
      rw [hs6] at e6
      generalize hs7 : writeResponse cfg w _ p s6 = s7
      obtain ⟨r7, e7⟩ := writeResponse_events cfg w _ p s6
      rw [hs7] at e7
      generalize hs8 : writeResponse cfg w _ p s7 = s8
      obtain ⟨r8, e8⟩ := writeResponse_events cfg w _ p s7
      rw [hs8] at e8
      refine ⟨(handleResponseBody cfg w b).1 ++ r3 ++ r4 ++ r5 ++ r6 ++ r7 ++ r8, ?_⟩
      rw [e8, e7, e6, e5, e4, e3, e2]
      simp

theorem iteration_events_any (cfg : Config) (w : World) (p : String) (v : GoFloat) (st : St) :
    ∃ r, (iteration cfg w p v st).1.events = st.events ++ r := by
  by_cases hsel : cfg.endpointSpecifier = 1 ∨ cfg.endpointSpecifier = 2
  · cases hdry : cfg.dryFire
    · obtain ⟨r, hr⟩ := iteration_events cfg w p v st hsel hdry
      exact ⟨_, hr⟩
    · unfold iteration
      rw [payloadFor_of_sel cfg v hsel]
      simp [hdry, St.emit]
  · have h1 : ¬ cfg.endpointSpecifier = 1 := fun h => hsel (Or.inl h)
    have h2 : ¬ cfg.endpointSpecifier = 2 := fun h => hsel (Or.inr h)
    unfold iteration
    simp [payloadFor, h1, h2]

theorem runIters_events (cfg : Config) (w : World) (l : List (String × GoFloat)) :
    ∀ st, ∃ r, (runIters cfg w l st).1.events = st.events ++ r := by
  induction l with
  | nil => intro st; exact ⟨[], by simp [runIters]⟩
  | cons a l ih =>
    intro st
    obtain ⟨p, v⟩ := a
    obtain ⟨r1, h1⟩ := iteration_events_any cfg w p v st
    simp only [runIters]
    rcases hi : iteration cfg w p v st with ⟨st2, _ | x⟩
    · rw [hi] at h1
      obtain ⟨r2, h2⟩ := ih st2
      exact ⟨r1 ++ r2, by rw [h2, h1]; simp⟩
    · rw [hi] at h1
      exact ⟨r1, h1⟩

/-! ## Failures of the normaliser and of the transport: properties -/

theorem iteration_normalise_error (cfg : Config) (w : World) (p : String) (v : GoFloat) (st : St)
    (data : String) (x : Exit) (hsel : cfg.endpointSpecifier = 1 ∨ cfg.endpointSpecifier = 2)
    (hdry : cfg.dryFire = false) (hb : w.transport st.sent = .body data)
    (hx : (handleResponseBody cfg w data).2 = .error x) :
    iteration cfg w p v st
      = (⟨st.events ++ .dispatch (requestFor cfg v) :: (handleResponseBody cfg w data).1,
          st.sent + 1, st.wrote⟩, some x) := by
  unfold iteration
  rw [payloadFor_of_sel cfg v hsel]
  simp [hdry, hb, hx, St.emit, requestFor]

/-- Claim C3: for selector 1 or 2, normalising a body that does not decode in
the schema of the selected endpoint, or that decodes with an empty choices
array, yields no result but the end of the program (`log.Fatal`, or the panic of
indexing the empty array), and a run that receives such a body at one of its
iterations ends there in that way, after the request of the iteration and with
no write for it; normalising a body that decodes with at least one choice
yields a result. -/
theorem C3_normalise_failure (cfg : Config) (w : World) (data : String)
    (hsel : cfg.endpointSpecifier = 1 ∨ cfg.endpointSpecifier = 2) :
    ((decodedChoices cfg w data = none ∨ decodedChoices cfg w data = some 0) →
      ∃ x, (handleResponseBody cfg w data).2 = .error x ∧
        ((∃ msg, x = .fatal msg) ∨ x = .panicked indexPanic) ∧
        ∀ fuel pre post p v st, cfg.dryFire = false →
          schedule cfg fuel = pre ++ (p, v) :: post →
          runIters cfg w pre ⟨[], 0, 0⟩ = (st, none) →
          w.transport st.sent = .body data →
          executeRequests cfg w fuel
            = (⟨st.events ++ .dispatch (requestFor cfg v) :: (handleResponseBody cfg w data).1,
                st.sent + 1, st.wrote⟩, x)) ∧
    (∀ n, decodedChoices cfg w data = some (n + 1) →
      ∃ r, (handleResponseBody cfg w data).2 = .ok r) := by
  have key : ∀ x, (handleResponseBody cfg w data).2 = .error x →
      ∀ fuel pre post p v st, cfg.dryFire = false →
          schedule cfg fuel = pre ++ (p, v) :: post →
          runIters cfg w pre ⟨[], 0, 0⟩ = (st, none) →
          w.transport st.sent = .body data →
          executeRequests cfg w fuel
            = (⟨st.events ++ .dispatch (requestFor cfg v) :: (handleResponseBody cfg w data).1,
                st.sent + 1, st.wrote⟩, x) := by
    intro x hx fuel pre post p v st hdry hsched hpre hb
    exact executeRequests_halts_at cfg w fuel pre post p v st _ x hsched hpre
      (iteration_normalise_error cfg w p v st data x hsel hdry hb hx)
  rcases hsel with h1 | h2
  · constructor
    · intro hd
      rcases hj : w.jsonChatCompletion data with err | r
      · have hx : (handleResponseBody cfg w data).2 = .error (.fatal err) := by
          simp [handleResponseBody, unmarshalChatCompletion, h1, hj]
        exact ⟨_, hx, Or.inl ⟨err, rfl⟩, key _ hx⟩
      · have hlen : r.Choices = [] := by
          simp [decodedChoices, h1, hj] at hd
          exact hd
        have hx : (handleResponseBody cfg w data).2 = .error (.panicked indexPanic) := by
          simp [handleResponseBody, unmarshalChatCompletion, h1, hj, hlen]
        exact ⟨_, hx, Or.inr rfl, key _ hx⟩
    · intro n hd
      rcases hj : w.jsonChatCompletion data with err | r
      · simp [decodedChoices, h1, hj] at hd
      · rcases hc : r.Choices with _ | ⟨c, cs⟩
        · simp [decodedChoices, h1, hj, hc] at hd
        · exact ⟨⟨cfg.model, c.Message.Content⟩,
            by simp [handleResponseBody, unmarshalChatCompletion, h1, hj, hc]⟩
  · have h1 : ¬ cfg.endpointSpecifier = 1 := by omega
    constructor
    · intro hd
      rcases hj : w.jsonEdits data with err | r
      · have hx : (handleResponseBody cfg w data).2 = .error (.fatal err) := by
          simp [handleResponseBody, unmarshalEdit, h1, h2, hj]
        exact ⟨_, hx, Or.inl ⟨err, rfl⟩, key _ hx⟩
      · have hlen : r.Choices = [] := by
          simp [decodedChoices, h1, hj] at hd
          exact hd
        have hx : (handleResponseBody cfg w data).2 = .error (.panicked indexPanic) := by
          simp [handleResponseBody, unmarshalEdit, h1, h2, hj, hlen]
        exact ⟨_, hx, Or.inr rfl, key _ hx⟩
    · intro n hd
      rcases hj : w.jsonEdits data with err | r
      · simp [decodedChoices, h1, hj] at hd
      · rcases hc : r.Choices with _ | ⟨c, cs⟩
        · simp [decodedChoices, h1, hj, hc] at hd
        · exact ⟨⟨editsReq cfg "model", c.Text⟩,
            by simp [handleResponseBody, unmarshalEdit, h1, h2, hj, hc]⟩

theorem C3_normalise_failure_witness :
    ∃ r, (handleResponseBody (sourceConfig "") sampleWorld "resp").2 = .ok r :=
  (C3_normalise_failure (sourceConfig "") sampleWorld "resp" (Or.inl rfl)).2 0 rfl

theorem fst_finish (r : St × Option Exit) (y : Exit) :
    (match r with
      | (st1, some x) => (st1, x)
      | (st1, none) => (st1, y)).1 = r.1 := by
  rcases r with ⟨st1, _ | x⟩ <;> rfl

/-- Claim C10: when the transport reports an error at an iteration of the run
(knob value `v` of some batch, the iterations `pre` before it having gone
through), the run returns at once: its effects are those of the earlier
iterations, the request of the failing iteration and the print of the error,
so nothing is written for this iteration and nothing is sent or written for a
later knob value or batch; and the effects of the earlier iterations are those
of any run that gets the same answers to the earlier requests, in particular
those of a run in which no iteration has an error. -/
theorem C10_transport_error (cfg : Config) (w : World) (fuel : Nat)
    (pre post : List (String × GoFloat)) (p : String) (v : GoFloat) (st : St) (e : String)
    (hsel : cfg.endpointSpecifier = 1 ∨ cfg.endpointSpecifier = 2)
    (hdry : cfg.dryFire = false)
    (hsched : schedule cfg fuel = pre ++ (p, v) :: post)
    (hpre : runIters cfg w pre ⟨[], 0, 0⟩ = (st, none))
    (herr : w.transport st.sent = .doError e ∨ w.transport st.sent = .readError e) :
    executeRequests cfg w fuel
        = (⟨st.events ++ [.dispatch (requestFor cfg v), println e], st.sent + 1, st.wrote⟩,
            .returned) ∧
      (∀ path, writesTo path (executeRequests cfg w fuel).1.events = writesTo path st.events) ∧
      requestsOf (executeRequests cfg w fuel).1.events
        = requestsOf st.events ++ [requestFor cfg v] ∧
      st.sent = pre.length ∧
      (∀ t : Nat → TransportResult, (∀ k, k < st.sent → t k = w.transport k) →
        runIters cfg { w with transport := t } pre ⟨[], 0, 0⟩ = (st, none) ∧
        ∃ rest, (executeRequests cfg { w with transport := t } fuel).1.events
          = st.events ++ .dispatch (requestFor cfg v) :: rest) ∧
      (∀ t : Nat → TransportResult, (∀ k, k < st.sent → t k = w.transport k) →
        ErrorFree cfg { w with transport := t } →
        st.events = eventsFrom cfg { w with transport := t } pre 0) := by
  have hrun := executeRequests_halts_at cfg w fuel pre post p v st _ _ hsched hpre
    (iteration_transport_error cfg w p v st e hsel hdry herr)
  have hsent := runIters_sent cfg w pre _ _ hpre
  have hcongr : ∀ t : Nat → TransportResult, (∀ k, k < st.sent → t k = w.transport k) →
      runIters cfg { w with transport := t } pre ⟨[], 0, 0⟩ = (st, none) :=
    fun t ht => runIters_congr cfg w t pre _ _ hpre (fun k _ hk => ht k hk)
  refine ⟨hrun, ?_, ?_, by simpa using hsent, ?_, ?_⟩
  · intro path
    rw [hrun]
    simp [writesTo_append, writesTo, println]
  · rw [hrun]
    simp [requestsOf_append, requestsOf, println]
  · intro t ht
    refine ⟨hcongr t ht, ?_⟩
    rw [executeRequests_eq, fst_finish, hsched, runIters_append, hcongr t ht]
    simp only [runIters]
    obtain ⟨r1, h1⟩ := iteration_events cfg { w with transport := t } p v st hsel hdry
    rcases hi : iteration cfg { w with transport := t } p v st with ⟨st2, _ | x⟩
    · rw [hi] at h1
      obtain ⟨r2, h2⟩ := runIters_events cfg { w with transport := t } post st2
      exact ⟨r1 ++ r2, by rw [h2, h1]; simp⟩
    · rw [hi] at h1
      exact ⟨r1, h1⟩
  · intro t ht hE
    have h1 := hcongr t ht
    rw [runIters_ok cfg _ hsel hdry hE] at h1
    have h2 := congrArg (fun r => r.1.events) h1
    simpa using h2.symm

set_option maxRecDepth 100000 in
theorem failingWorld_schedule :
    schedule (sourceConfig "") 10
      = [(fmtD02 1, f64OfRat false 6 10)]
          ++ (fmtD02 1, f64OfRat false 8 10)
            :: [(fmtD02 1, f64OfRat false 1 1), (fmtD02 2, f64OfRat false 6 10),
                (fmtD02 2, f64OfRat false 8 10), (fmtD02 2, f64OfRat false 1 1)] := by
  decide

set_option maxRecDepth 100000 in
theorem failingWorld_pre :
    runIters (sourceConfig "") failingWorld [(fmtD02 1, f64OfRat false 6 10)] ⟨[], 0, 0⟩
      = (⟨eventsFrom (sourceConfig "") sampleWorld [(fmtD02 1, f64OfRat false 6 10)] 0, 1, 6⟩,
          none) := by
  decide

theorem C10_transport_error_witness :
    executeRequests (sourceConfig "") failingWorld 10
      = (⟨eventsFrom (sourceConfig "") sampleWorld [(fmtD02 1, f64OfRat false 6 10)] 0
            ++ [.dispatch (requestFor (sourceConfig "") (f64OfRat false 8 10)),
                println "timeout"], 1 + 1, 6⟩, .returned) :=
  (C10_transport_error (sourceConfig "") failingWorld 10 _ _ _ _ _ "timeout" (Or.inl rfl) rfl
    failingWorld_schedule failingWorld_pre (Or.inl rfl)).1

/-! ## Dry run: properties -/

theorem executeRequests_dry (cfg : Config) (w : World) (fuel : Nat) (hdry : cfg.dryFire = true)
    (hsel : cfg.endpointSpecifier = 1 ∨ cfg.endpointSpecifier = 2)
    (hle : f64Le cfg.knobTuneMin cfg.knobTuneMax = true)
    (hN : 1 ≤ cfg.logSampleSize) (hfuel : 1 ≤ fuel) :
    executeRequests cfg w fuel
      = (⟨[.stdout (dryFireData (requestFor cfg cfg.knobTuneMin).body ++ [10])], 0, 0⟩,
          .panicked "end") := by
  obtain ⟨n, hn⟩ : ∃ n, cfg.logSampleSize = n + 1 := ⟨cfg.logSampleSize - 1, by omega⟩
  obtain ⟨f, hf⟩ : ∃ f, fuel = f + 1 := ⟨fuel - 1, by omega⟩
  unfold executeRequests
  rw [hn, hf]
  simp only [outerLoop, innerLoop, hle, if_true]
  unfold iteration
  rw [payloadFor_of_sel cfg _ hsel]
  simp [hdry, St.emit, requestFor, mkRequest]

theorem dryFireData_length (body : String) : (dryFireData body).length = 4000 := by
  unfold dryFireData
  simp only [List.length_append, List.length_take, List.length_replicate]
  omega

theorem dryFireData_short (body : String) (h : (utf8 body).length ≤ 4000) :
    dryFireData body = utf8 body ++ List.replicate (4000 - (utf8 body).length) 0 := by
  unfold dryFireData
  rw [List.take_of_length_le h]

theorem dryFireData_long (body : String) (h : 4000 ≤ (utf8 body).length) :
    dryFireData body = (utf8 body).take 4000 := by
  unfold dryFireData
  have : 4000 - (utf8 body).length = 0 := by omega
  simp [this]

set_option maxRecDepth 100000 in
theorem sixTenths_le_one : f64Le (f64OfRat false 6 10) (f64OfRat false 1 1) = true := by
  decide

set_option maxRecDepth 100000 in
theorem sixTenths_text : fmtF1 (toFloat32 (f64OfRat false 6 10)) = "0.6" := by
  decide

theorem utf8EncodeChar_length_pos (c : Char) : 1 ≤ (String.utf8EncodeChar c).length := by
  simp only [String.utf8EncodeChar]
  split_ifs <;> simp

theorem utf8_length_ge_aux (l : List Char) :
    l.length ≤ (l.flatMap String.utf8EncodeChar).length := by
  induction l with
  | nil => simp
  | cons c t ih =>
    simp only [List.flatMap_cons, List.length_append, List.length_cons]
    have := utf8EncodeChar_length_pos c
    omega

theorem utf8_length_ge (s : String) : s.length ≤ (utf8 s).length :=
  utf8_length_ge_aux s.data

theorem flatMap_escapeLF_length (l : List Char) : l.length ≤ (l.flatMap escapeLF).length := by
  induction l with
  | nil => simp
  | cons c t ih =>
    simp only [List.flatMap_cons, List.length_append, List.length_cons]
    have : 1 ≤ (escapeLF c).length := by
      unfold escapeLF
      split <;> simp
    omega

theorem chat_body_length (cfg : Config) (v : GoFloat) (hsel : cfg.endpointSpecifier = 1) :
    cfg.prompt.length + 1 ≤ (requestFor cfg v).body.length := by
  have hb : (requestFor cfg v).body = chatCompletionRequest cfg (toFloat32 v) := by
    simp [requestFor, mkRequest, payloadFor, hsel]
  have hq : cfg.prompt.length ≤ (stringsReplaceAll cfg.prompt "\n" "\\n").length := by
    show cfg.prompt.data.length ≤ (stringsReplaceAll cfg.prompt "\n" "\\n").data.length
    rw [stringsReplaceAll_lf]
    exact flatMap_escapeLF_length _
  have h1 : ("\x7d" : String).length = 1 := rfl
  rw [hb]
  unfold chatCompletionRequest
  simp only [String.length_append, h1]
  omega

theorem longPrompt_length : longPrompt.length = 4000 := List.length_replicate 4000 'a'

theorem longPromptConfig_le :
    f64Le longPromptConfig.knobTuneMin longPromptConfig.knobTuneMax = true := by
  have h1 : longPromptConfig.knobTuneMin = f64OfRat false 6 10 := by
    simp only [longPromptConfig]
  have h2 : longPromptConfig.knobTuneMax = f64OfRat false 1 1 := by
    simp only [longPromptConfig]
  rw [h1, h2]
  exact sixTenths_le_one

/-- Claim C9 as stated fails: with the dry run enabled and a prompt of 4000
letters, what is printed is not the constructed request body: the body has more
than 4000 bytes, and the print holds 4000 bytes and the line feed. -/
theorem C9_counterexample :
    printsOf (executeRequests longPromptConfig sampleWorld 10).1.events
        = [dryFireData (requestFor longPromptConfig longPromptConfig.knobTuneMin).body ++ [10]] ∧
      (dryFireData (requestFor longPromptConfig longPromptConfig.knobTuneMin).body
        ++ [10]).length = 4001 ∧
      4001 < (utf8 (requestFor longPromptConfig longPromptConfig.knobTuneMin).body
        ++ [10]).length ∧
      printsOf (executeRequests longPromptConfig sampleWorld 10).1.events
        ≠ [utf8 (requestFor longPromptConfig longPromptConfig.knobTuneMin).body ++ [10]] := by
  have hsel : longPromptConfig.endpointSpecifier = 1 := by unfold longPromptConfig; rfl
  have hdry : longPromptConfig.dryFire = true := by unfold longPromptConfig; rfl
  have hN : 1 ≤ longPromptConfig.logSampleSize := by unfold longPromptConfig; decide
  have hp : longPromptConfig.prompt.length = 4000 := by
    unfold longPromptConfig
    exact longPrompt_length
  have hrun := executeRequests_dry longPromptConfig sampleWorld 10 hdry (Or.inl hsel)
    longPromptConfig_le hN (by decide)
  generalize hbd : (requestFor longPromptConfig longPromptConfig.knobTuneMin).body = body at *
  have hlen : (dryFireData body ++ [10]).length = 4001 := by
    rw [List.length_append, dryFireData_length]
    rfl
  have hbody : 4001 < (utf8 body ++ [10]).length := by
    have h1 := utf8_length_ge body
    have h2 := chat_body_length longPromptConfig longPromptConfig.knobTuneMin hsel
    rw [hbd, hp] at h2
    rw [List.length_append]
    simp only [List.length_singleton]
    omega
  have hpr : printsOf (executeRequests longPromptConfig sampleWorld 10).1.events
      = [dryFireData body ++ [10]] := by
    rw [hrun]
    rfl
  refine ⟨hpr, hlen, hbody, ?_⟩
  rw [hpr]
  intro h
  have h4 := List.cons.inj h
  have h5 := congrArg List.length h4.1
  rw [hlen] at h5
  omega

/-- Claim C9, amended: with the dry run enabled, `knobTuneMin = 0.6`,
`knobTuneMax = 1.0`, selector 1 or 2 and at least one batch, `executeRequests`
prints exactly one thing, the 4000-byte buffer of the dry run and a line feed,
sends no request and writes no log, and halts by its panic in the first
iteration; the buffer holds the request body of the first iteration (knob value
written `0.6`), followed by zero bytes, when the body has at most 4000 bytes,
and the first 4000 bytes of the body otherwise. -/
theorem C9_dry_run (cfg : Config) (w : World) (fuel : Nat) (hdry : cfg.dryFire = true)
    (hsel : cfg.endpointSpecifier = 1 ∨ cfg.endpointSpecifier = 2)
    (hmin : cfg.knobTuneMin = f64OfRat false 6 10)
    (hmax : cfg.knobTuneMax = f64OfRat false 1 1)
    (hN : 1 ≤ cfg.logSampleSize) (hfuel : 1 ≤ fuel) :
    executeRequests cfg w fuel
        = (⟨[.stdout (dryFireData (requestFor cfg cfg.knobTuneMin).body ++ [10])], 0, 0⟩,
            .panicked "end") ∧
      printsOf (executeRequests cfg w fuel).1.events
        = [dryFireData (requestFor cfg cfg.knobTuneMin).body ++ [10]] ∧
      requestsOf (executeRequests cfg w fuel).1.events = [] ∧
      writtenPaths (executeRequests cfg w fuel).1.events = [] ∧
      (cfg.endpointSpecifier = 1 → (requestFor cfg cfg.knobTuneMin).body
        = chatCompletionRequest cfg (toFloat32 (f64OfRat false 6 10))) ∧
      (cfg.endpointSpecifier = 2 → (requestFor cfg cfg.knobTuneMin).body
        = editsRequest cfg (toFloat32 (f64OfRat false 6 10))) ∧
      fmtF1 (toFloat32 (f64OfRat false 6 10)) = "0.6" ∧
      (dryFireData (requestFor cfg cfg.knobTuneMin).body).length = 4000 ∧
      ((utf8 (requestFor cfg cfg.knobTuneMin).body).length ≤ 4000 →
        dryFireData (requestFor cfg cfg.knobTuneMin).body
          = utf8 (requestFor cfg cfg.knobTuneMin).body
            ++ List.replicate (4000 - (utf8 (requestFor cfg cfg.knobTuneMin).body).length) 0) ∧
      (4000 ≤ (utf8 (requestFor cfg cfg.knobTuneMin).body).length →
        dryFireData (requestFor cfg cfg.knobTuneMin).body
          = (utf8 (requestFor cfg cfg.knobTuneMin).body).take 4000) := by
  have hle : f64Le cfg.knobTuneMin cfg.knobTuneMax = true := by
    rw [hmin, hmax]; exact sixTenths_le_one
  have hrun := executeRequests_dry cfg w fuel hdry hsel hle hN hfuel
  refine ⟨hrun, by rw [hrun]; rfl, by rw [hrun]; rfl, by rw [hrun]; rfl, ?_, ?_,
    sixTenths_text, dryFireData_length _, dryFireData_short _, dryFireData_long _⟩
  · intro h
    simp [requestFor, mkRequest, payloadFor, h, hmin]
  · intro h
    simp [requestFor, mkRequest, payloadFor, h, hmin]

theorem dryConfig_min : dryConfig.knobTuneMin = f64OfRat false 6 10 := by
  simp only [dryConfig, sourceConfig]

theorem dryConfig_max : dryConfig.knobTuneMax = f64OfRat false 1 1 := by
  simp only [dryConfig, sourceConfig]

theorem C9_dry_run_witness :
    executeRequests dryConfig sampleWorld 10
      = (⟨[.stdout (dryFireData (requestFor dryConfig dryConfig.knobTuneMin).body ++ [10])],
          0, 0⟩, .panicked "end") :=
  (C9_dry_run dryConfig sampleWorld 10 (by unfold dryConfig; rfl)
    (Or.inl (by unfold dryConfig sourceConfig; rfl)) dryConfig_min dryConfig_max
    (by unfold dryConfig sourceConfig; decide) (by decide)).1

/-! ## JSON texts: lemmas -/

theorem parseStr_quote (rest : List Char) : parseStr ('"' :: rest) = some ([], rest) := by
  rw [parseStr.eq_def]
  simp

theorem parseStr_cons (c : Char) (r : List Char) (h1 : c ≠ '"') (h2 : c ≠ '\\')
    (h3 : 32 ≤ c.toNat) :
    parseStr (c :: r) = (parseStr r).map fun p => (c :: p.1, p.2) := by
  rw [parseStr.eq_def]
  have h4 : ¬ c.toNat < 32 := by omega
  simp [h1, h2, h4]

theorem parseStr_lf (r : List Char) :
    parseStr ('\\' :: 'n' :: r) = (parseStr r).map fun p => ('\n' :: p.1, p.2) := by
  rw [parseStr.eq_def]
  simp

theorem parseStr_plain (s rest : List Char) (h : Plain s) :
    parseStr (s ++ '"' :: rest) = some (s, rest) := by
  induction s with
  | nil => exact parseStr_quote rest
  | cons c t ih =>
    obtain ⟨h1, h2, h3⟩ := h c (List.mem_cons_self _ _)
    have ht : Plain t := fun x hx => h x (List.mem_cons_of_mem _ hx)
    rw [List.cons_append, parseStr_cons c _ h1 h2 h3, ih ht]
    rfl

theorem parseStr_escaped (s rest : List Char) (h : PlainLF s) :
    parseStr (s.flatMap escapeLF ++ '"' :: rest) = some (s, rest) := by
  induction s with
  | nil => exact parseStr_quote rest
  | cons c t ih =>
    have ht : PlainLF t := fun x hx => h x (List.mem_cons_of_mem _ hx)
    rw [List.flatMap_cons, List.append_assoc]
    by_cases hc : c = '\n'
    · subst hc
      have e : escapeLF '\n' = ['\\', 'n'] := rfl
      rw [e]
      show parseStr ('\\' :: 'n' :: (t.flatMap escapeLF ++ '"' :: rest)) = _
      rw [parseStr_lf, ih ht]
      rfl
    · rcases h c (List.mem_cons_self _ _) with h0 | ⟨h1, h2, h3⟩
      · exact absurd h0 hc
      · have e : escapeLF c = [c] := by simp [escapeLF, hc]
        rw [e]
        show parseStr (c :: (t.flatMap escapeLF ++ '"' :: rest)) = _
        rw [parseStr_cons c _ h1 h2 h3, ih ht]
        rfl

theorem spanDigits_append (ds : List Char) (c : Char) (r : List Char)
    (hds : ∀ x ∈ ds, x.isDigit = true) (hc : c.isDigit = false) :
    spanDigits (ds ++ c :: r) = (ds, c :: r) := by
  induction ds with
  | nil => simp [spanDigits, hc]
  | cons d t ih =>
    have hd := hds d (List.mem_cons_self _ _)
    have ht := ih (fun x hx => hds x (List.mem_cons_of_mem _ hx))
    simp [spanDigits, hd, ht]

theorem digitChar_ne_zero (d : Nat) (h0 : 0 < d) (h : d < 10) : Nat.digitChar d ≠ '0' := by
  interval_cases d <;> decide

theorem toDigitsCore_head (fuel : Nat) :
    ∀ (n : Nat) (ds : List Char), 0 < n → n < fuel →
      ∃ c tl, Nat.toDigitsCore 10 fuel n ds = c :: tl ∧ c ≠ '0' := by
  induction fuel with
  | zero => intro n ds _ h; omega
  | succ f ih =>
    intro n ds h0 h
    simp only [Nat.toDigitsCore]
    split
    · rename_i hz
      have hn : n % 10 = n := by omega
      rw [hn]
      exact ⟨_, _, rfl, digitChar_ne_zero n h0 (by omega)⟩
    · exact ih _ _ (by omega) (by omega)

theorem repr_head (n : Nat) :
    ∃ c tl, (Nat.repr n).data = c :: tl ∧ (c = '0' → tl = []) := by
  by_cases h : n = 0
  · subst h
    exact ⟨'0', [], rfl, fun _ => rfl⟩
  · obtain ⟨c, tl, h1, h2⟩ := toDigitsCore_head (n + 1) n [] (by omega) (by omega)
    exact ⟨c, tl, h1, fun hc => absurd hc h2⟩

theorem isDigit_ne (c d : Char) (hc : c.isDigit = true) (hd : d.isDigit = false) : c ≠ d := by
  rintro rfl
  rw [hc] at hd
  exact absurd hd (by simp)

/-- The text of `%.1f` for a finite value is a JSON number, read whole when a
closing brace follows it. -/
theorem parseNum_fmtF1 (neg : Bool) (m : Nat) (rest : List Char) :
    parseNum ((fmtF1 (.fin neg m)).data ++ '\x7d' :: rest)
      = some ((fmtF1 (.fin neg m)).data, '\x7d' :: rest) := by
  obtain ⟨c, tl, hrepr, hzero⟩ := repr_head (tenths m / 10)
  have hdig := repr_isDigit (tenths m / 10)
  rw [hrepr] at hdig
  have hc : c.isDigit = true := hdig c (List.mem_cons_self _ _)
  have htl : ∀ x ∈ tl, x.isDigit = true := fun x hx => hdig x (List.mem_cons_of_mem _ hx)
  have hd : (Nat.digitChar (tenths m % 10)).isDigit = true :=
    digitChar_isDigit _ (Nat.mod_lt _ (by norm_num))
  have hdata : (fmtF1 (.fin neg m)).data
      = (if neg then ['-'] else []) ++ c :: (tl ++ ['.', Nat.digitChar (tenths m % 10)]) := by
    simp only [fmtF1, String.data_append, hrepr, repr_lt_ten _ (Nat.mod_lt _ (by norm_num : 0 < 10))]
    cases neg <;> simp [String.singleton]
  have hint : parseInt (c :: (tl ++ '.' :: Nat.digitChar (tenths m % 10) :: '\x7d' :: rest))
      = some (c :: tl, '.' :: Nat.digitChar (tenths m % 10) :: '\x7d' :: rest) := by
    by_cases h0 : c = '0'
    · have := hzero h0
      subst this
      subst h0
      simp [parseInt]
    · simp [parseInt, h0, hc, spanDigits_append tl '.' _ htl (by decide)]
  have hfrac : parseFrac ('.' :: Nat.digitChar (tenths m % 10) :: '\x7d' :: rest)
      = some (['.', Nat.digitChar (tenths m % 10)], '\x7d' :: rest) := by
    have := spanDigits_append [Nat.digitChar (tenths m % 10)] '\x7d' rest
      (by simpa using hd) (by decide)
    simp only [List.singleton_append] at this
    simp [parseFrac, this]
  have hexp : parseExp ('\x7d' :: rest) = some ([], '\x7d' :: rest) := by
    simp [parseExp]
  have hcm : c ≠ '-' := isDigit_ne c '-' hc (by decide)
  rw [hdata]
  cases neg
  · simp [parseNum, hcm, hint, hfrac, hexp]
  · simp [parseNum, hint, hfrac, hexp]

theorem fmtF1_head (neg : Bool) (m : Nat) :
    ∃ c tl, (fmtF1 (.fin neg m)).data = c :: tl ∧ (c = '-' ∨ c.isDigit = true) := by
  obtain ⟨c, tl, hrepr, -⟩ := repr_head (tenths m / 10)
  have hdig := repr_isDigit (tenths m / 10)
  rw [hrepr] at hdig
  have hc : c.isDigit = true := hdig c (List.mem_cons_self _ _)
  cases neg
  · exact ⟨c, tl ++ '.' :: (Nat.repr (tenths m % 10)).data,
      by simp [fmtF1, String.data_append, hrepr], Or.inr hc⟩
  · exact ⟨'-', c :: (tl ++ '.' :: (Nat.repr (tenths m % 10)).data),
      by simp [fmtF1, String.data_append, hrepr], Or.inl rfl⟩

theorem skipWs_fmtF1 (neg : Bool) (m : Nat) (rest : List Char) :
    skipWs ((fmtF1 (.fin neg m)).data ++ rest) = (fmtF1 (.fin neg m)).data ++ rest := by
  obtain ⟨c, tl, hdata, hc⟩ := fmtF1_head neg m
  rw [hdata, List.cons_append, skipWs]
  have hne : ∀ d : Char, d.isDigit = false → d ≠ '-' → c ≠ d := by
    intro d hd hd2
    rcases hc with rfl | hc
    · exact fun h => hd2 h.symm
    · exact isDigit_ne c d hc hd
  have h1 := hne ' ' (by decide) (by decide)
  have h2 := hne '\t' (by decide) (by decide)
  have h3 := hne '\n' (by decide) (by decide)
  have h4 := hne '\r' (by decide) (by decide)
  simp [h1, h2, h3, h4]

theorem parseValue_fmtF1 (neg : Bool) (m : Nat) (rest : List Char) (fuel : Nat) :
    parseValue (fuel + 1) ((fmtF1 (.fin neg m)).data ++ '\x7d' :: rest)
      = some (.num (fmtF1 (.fin neg m)).data, '\x7d' :: rest) := by
  have hnum := parseNum_fmtF1 neg m rest
  obtain ⟨c, tl, hdata, hc⟩ := fmtF1_head neg m
  rw [hdata] at hnum ⊢
  have hne : ∀ d : Char, d.isDigit = false → d ≠ '-' → c ≠ d := by
    intro d hd hd2
    rcases hc with rfl | hc
    · exact fun h => hd2 h.symm
    · exact isDigit_ne c d hc hd
  have h5 := hne '\x7b' (by decide) (by decide)
  have h6 := hne '[' (by decide) (by decide)
  have h7 := hne '"' (by decide) (by decide)
  have h8 := hne 't' (by decide) (by decide)
  have h9 := hne 'f' (by decide) (by decide)
  have h10 := hne 'n' (by decide) (by decide)
  simp only [List.cons_append] at hnum ⊢
  simp [parseValue, parseAtom, h5, h6, h7, h8, h9, h10, hnum]

theorem parseValue_str (fuel : Nat) (s rest : List Char) (v : List Char)
    (h : parseStr s = some (v, rest)) :
    parseValue (fuel + 1) ('"' :: s) = some (.str v, rest) := by
  simp [parseValue, parseAtom, h]

theorem skipWs_cons (c : Char) (r : List Char)
    (h : ¬ (c = ' ' ∨ c = '\t' ∨ c = '\n' ∨ c = '\r')) : skipWs (c :: r) = c :: r := by
  rw [skipWs, if_neg h]

theorem skipWs_quote (r : List Char) : skipWs ('"' :: r) = '"' :: r :=
  skipWs_cons _ _ (by decide)

theorem skipWs_colon (r : List Char) : skipWs (':' :: r) = ':' :: r :=
  skipWs_cons _ _ (by decide)

theorem skipWs_comma (r : List Char) : skipWs (',' :: r) = ',' :: r :=
  skipWs_cons _ _ (by decide)

theorem skipWs_close (r : List Char) : skipWs ('\x7d' :: r) = '\x7d' :: r :=
  skipWs_cons _ _ (by decide)

theorem skipWs_open (r : List Char) : skipWs ('\x7b' :: r) = '\x7b' :: r :=
  skipWs_cons _ _ (by decide)

theorem parseMembers_more (fuel : Nat) (s r2 r4 r5 k : List Char) (v : Json)
    (ms : List (List Char × Json))
    (h1 : parseStr s = some (k, ':' :: r2))
    (h3 : parseValue fuel (skipWs r2) = some (v, ',' :: r4))
    (h5 : parseMembers fuel (skipWs r4) = some (ms, r5)) :
    parseMembers (fuel + 1) ('"' :: s) = some ((k, v) :: ms, r5) := by
  simp [parseMembers, h1, h3, h5, skipWs_colon, skipWs_comma]

theorem parseMembers_last (fuel : Nat) (s r2 r4 k : List Char) (v : Json)
    (h1 : parseStr s = some (k, ':' :: r2))
    (h3 : parseValue fuel (skipWs r2) = some (v, '\x7d' :: r4)) :
    parseMembers (fuel + 1) ('"' :: s) = some ([(k, v)], r4) := by
  simp [parseMembers, h1, h3, skipWs_colon, skipWs_close]

theorem parseValue_obj (fuel : Nat) (r2 r3 : List Char) (ms : List (List Char × Json))
    (h2 : parseMembers fuel ('"' :: r2) = some (ms, r3)) :
    parseValue (fuel + 1) ('\x7b' :: '"' :: r2) = some (.obj ms, r3) := by
  simp [parseValue, skipWs_quote, h2]

/-- The characters of the edit request body. -/
theorem editsRequest_data (cfg : Config) (v : GoFloat) :
    (editsRequest cfg v).data
      = '\x7b' :: '"' :: (['m', 'o', 'd', 'e', 'l'] ++ '"' :: ':' :: '"' ::
          (cfg.editsReqModel.data ++ '"' :: ',' :: '"' ::
            (['i', 'n', 'p', 'u', 't'] ++ '"' :: ':' :: '"' ::
              (cfg.editsReqInput.data.flatMap escapeLF ++ '"' :: ',' :: '"' ::
                (['i', 'n', 's', 't', 'r', 'u', 'c', 't', 'i', 'o', 'n'] ++ '"' :: ':' :: '"' ::
                  (cfg.prompt.data ++ '"' :: ',' :: '"' ::
                    (cfg.knob.data ++ '"' :: ':' ::
                      ((fmtF1 v).data ++ '\x7d' :: [])))))))) := by
  simp only [editsRequest, editsReq, String.data_append, stringsReplaceAll_lf]
  simp [List.append_assoc]

/-- The edit request body is the text of a JSON object when the configured
texts stand for themselves inside a JSON string. -/
theorem parseValue_edit (cfg : Config) (neg : Bool) (m : Nat) (fuel : Nat)
    (hM : Plain cfg.editsReqModel.data) (hI : PlainLF cfg.editsReqInput.data)
    (hP : Plain cfg.prompt.data) (hK : Plain cfg.knob.data) :
    parseValue (fuel + 9) (editsRequest cfg (.fin neg m)).data
      = some (.obj [("model".data, .str cfg.editsReqModel.data),
          ("input".data, .str cfg.editsReqInput.data),
          ("instruction".data, .str cfg.prompt.data),
          (cfg.knob.data, .num (fmtF1 (.fin neg m)).data)], []) := by
  rw [editsRequest_data]
  apply parseValue_obj
  apply parseMembers_more
  · exact parseStr_plain _ _ (by decide)
  · rw [skipWs_quote]
    exact parseValue_str _ _ _ _ (parseStr_plain _ _ hM)
  · rw [skipWs_quote]
    apply parseMembers_more
    · exact parseStr_plain _ _ (by decide)
    · rw [skipWs_quote]
      exact parseValue_str _ _ _ _ (parseStr_escaped _ _ hI)
    · rw [skipWs_quote]
      apply parseMembers_more
      · exact parseStr_plain _ _ (by decide)
      · rw [skipWs_quote]
        exact parseValue_str _ _ _ _ (parseStr_plain _ _ hP)
      · rw [skipWs_quote]
        apply parseMembers_last
        · exact parseStr_plain _ _ hK
        · rw [skipWs_fmtF1]
          exact parseValue_fmtF1 neg m [] _

theorem parseJson_of_parseValue (s : String) (r : List Char) (j : Json)
    (h0 : s.data = '\x7b' :: r) (hlen : 4 ≤ s.length)
    (h : ∀ fuel, parseValue (fuel + 9) s.data = some (j, [])) :
    parseJson s = some j := by
  obtain ⟨f, hf⟩ : ∃ f, 2 * s.length + 2 = f + 9 := ⟨2 * s.length + 2 - 9, by omega⟩
  have hsk : skipWs s.data = s.data := by
    rw [h0]
    exact skipWs_open r
  have hnil : skipWs [] = [] := rfl
  simp [parseJson, hsk, hf, h f, hnil]

/-! ## The parser and its budget -/

theorem parseValue_succ (fuel : Nat) (cs : List Char) :
    parseValue (fuel + 1) cs =
      if cs.head? = some '\x7b' then
        if (skipWs cs.tail).head? = some '\x7d' then some (.obj [], (skipWs cs.tail).tail)
        else (parseMembers fuel (skipWs cs.tail)).map fun p => (.obj p.1, p.2)
      else if cs.head? = some '[' then
        if (skipWs cs.tail).head? = some ']' then some (.arr [], (skipWs cs.tail).tail)
        else (parseElems fuel (skipWs cs.tail)).map fun p => (.arr p.1, p.2)
      else
        match cs with
        | [] => none
        | c :: r => parseAtom c r := by
  simp only [parseValue]

theorem parseElems_succ (fuel : Nat) (cs : List Char) :
    parseElems (fuel + 1) cs =
      (parseValue fuel cs).bind fun vr =>
        if (skipWs vr.2).head? = some ',' then
          (parseElems fuel (skipWs (skipWs vr.2).tail)).map fun p => (vr.1 :: p.1, p.2)
        else if (skipWs vr.2).head? = some ']' then some ([vr.1], (skipWs vr.2).tail)
        else none := by
  simp only [parseElems]

theorem parseMembers_succ (fuel : Nat) (cs : List Char) :
    parseMembers (fuel + 1) cs =
      if cs.head? = some '"' then
        (parseStr cs.tail).bind fun kr =>
          if (skipWs kr.2).head? = some ':' then
            (parseValue fuel (skipWs (skipWs kr.2).tail)).bind fun vr =>
              if (skipWs vr.2).head? = some ',' then
                (parseMembers fuel (skipWs (skipWs vr.2).tail)).map fun p =>
                  ((kr.1, vr.1) :: p.1, p.2)
              else if (skipWs vr.2).head? = some '\x7d' then
                some ([(kr.1, vr.1)], (skipWs vr.2).tail)
              else none
          else none
      else none := by
  simp only [parseMembers]

theorem parse_mono (f : Nat) :
    (∀ cs x, parseValue f cs = some x → parseValue (f + 1) cs = some x) ∧
    (∀ cs x, parseElems f cs = some x → parseElems (f + 1) cs = some x) ∧
    (∀ cs x, parseMembers f cs = some x → parseMembers (f + 1) cs = some x) := by
  induction f with
  | zero =>
    refine ⟨?_, ?_, ?_⟩ <;> intro cs x h
    · simp [parseValue] at h
    · simp [parseElems] at h
    · simp [parseMembers] at h
  | succ f ih =>
    obtain ⟨ihv, ihe, ihm⟩ := ih
    refine ⟨?_, ?_, ?_⟩
    · intro cs x h
      rw [parseValue_succ] at h ⊢
      by_cases h1 : cs.head? = some '\x7b'
      · simp only [h1, if_true] at h ⊢
        by_cases h2 : (skipWs cs.tail).head? = some '\x7d'
        · simp only [h2, if_true] at h ⊢
          exact h
        · simp only [h2, if_false] at h ⊢
          obtain ⟨a, ha, hx⟩ := Option.map_eq_some'.mp h
          rw [ihm _ _ ha]
          simp [hx]
      · simp only [h1, if_false] at h ⊢
        by_cases h3 : cs.head? = some '['
        · simp only [h3, if_true] at h ⊢
          by_cases h2 : (skipWs cs.tail).head? = some ']'
          · simp only [h2, if_true] at h ⊢
            exact h
          · simp only [h2, if_false] at h ⊢
            obtain ⟨a, ha, hx⟩ := Option.map_eq_some'.mp h
            rw [ihe _ _ ha]
            simp [hx]
        · simp only [h3, if_false] at h ⊢
          exact h
    · intro cs x h
      rw [parseElems_succ] at h ⊢
      obtain ⟨vr, hvr, hx⟩ := Option.bind_eq_some.mp h
      rw [ihv _ _ hvr]
      simp only [Option.some_bind]
      by_cases h1 : (skipWs vr.2).head? = some ','
      · simp only [h1, if_true] at hx ⊢
        obtain ⟨a, ha, hx2⟩ := Option.map_eq_some'.mp hx
        rw [ihe _ _ ha]
        simp [hx2]
      · simp only [h1, if_false] at hx ⊢
        exact hx
    · intro cs x h
      rw [parseMembers_succ] at h ⊢
      by_cases h0 : cs.head? = some '"'
      · simp only [h0, if_true] at h ⊢
        obtain ⟨kr, hkr, hx⟩ := Option.bind_eq_some.mp h
        rw [hkr]
        simp only [Option.some_bind]
        by_cases h1 : (skipWs kr.2).head? = some ':'
        · simp only [h1, if_true] at hx ⊢
          obtain ⟨vr, hvr, hx2⟩ := Option.bind_eq_some.mp hx
          rw [ihv _ _ hvr]
          simp only [Option.some_bind]
          by_cases h2 : (skipWs vr.2).head? = some ','
          · simp only [h2, if_true] at hx2 ⊢
            obtain ⟨a, ha, hx3⟩ := Option.map_eq_some'.mp hx2
            rw [ihm _ _ ha]
            simp [hx3]
          · simp only [h2, if_false] at hx2 ⊢
            exact hx2
        · simp only [h1, if_false] at hx
          cases hx
      · simp only [h0, if_false] at h
        cases h

/-- A text that the parser reads with some budget is read alike with every
larger budget. -/
theorem parseValue_mono (f g : Nat) (cs : List Char) (x : Json × List Char)
    (h : parseValue f cs = some x) : parseValue (f + g) cs = some x := by
  induction g with
  | zero => exact h
  | succ g ih => exact (parse_mono (f + g)).1 cs x ih

/-- A text that the parser does not read with any budget of 9 or more is not
read with any budget. -/
theorem parseValue_none_of_large (cs : List Char)
    (h : ∀ fuel, parseValue (fuel + 9) cs = none) : ∀ fuel, parseValue fuel cs = none := by
  intro fuel
  rcases hx : parseValue fuel cs with _ | x
  · rfl
  · have := parseValue_mono fuel 9 cs x hx
    rw [h fuel] at this
    cases this

theorem parseJson_none_of_large (s : String)
    (h : ∀ fuel, parseValue (fuel + 9) s.data = none) (r : List Char)
    (h0 : s.data = '\x7b' :: r) : parseJson s = none := by
  have hsk : skipWs s.data = s.data := by
    rw [h0]
    exact skipWs_open r
  simp [parseJson, hsk, parseValue_none_of_large s.data h]

/-! ## Texts that are not read -/

theorem parseMembers_step (fuel : Nat) (s r2 r4 k : List Char) (v : Json)
    (h1 : parseStr s = some (k, ':' :: r2))
    (h3 : parseValue fuel (skipWs r2) = some (v, ',' :: r4)) :
    parseMembers (fuel + 1) ('"' :: s)
      = (parseMembers fuel (skipWs r4)).map fun p => ((k, v) :: p.1, p.2) := by
  simp [parseMembers, h1, h3, skipWs_colon, skipWs_comma]

theorem parseMembers_value_none (fuel : Nat) (s r2 k : List Char)
    (h1 : parseStr s = some (k, ':' :: r2))
    (h3 : parseValue fuel (skipWs r2) = none) :
    parseMembers (fuel + 1) ('"' :: s) = none := by
  simp [parseMembers, h1, h3, skipWs_colon]

theorem parseValue_obj_step (fuel : Nat) (r2 : List Char) :
    parseValue (fuel + 1) ('\x7b' :: '"' :: r2)
      = (parseMembers fuel ('"' :: r2)).map fun p => (.obj p.1, p.2) := by
  simp [parseValue, skipWs_quote]

theorem parseValue_obj_none (fuel : Nat) (r2 : List Char)
    (h : parseMembers fuel ('"' :: r2) = none) :
    parseValue (fuel + 1) ('\x7b' :: '"' :: r2) = none := by
  rw [parseValue_obj_step, h]
  rfl

theorem parseMembers_more_none (fuel : Nat) (s r2 r4 k : List Char) (v : Json)
    (h1 : parseStr s = some (k, ':' :: r2))
    (h3 : parseValue fuel (skipWs r2) = some (v, ',' :: r4))
    (h5 : parseMembers fuel (skipWs r4) = none) :
    parseMembers (fuel + 1) ('"' :: s) = none := by
  rw [parseMembers_step fuel s r2 r4 k v h1 h3, h5]
  rfl

theorem parseValue_str_none (fuel : Nat) (s : List Char) (h : parseStr s = none) :
    parseValue (fuel + 1) ('"' :: s) = none := by
  simp [parseValue, parseAtom, h]

/-- The texts `+Inf`, `-Inf` and `NaN` of `%.1f` are not JSON values. -/
theorem parseValue_nonfinite (v : GoFloat) (hv : ∀ neg m, v ≠ .fin neg m) (fuel : Nat)
    (rest : List Char) :
    parseValue fuel (skipWs ((fmtF1 v).data ++ rest)) = none := by
  cases fuel with
  | zero => simp [parseValue]
  | succ f =>
    rcases v with ⟨neg, m⟩ | neg | _
    · exact absurd rfl (hv neg m)
    · cases neg
      · have hd : (fmtF1 (.inf false)).data = ['+', 'I', 'n', 'f'] := rfl
        rw [hd]
        simp [skipWs, parseValue, parseAtom, parseNum, parseInt]
      · have hd : (fmtF1 (.inf true)).data = ['-', 'I', 'n', 'f'] := rfl
        rw [hd]
        simp [skipWs, parseValue, parseAtom, parseNum, parseInt]
    · have hd : (fmtF1 .nan).data = ['N', 'a', 'N'] := rfl
      rw [hd]
      simp [skipWs, parseValue, parseAtom, parseNum, parseInt]

/-- The edit request body of a knob value that is not finite is not read,
whatever the budget. -/
theorem parseValue_edit_nonfinite (cfg : Config) (v : GoFloat) (hv : ∀ neg m, v ≠ .fin neg m)
    (hM : Plain cfg.editsReqModel.data) (hI : PlainLF cfg.editsReqInput.data)
    (hP : Plain cfg.prompt.data) (hK : Plain cfg.knob.data) (fuel : Nat) :
    parseValue (fuel + 9) (editsRequest cfg v).data = none := by
  rw [editsRequest_data]
  apply parseValue_obj_none
  apply parseMembers_more_none
  · exact parseStr_plain _ _ (by decide)
  · rw [skipWs_quote]
    exact parseValue_str _ _ _ _ (parseStr_plain _ _ hM)
  · rw [skipWs_quote]
    apply parseMembers_more_none
    · exact parseStr_plain _ _ (by decide)
    · rw [skipWs_quote]
      exact parseValue_str _ _ _ _ (parseStr_escaped _ _ hI)
    · rw [skipWs_quote]
      apply parseMembers_more_none
      · exact parseStr_plain _ _ (by decide)
      · rw [skipWs_quote]
        exact parseValue_str _ _ _ _ (parseStr_plain _ _ hP)
      · rw [skipWs_quote]
        apply parseMembers_value_none
        · exact parseStr_plain _ _ hK
        · exact parseValue_nonfinite v hv _ _

/-- A text with a line feed and otherwise plain is not the inside of a JSON
string: the line feed is a control character. -/
theorem parseStr_lf_none (s rest : List Char) (h : PlainLF s) (hn : ¬ Plain s) :
    parseStr (s ++ rest) = none := by
  induction s with
  | nil => exact absurd (fun c hc => absurd hc (List.not_mem_nil c)) hn
  | cons c t ih =>
    have ht : PlainLF t := fun x hx => h x (List.mem_cons_of_mem _ hx)
    rcases h c (List.mem_cons_self _ _) with hc | ⟨h1, h2, h3⟩
    · subst hc
      rw [List.cons_append, parseStr.eq_def]
      simp
    · have hnt : ¬ Plain t := by
        intro hpt
        apply hn
        intro x hx
        rcases List.mem_cons.mp hx with rfl | hx
        · exact ⟨h1, h2, h3⟩
        · exact hpt x hx
      rw [List.cons_append, parseStr_cons c _ h1 h2 h3, ih ht hnt]
      rfl

/-- The edit request body whose instruction, the prompt, holds a line feed is
not read, whatever the budget and the knob value. -/
theorem parseValue_edit_lf (cfg : Config) (v : GoFloat)
    (hM : Plain cfg.editsReqModel.data) (hI : PlainLF cfg.editsReqInput.data)
    (hP : PlainLF cfg.prompt.data) (hn : ¬ Plain cfg.prompt.data) (fuel : Nat) :
    parseValue (fuel + 9) (editsRequest cfg v).data = none := by
  rw [editsRequest_data]
  apply parseValue_obj_none
  apply parseMembers_more_none
  · exact parseStr_plain _ _ (by decide)
  · rw [skipWs_quote]
    exact parseValue_str _ _ _ _ (parseStr_plain _ _ hM)
  · rw [skipWs_quote]
    apply parseMembers_more_none
    · exact parseStr_plain _ _ (by decide)
    · rw [skipWs_quote]
      exact parseValue_str _ _ _ _ (parseStr_escaped _ _ hI)
    · rw [skipWs_quote]
      apply parseMembers_value_none
      · exact parseStr_plain _ _ (by decide)
      · rw [skipWs_quote]
        exact parseValue_str_none _ _ (parseStr_lf_none _ _ hP hn)

/-- The count `tenths mag` is the integer nearest to ten times the value
`mag * 2^-1074`, the even one of the two when the value is halfway. -/
theorem tenths_nearest (mag : Nat) :
    2 * (tenths mag * 2 ^ 1074) ≤ 2 * (10 * mag) + 2 ^ 1074 ∧
      2 * (10 * mag) ≤ 2 * (tenths mag * 2 ^ 1074) + 2 ^ 1074 ∧
      ((2 * (tenths mag * 2 ^ 1074) = 2 * (10 * mag) + 2 ^ 1074 ∨
          2 * (10 * mag) = 2 * (tenths mag * 2 ^ 1074) + 2 ^ 1074) →
        tenths mag % 2 = 0) := by
  have hP : 0 < 2 ^ 1074 := Nat.two_pow_pos 1074
  unfold tenths
  generalize (2 : Nat) ^ 1074 = P at hP ⊢
  have hdm := Nat.div_add_mod (10 * mag) P
  have hlt := Nat.mod_lt (10 * mag) hP
  generalize 10 * mag / P = q at hdm ⊢
  generalize 10 * mag % P = r at hdm hlt ⊢
  generalize hX : P * q = X at hdm
  have hq : q * P = X := by rw [Nat.mul_comm, hX]
  have hq1 : (q + 1) * P = X + P := by rw [Nat.add_mul, hq, Nat.one_mul]
  simp only []
  split
  · rename_i hc
    rw [hq1]
    refine ⟨by omega, by omega, ?_⟩
    intro h
    rcases hc with hc | ⟨-, hc⟩
    · omega
    · omega
  · rename_i hc
    rw [hq]
    refine ⟨by omega, by omega, ?_⟩
    intro h
    by_contra hodd
    apply hc
    right
    omega

/-- The text of `%.1f` for a finite value: the sign, the decimal digits of the
tenths divided by ten, the point, and the one digit of the tenths modulo ten. -/
theorem fmtF1_digits (neg : Bool) (mag : Nat) :
    ∃ ip d : String,
      fmtF1 (.fin neg mag) = (if neg then "-" else "") ++ ip ++ "." ++ d ∧
        ip.data ≠ [] ∧ (∀ c ∈ ip.data, c.isDigit = true) ∧
        d.length = 1 ∧ (∀ c ∈ d.data, c.isDigit = true) ∧
        decValue ip.data = tenths mag / 10 ∧ decValue d.data = tenths mag % 10 :=
  ⟨Nat.repr (tenths mag / 10), Nat.repr (tenths mag % 10), rfl, repr_ne_nil _, repr_isDigit _,
    by rw [repr_lt_ten _ (Nat.mod_lt _ (by norm_num))]; rfl, repr_isDigit _,
    decValue_repr _, decValue_repr _⟩

theorem not_oneDecimal_of_last (s : String) (c : Char) (t : List Char)
    (hs : s.data.reverse = c :: t) (hc : c.isDigit = false) : ¬ OneDecimal s := by
  rintro ⟨sign, ip, d, h, -, -, -, hd⟩
  have h2 : s.data.reverse = d :: (sign.data ++ ip.data ++ ['.']).reverse := by
    rw [h]
    simp [String.data_append]
  rw [hs] at h2
  injection h2 with h3 _
  rw [h3, hd] at hc
  cases hc

theorem edit_body_open (cfg : Config) (v : GoFloat) :
    ∃ r, (editsRequest cfg v).data = '\x7b' :: r ∧ 4 ≤ (editsRequest cfg v).length := by
  refine ⟨_, editsRequest_data cfg v, ?_⟩
  show 4 ≤ (editsRequest cfg v).data.length
  rw [editsRequest_data]
  simp only [List.length_cons, List.length_append]
  omega

set_option maxRecDepth 100000 in
theorem hugeKnob_isF64 : IsF64 (f64OfRat false (10 ^ 39) 1) := by
  decide

set_option maxRecDepth 100000 in
theorem hugeKnob_le :
    f64Le (f64OfRat false (10 ^ 39) 1) (f64OfRat false (10 ^ 39) 1) = true := by
  decide

set_option maxRecDepth 100000 in
theorem hugeKnob_float32 : toFloat32 (f64OfRat false (10 ^ 39) 1) = .inf false := by
  decide

set_option maxRecDepth 100000 in
theorem sixTenths32_eq : toFloat32 (f64OfRat false 6 10) = sixTenths32 := by
  decide

set_option maxRecDepth 100000 in
theorem sixTenths32_text : fmtF1 sixTenths32 = "0.6" := by
  decide

set_option maxRecDepth 100000 in
/-- Claim C8 as stated fails, in two ways. (1) With the source's configuration,
the edit endpoint and the knob constants set to `1e39`, a `float64` constant,
the loop is entered and the knob value handed to `editsRequest` is
`float32(1e39)`, the positive infinity: the body ends in `"temperature":+Inf`
followed by the closing brace; `+Inf` is not a numeral with one digit after the
point, and the body is not a JSON text, whatever the budget of the parser.
(2) With the source's configuration, the edit endpoint and a prompt of two
lines, the instruction of the body for the knob value 0.6 holds the line feed
of the prompt as it is, and the body is not a JSON text, whatever the budget of
the parser. -/
theorem C8_counterexample :
    (IsF64 hugeKnobEditConfig.knobTuneMin ∧
      f64Le hugeKnobEditConfig.knobTuneMin hugeKnobEditConfig.knobTuneMax = true ∧
      payloadFor hugeKnobEditConfig hugeKnobEditConfig.knobTuneMin
        = some (editsRequest hugeKnobEditConfig (.inf false)) ∧
      editsRequest hugeKnobEditConfig (.inf false)
        = "\x7b\"model\":\"code-davinci-edit-001\",\"input\":\""
            ++ stringsReplaceAll (sourceConfig "").editsReqInput "\n" "\\n"
            ++ "\",\"instruction\":\"write me a hello world program in go\",\"temperature\":+Inf\x7d" ∧
      ¬ OneDecimal "+Inf" ∧
      (∀ fuel, parseValue fuel (editsRequest hugeKnobEditConfig (.inf false)).data = none) ∧
      parseJson (editsRequest hugeKnobEditConfig (.inf false)) = none) ∧
    (payloadFor twoLinePromptConfig twoLinePromptConfig.knobTuneMin
        = some (editsRequest twoLinePromptConfig sixTenths32) ∧
      editsRequest twoLinePromptConfig sixTenths32
        = "\x7b\"model\":\"code-davinci-edit-001\",\"input\":\""
            ++ stringsReplaceAll (sourceConfig "").editsReqInput "\n" "\\n"
            ++ "\",\"instruction\":\"fix the region\nkeep the rest\",\"temperature\":0.6\x7d" ∧
      (∀ fuel, parseValue fuel (editsRequest twoLinePromptConfig sixTenths32).data = none) ∧
      parseJson (editsRequest twoLinePromptConfig sixTenths32) = none) := by
  have hmin : hugeKnobEditConfig.knobTuneMin = f64OfRat false (10 ^ 39) 1 := by
    simp only [hugeKnobEditConfig]
  have hmax : hugeKnobEditConfig.knobTuneMax = f64OfRat false (10 ^ 39) 1 := by
    simp only [hugeKnobEditConfig]
  have hqmin : twoLinePromptConfig.knobTuneMin = f64OfRat false 6 10 := by
    simp only [twoLinePromptConfig, sourceConfig]
  have hinf : ∀ fuel,
      parseValue (fuel + 9) (editsRequest hugeKnobEditConfig (.inf false)).data = none :=
    parseValue_edit_nonfinite hugeKnobEditConfig (.inf false) (fun _ _ h => by cases h)
      (by decide) (by decide) (by decide) (by decide)
  have hlf : ∀ fuel,
      parseValue (fuel + 9) (editsRequest twoLinePromptConfig sixTenths32).data = none :=
    parseValue_edit_lf twoLinePromptConfig sixTenths32 (by decide) (by decide) (by decide)
      (by decide)
  obtain ⟨r1, hr1, -⟩ := edit_body_open hugeKnobEditConfig (.inf false)
  obtain ⟨r2, hr2, -⟩ := edit_body_open twoLinePromptConfig sixTenths32
  refine ⟨⟨?_, ?_, ?_, ?_, ?_, parseValue_none_of_large _ hinf,
    parseJson_none_of_large _ hinf r1 hr1⟩, ?_, ?_, parseValue_none_of_large _ hlf,
    parseJson_none_of_large _ hlf r2 hr2⟩
  · rw [hmin]
    exact hugeKnob_isF64
  · rw [hmin, hmax]
    exact hugeKnob_le
  · rw [hmin]
    have h2 : hugeKnobEditConfig.endpointSpecifier = 2 := rfl
    simp only [payloadFor, hugeKnob_float32, h2]
    rfl
  · simp only [editsRequest, editsReq]
    rfl
  · exact not_oneDecimal_of_last "+Inf" 'f' ['n', 'I', '+'] rfl rfl
  · rw [hqmin]
    have h2 : twoLinePromptConfig.endpointSpecifier = 2 := rfl
    simp only [payloadFor, sixTenths32_eq, h2]
    rfl
  · simp only [editsRequest, editsReq, sixTenths32_text]
    rfl

/-- Claim C8, amended. The switch of `executeRequests` hands to `editsRequest`
the `float32` conversion of the knob variable. For every finite value `v` (sign
`neg`, magnitude `mag * 2^-1074`) that the builder is handed: the body is the
text of the template, with the configured edit model, the input, the
instruction (the configured prompt, as it is) and the knob name as key of the
number; the input is the configured edit-target text with every line feed
replaced by a backslash and an `n` (the escaping of the chat prompt), so it
holds no line feed; the number is the sign, the decimal digits of `t / 10`, a
point and the one digit `t % 10`, where `t` is the integer nearest to ten times
the magnitude (the even one of two when halfway): `v` rounded to one digit
after the point; and when the edit model, the prompt and the knob name hold no
double quote, backslash or control character, and the edit-target text none but
line feeds, the body is a JSON text: an object with, in this order, `model` as
the configured edit model, `input` as a string that denotes the edit-target
text, `instruction` as the prompt, and the knob name as key of the number. With
such texts, the body is not a JSON text for a value that is not finite, nor,
whatever the value, for a prompt that holds a line feed. -/
theorem C8_edit_request_body (cfg : Config) :
    (cfg.endpointSpecifier = 2 → ∀ knobTune,
      payloadFor cfg knobTune = some (editsRequest cfg (toFloat32 knobTune))) ∧
    (∀ (neg : Bool) (mag : Nat),
      (∃ input num : String,
        editsRequest cfg (.fin neg mag)
          = "\x7b\"model\":\"" ++ cfg.editsReqModel ++ "\",\"input\":\"" ++ input
              ++ "\",\"instruction\":\"" ++ cfg.prompt ++ "\",\"" ++ cfg.knob ++ "\":" ++ num
              ++ "\x7d" ∧
        input.data = cfg.editsReqInput.data.flatMap escapeLF ∧
        '\n' ∉ input.data ∧
        num = fmtF1 (.fin neg mag) ∧ OneDecimal num ∧
        ∃ ip d : String, num = (if neg then "-" else "") ++ ip ++ "." ++ d ∧
          ip.data ≠ [] ∧ (∀ c ∈ ip.data, c.isDigit = true) ∧
          d.length = 1 ∧ (∀ c ∈ d.data, c.isDigit = true) ∧
          decValue ip.data = tenths mag / 10 ∧ decValue d.data = tenths mag % 10) ∧
      (2 * (tenths mag * 2 ^ 1074) ≤ 2 * (10 * mag) + 2 ^ 1074 ∧
        2 * (10 * mag) ≤ 2 * (tenths mag * 2 ^ 1074) + 2 ^ 1074 ∧
        ((2 * (tenths mag * 2 ^ 1074) = 2 * (10 * mag) + 2 ^ 1074 ∨
            2 * (10 * mag) = 2 * (tenths mag * 2 ^ 1074) + 2 ^ 1074) →
          tenths mag % 2 = 0)) ∧
      (Plain cfg.editsReqModel.data → PlainLF cfg.editsReqInput.data →
        Plain cfg.prompt.data → Plain cfg.knob.data →
        parseJson (editsRequest cfg (.fin neg mag))
          = some (.obj [("model".data, .str cfg.editsReqModel.data),
              ("input".data, .str cfg.editsReqInput.data),
              ("instruction".data, .str cfg.prompt.data),
              (cfg.knob.data, .num (fmtF1 (.fin neg mag)).data)]))) ∧
    (∀ v : GoFloat, (∀ neg mag, v ≠ .fin neg mag) →
      Plain cfg.editsReqModel.data → PlainLF cfg.editsReqInput.data →
      Plain cfg.prompt.data → Plain cfg.knob.data →
      (∀ fuel, parseValue fuel (editsRequest cfg v).data = none) ∧
        parseJson (editsRequest cfg v) = none) ∧
    (∀ v : GoFloat, Plain cfg.editsReqModel.data → PlainLF cfg.editsReqInput.data →
      PlainLF cfg.prompt.data → ¬ Plain cfg.prompt.data →
      (∀ fuel, parseValue fuel (editsRequest cfg v).data = none) ∧
        parseJson (editsRequest cfg v) = none) := by
  refine ⟨?_, ?_, ?_, ?_⟩
  · intro h knobTune
    simp [payloadFor, h]
  · intro neg mag
    refine ⟨⟨stringsReplaceAll cfg.editsReqInput "\n" "\\n", fmtF1 (.fin neg mag), ?_,
      stringsReplaceAll_lf _, ?_, rfl, fmtF1_oneDecimal neg mag, fmtF1_digits neg mag⟩,
      tenths_nearest mag, ?_⟩
    · simp [editsRequest, editsReq]
    · rw [stringsReplaceAll_lf]
      exact lf_not_mem_flatMap_escapeLF _
    · intro hM hI hP hK
      obtain ⟨r, hr, hlen⟩ := edit_body_open cfg (.fin neg mag)
      exact parseJson_of_parseValue _ r _ hr hlen
        (fun fuel => parseValue_edit cfg neg mag fuel hM hI hP hK)
  · intro v hv hM hI hP hK
    have h := parseValue_edit_nonfinite cfg v hv hM hI hP hK
    obtain ⟨r, hr, -⟩ := edit_body_open cfg v
    exact ⟨parseValue_none_of_large _ h, parseJson_none_of_large _ h r hr⟩
  · intro v hM hI hP hn
    have h := parseValue_edit_lf cfg v hM hI hP hn
    obtain ⟨r, hr, -⟩ := edit_body_open cfg v
    exact ⟨parseValue_none_of_large _ h, parseJson_none_of_large _ h r hr⟩

set_option maxRecDepth 100000 in
/-- The source's configuration with the knob value 0.6 as a `float32`: the
texts are plain, and the body is the JSON object of the claim. -/
theorem C8_edit_request_body_witness :
    Plain (sourceConfig "").editsReqModel.data ∧
      PlainLF (sourceConfig "").editsReqInput.data ∧
      Plain (sourceConfig "").prompt.data ∧ Plain (sourceConfig "").knob.data ∧
      parseJson (editsRequest (sourceConfig "") (.fin false (10066330 * 2 ^ 1050)))
        = some (.obj [("model".data, .str (sourceConfig "").editsReqModel.data),
            ("input".data, .str (sourceConfig "").editsReqInput.data),
            ("instruction".data, .str (sourceConfig "").prompt.data),
            ((sourceConfig "").knob.data,
              .num (fmtF1 (.fin false (10066330 * 2 ^ 1050))).data)]) :=
  ⟨by decide, by decide, by decide, by decide,
    ((C8_edit_request_body (sourceConfig "")).2.1 false (10066330 * 2 ^ 1050)).2.2
      (by decide) (by decide) (by decide) (by decide)⟩

/-! ## Rounding: lemmas -/

theorem bitLenAux_spec (fuel : Nat) :
    ∀ n, n ≤ fuel → (n = 0 → bitLenAux fuel n = 0) ∧
      (n ≠ 0 → 2 ^ (bitLenAux fuel n - 1) ≤ n ∧ n < 2 ^ bitLenAux fuel n ∧
        1 ≤ bitLenAux fuel n) := by
  induction fuel with
  | zero =>
    intro n hn
    have : n = 0 := by omega
    subst this
    simp [bitLenAux]
  | succ f ih =>
    intro n hn
    constructor
    · intro h0; simp [bitLenAux, h0]
    · intro h0
      simp only [bitLenAux, h0, if_false]
      have hle : n / 2 ≤ f := by omega
      obtain ⟨ih0, ih1⟩ := ih (n / 2) hle
      by_cases h2 : n / 2 = 0
      · rw [ih0 h2]
        have : n = 1 := by omega
        subst this
        simp
      · obtain ⟨a, b, c⟩ := ih1 h2
        refine ⟨?_, ?_, by omega⟩
        · have e : bitLenAux f (n / 2) + 1 - 1 = (bitLenAux f (n / 2) - 1) + 1 := by omega
          rw [e, pow_succ]
          omega
        · rw [pow_succ]
          omega

theorem bitLen_zero : bitLen 0 = 0 := rfl

theorem bitLen_spec (n : Nat) (h : n ≠ 0) :
    2 ^ (bitLen n - 1) ≤ n ∧ n < 2 ^ bitLen n ∧ 1 ≤ bitLen n :=
  (bitLenAux_spec n n (le_refl n)).2 h

theorem bitLen_lt_pow (n : Nat) : n < 2 ^ bitLen n := by
  by_cases h : n = 0
  · subst h; simp
  · exact (bitLen_spec n h).2.1

theorem bitLen_le_of_lt_pow (n k : Nat) (h : n < 2 ^ k) : bitLen n ≤ k := by
  by_cases h0 : n = 0
  · subst h0; simp [bitLen_zero]
  · obtain ⟨a, -, c⟩ := bitLen_spec n h0
    by_contra hk
    have h1 : k ≤ bitLen n - 1 := by omega
    have h2 : 2 ^ k ≤ 2 ^ (bitLen n - 1) := Nat.pow_le_pow_right (by norm_num) h1
    omega

theorem lt_bitLen_of_pow_le (n k : Nat) (h : 2 ^ k ≤ n) : k < bitLen n := by
  by_contra hk
  have h1 : bitLen n ≤ k := by omega
  have h2 : 2 ^ bitLen n ≤ 2 ^ k := Nat.pow_le_pow_right (by norm_num) h1
  have := bitLen_lt_pow n
  omega

theorem bitLen_mono (a b : Nat) (h : a ≤ b) : bitLen a ≤ bitLen b :=
  bitLen_le_of_lt_pow a _ (lt_of_le_of_lt h (bitLen_lt_pow b))

theorem bitLen_eq (n k : Nat) (h1 : 2 ^ k ≤ n) (h2 : n < 2 ^ (k + 1)) : bitLen n = k + 1 := by
  have a := lt_bitLen_of_pow_le n k h1
  have b := bitLen_le_of_lt_pow n (k + 1) h2
  omega

theorem roundNE_zero_qmin (p x : Nat) :
    roundNE p 0 x =
      if 2 ^ (bitLen x - p) < 2 * (x % 2 ^ (bitLen x - p)) ∨
          (2 * (x % 2 ^ (bitLen x - p)) = 2 ^ (bitLen x - p) ∧
            x / 2 ^ (bitLen x - p) % 2 = 1) then
        (x / 2 ^ (bitLen x - p) + 1) * 2 ^ (bitLen x - p)
      else x / 2 ^ (bitLen x - p) * 2 ^ (bitLen x - p) := by
  simp [roundNE]

theorem roundNE_cases (p x : Nat) :
    roundNE p 0 x = x / 2 ^ (bitLen x - p) * 2 ^ (bitLen x - p) ∨
      (roundNE p 0 x = (x / 2 ^ (bitLen x - p) + 1) * 2 ^ (bitLen x - p) ∧
        x % 2 ^ (bitLen x - p) ≠ 0) := by
  rw [roundNE_zero_qmin]
  have hpos : 0 < 2 ^ (bitLen x - p) := Nat.two_pow_pos _
  split
  · rename_i h
    refine Or.inr ⟨rfl, ?_⟩
    rcases h with h | ⟨h, -⟩ <;> omega
  · exact Or.inl rfl

theorem roundNE_of_mod_eq_zero (p x : Nat) (h : x % 2 ^ (bitLen x - p) = 0) :
    roundNE p 0 x = x := by
  rcases roundNE_cases p x with h1 | ⟨-, h2⟩
  · rw [h1]
    exact Nat.div_mul_cancel (Nat.dvd_of_mod_eq_zero h)
  · exact absurd h h2

theorem mod_eq_zero_of_roundNE (p x : Nat) (h : roundNE p 0 x = x) :
    x % 2 ^ (bitLen x - p) = 0 := by
  rcases roundNE_cases p x with h1 | ⟨h1, -⟩
  · rw [h] at h1
    have h2 : x / 2 ^ (bitLen x - p) * 2 ^ (bitLen x - p) % 2 ^ (bitLen x - p) = 0 :=
      Nat.mul_mod_left _ _
    rw [← h1] at h2
    exact h2
  · rw [h] at h1
    have h2 : (x / 2 ^ (bitLen x - p) + 1) * 2 ^ (bitLen x - p) % 2 ^ (bitLen x - p) = 0 :=
      Nat.mul_mod_left _ _
    rw [← h1] at h2
    exact h2

theorem floor_le_roundNE (p x : Nat) :
    x / 2 ^ (bitLen x - p) * 2 ^ (bitLen x - p) ≤ roundNE p 0 x := by
  rcases roundNE_cases p x with h1 | ⟨h1, -⟩
  · rw [h1]
  · rw [h1]
    exact Nat.mul_le_mul_right _ (Nat.le_succ _)

/-- A representable value below the exact value is below the rounded value. -/
theorem le_roundNE (p a x : Nat) (hp : 1 ≤ p) (ha : roundNE p 0 a = a) (hax : a ≤ x) :
    a ≤ roundNE p 0 x := by
  refine le_trans ?_ (floor_le_roundNE p x)
  by_cases hs : bitLen x - p = 0
  · rw [hs]; simpa using hax
  · have hx0 : x ≠ 0 := by
      rintro rfl
      simp [bitLen_zero] at hs
    obtain ⟨hx1, -, -⟩ := bitLen_spec x hx0
    have hmono := bitLen_mono a x hax
    rcases Nat.lt_or_ge (bitLen a) (bitLen x) with hlt | hge
    · have h1 : a < 2 ^ bitLen a := bitLen_lt_pow a
      have h2 : 2 ^ bitLen a ≤ 2 ^ (bitLen x - 1) :=
        Nat.pow_le_pow_right (by norm_num) (by omega)
      have e : bitLen x - 1 = (p - 1) + (bitLen x - p) := by omega
      have h3 : 2 ^ (p - 1) * 2 ^ (bitLen x - p) ≤ x := by
        rw [← pow_add, ← e]; exact hx1
      have h4 : 2 ^ (p - 1) ≤ x / 2 ^ (bitLen x - p) :=
        (Nat.le_div_iff_mul_le (Nat.two_pow_pos _)).2 h3
      have h5 := Nat.mul_le_mul_right (2 ^ (bitLen x - p)) h4
      rw [← pow_add, ← e] at h5
      exact le_trans (le_of_lt (lt_of_lt_of_le h1 (le_trans h2 (le_refl _)))) h5
    · have e : bitLen a = bitLen x := by omega
      have h1 := mod_eq_zero_of_roundNE p a ha
      rw [e] at h1
      have h2 : a / 2 ^ (bitLen x - p) * 2 ^ (bitLen x - p) = a :=
        Nat.div_mul_cancel (Nat.dvd_of_mod_eq_zero h1)
      have h3 : a / 2 ^ (bitLen x - p) ≤ x / 2 ^ (bitLen x - p) := Nat.div_le_div_right hax
      calc a = a / 2 ^ (bitLen x - p) * 2 ^ (bitLen x - p) := h2.symm
        _ ≤ x / 2 ^ (bitLen x - p) * 2 ^ (bitLen x - p) := Nat.mul_le_mul_right _ h3

/-- A representable value above the exact value is above the rounded value. -/
theorem roundNE_le (p x u : Nat) (hu : roundNE p 0 u = u) (hxu : x ≤ u) :
    roundNE p 0 x ≤ u := by
  rcases roundNE_cases p x with h1 | ⟨h1, hr⟩
  · rw [h1]
    exact le_trans (Nat.div_mul_le_self _ _) hxu
  · rw [h1]
    have hpos : 0 < 2 ^ (bitLen x - p) := Nat.two_pow_pos _
    have hmono := bitLen_mono x u hxu
    rcases Nat.lt_or_ge (bitLen x) (bitLen u) with hlt | hge
    · have hu0 : u ≠ 0 := by
        rintro rfl
        simp [bitLen_zero] at hlt
      obtain ⟨hu1, -, -⟩ := bitLen_spec u hu0
      have h2 : 2 ^ bitLen x ≤ 2 ^ (bitLen u - 1) :=
        Nat.pow_le_pow_right (by norm_num) (by omega)
      have hs : bitLen x - p ≠ 0 := by
        intro h0
        rw [h0] at hr
        exact hr (Nat.mod_one x)
      have e : bitLen x = p + (bitLen x - p) := by omega
      have h3 : x < 2 ^ p * 2 ^ (bitLen x - p) := by
        rw [← pow_add, ← e]; exact bitLen_lt_pow x
      have h4 : x / 2 ^ (bitLen x - p) < 2 ^ p := (Nat.div_lt_iff_lt_mul hpos).2 h3
      have h5 : (x / 2 ^ (bitLen x - p) + 1) * 2 ^ (bitLen x - p)
          ≤ 2 ^ p * 2 ^ (bitLen x - p) := Nat.mul_le_mul_right _ h4
      rw [← pow_add, ← e] at h5
      exact le_trans h5 (le_trans h2 hu1)
    · have e : bitLen u = bitLen x := by omega
      have h2 := mod_eq_zero_of_roundNE p u hu
      rw [e] at h2
      have h3 : u / 2 ^ (bitLen x - p) * 2 ^ (bitLen x - p) = u :=
        Nat.div_mul_cancel (Nat.dvd_of_mod_eq_zero h2)
      have h4 : x / 2 ^ (bitLen x - p) < u / 2 ^ (bitLen x - p) := by
        by_contra hc
        have h5 : u / 2 ^ (bitLen x - p) ≤ x / 2 ^ (bitLen x - p) := by omega
        have h6 := Nat.mul_le_mul_right (2 ^ (bitLen x - p)) h5
        rw [h3] at h6
        have h7 := Nat.div_add_mod x (2 ^ (bitLen x - p))
        have h8 : 2 ^ (bitLen x - p) * (x / 2 ^ (bitLen x - p))
            = x / 2 ^ (bitLen x - p) * 2 ^ (bitLen x - p) := Nat.mul_comm _ _
        omega
      calc (x / 2 ^ (bitLen x - p) + 1) * 2 ^ (bitLen x - p)
          ≤ u / 2 ^ (bitLen x - p) * 2 ^ (bitLen x - p) := Nat.mul_le_mul_right _ h4
        _ = u := h3

/-- The rounded value is representable. -/
theorem roundNE_idem (p x : Nat) (hp : 1 ≤ p) : roundNE p 0 (roundNE p 0 x) = roundNE p 0 x := by
  by_cases hs : bitLen x - p = 0
  · have : roundNE p 0 x = x := roundNE_of_mod_eq_zero p x (by rw [hs]; simp [Nat.mod_one])
    rw [this, this]
  · have hx0 : x ≠ 0 := by
      rintro rfl
      simp [bitLen_zero] at hs
    obtain ⟨hx1, hx2, -⟩ := bitLen_spec x hx0
    have hpos : 0 < 2 ^ (bitLen x - p) := Nat.two_pow_pos _
    have e1 : bitLen x - 1 = (p - 1) + (bitLen x - p) := by omega
    have e2 : bitLen x = p + (bitLen x - p) := by omega
    have hq1 : 2 ^ (p - 1) ≤ x / 2 ^ (bitLen x - p) := by
      apply (Nat.le_div_iff_mul_le hpos).2
      rw [← pow_add, ← e1]; exact hx1
    have hq2 : x / 2 ^ (bitLen x - p) < 2 ^ p := by
      apply (Nat.div_lt_iff_lt_mul hpos).2
      rw [← pow_add, ← e2]; exact hx2
    -- every multiple `k * 2^s` with `2^(p-1) ≤ k ≤ 2^p` is representable
    have key : ∀ k, 2 ^ (p - 1) ≤ k → k ≤ 2 ^ p →
        roundNE p 0 (k * 2 ^ (bitLen x - p)) = k * 2 ^ (bitLen x - p) := by
      intro k hk1 hk2
      apply roundNE_of_mod_eq_zero
      rcases Nat.lt_or_ge k (2 ^ p) with hlt | hge
      · have hb : bitLen (k * 2 ^ (bitLen x - p)) = bitLen x := by
          have h1 : 2 ^ (bitLen x - 1) ≤ k * 2 ^ (bitLen x - p) := by
            rw [e1, pow_add]; exact Nat.mul_le_mul_right _ hk1
          have h2 : k * 2 ^ (bitLen x - p) < 2 ^ (bitLen x - 1 + 1) := by
            have e3 : bitLen x - 1 + 1 = p + (bitLen x - p) := by omega
            rw [e3, pow_add]; exact Nat.mul_lt_mul_of_pos_right hlt hpos
          have := bitLen_eq _ _ h1 h2
          omega
        rw [hb]
        exact Nat.mul_mod_left _ _
      · have hk : k = 2 ^ p := by omega
        subst hk
        have hb : bitLen (2 ^ p * 2 ^ (bitLen x - p)) = bitLen x + 1 := by
          rw [← pow_add, ← e2]
          exact bitLen_eq _ _ (le_refl _) (Nat.pow_lt_pow_right (by norm_num) (by omega))
        rw [hb]
        have e4 : bitLen x + 1 - p = (bitLen x - p) + 1 := by omega
        have e5 : p = (p - 1) + 1 := by omega
        rw [e4]
        apply Nat.mod_eq_zero_of_dvd
        have : 2 ^ p * 2 ^ (bitLen x - p) = 2 ^ (p - 1) * 2 ^ (bitLen x - p + 1) := by
          rw [← pow_add, ← pow_add]
          congr 1
          omega
        rw [this]
        exact Nat.dvd_mul_left _ _
    rcases roundNE_cases p x with h1 | ⟨h1, -⟩
    · rw [h1]
      exact key _ hq1 (le_of_lt hq2)
    · rw [h1]
      exact key _ (by omega) hq2

theorem roundNE_pos (p x : Nat) (hp : 1 ≤ p) (hx : 0 < x) : 0 < roundNE p 0 x := by
  have h := floor_le_roundNE p x
  have hpos : 0 < 2 ^ (bitLen x - p) := Nat.two_pow_pos _
  by_cases hs : bitLen x - p = 0
  · rw [hs] at h
    simp at h
    omega
  · obtain ⟨hx1, -, -⟩ := bitLen_spec x (by omega)
    have e1 : bitLen x - 1 = (bitLen x - 1 - (bitLen x - p)) + (bitLen x - p) := by omega
    have hq1 : 2 ^ (bitLen x - 1 - (bitLen x - p)) ≤ x / 2 ^ (bitLen x - p) := by
      apply (Nat.le_div_iff_mul_le hpos).2
      rw [← pow_add, ← e1]; exact hx1
    have h2 : 0 < 2 ^ (bitLen x - 1 - (bitLen x - p)) := Nat.two_pow_pos _
    have h3 : 0 < x / 2 ^ (bitLen x - p) * 2 ^ (bitLen x - p) :=
      Nat.mul_pos (by omega) hpos
    exact lt_of_lt_of_le h3 h

/-! ## The knob sweep: lemmas -/

theorem isF64_rep (x : GoFloat) (h : IsF64 x) : Rep x := by
  cases x with
  | fin s m => exact ⟨h.1, h.2.1⟩
  | inf s => exact h
  | nan => exact h

theorem f64Round_of_lt (neg : Bool) (x : Nat) (h : roundNE 53 0 x < f64Limit) :
    f64Round neg x = .fin neg (roundNE 53 0 x) := by
  simp [f64Round, h]

theorem f64Round_of_ge (neg : Bool) (x : Nat) (h : ¬ roundNE 53 0 x < f64Limit) :
    f64Round neg x = .inf neg := by
  simp [f64Round, h]

/-- One step of the sweep from a representable value `v` by a positive
representable increment: the sum is representable or `+Inf`, and it is greater
than `v` unless it is `v` itself. -/
theorem f64Add_step (v inc : GoFloat) (hv : Rep v ∨ v = .inf false) (hinc : IsF64 inc)
    (hpos : f64Lt (.fin false 0) inc = true) :
    (Rep (f64Add v inc) ∨ f64Add v inc = .inf false) ∧
      (f64Lt v (f64Add v inc) = true ∨ f64Add v inc = v) := by
  cases inc with
  | inf s => exact absurd hinc (by simp [IsF64])
  | nan => exact absurd hinc (by simp [IsF64])
  | fin si mi =>
    obtain ⟨hri, hli, -⟩ := hinc
    cases si with
    | true => simp [f64Lt, f64Le] at hpos
    | false =>
      have hmi : 0 < mi := by
        simp [f64Lt, f64Le] at hpos
        omega
      rcases hv with hv | rfl
      · cases v with
        | inf s => exact absurd hv (by simp [Rep])
        | nan => exact absurd hv (by simp [Rep])
        | fin s m =>
          obtain ⟨hrm, hlm⟩ := hv
          cases s with
          | false =>
            have hge : m ≤ roundNE 53 0 (m + mi) :=
              le_roundNE 53 m (m + mi) (by norm_num) hrm (by omega)
            by_cases hlt : roundNE 53 0 (m + mi) < f64Limit
            · have e : f64Add (.fin false m) (.fin false mi)
                  = .fin false (roundNE 53 0 (m + mi)) := by
                simp [f64Add, f64Round_of_lt _ _ hlt]
              rw [e]
              refine ⟨Or.inl ⟨roundNE_idem 53 _ (by norm_num), hlt⟩, ?_⟩
              by_cases heq : roundNE 53 0 (m + mi) = m
              · right; rw [heq]
              · left
                have : m < roundNE 53 0 (m + mi) := by omega
                simp [f64Lt, f64Le]
                omega
            · have e : f64Add (.fin false m) (.fin false mi) = .inf false := by
                simp [f64Add, f64Round_of_ge _ _ hlt]
              rw [e]
              exact ⟨Or.inr rfl, Or.inl (by simp [f64Lt, f64Le])⟩
          | true =>
            rcases Nat.lt_trichotomy mi m with h | h | h
            · have hle : roundNE 53 0 (m - mi) ≤ m :=
                roundNE_le 53 (m - mi) m hrm (by omega)
              have hlt : roundNE 53 0 (m - mi) < f64Limit := by omega
              have e : f64Add (.fin true m) (.fin false mi)
                  = .fin true (roundNE 53 0 (m - mi)) := by
                simp [f64Add, h, f64Round_of_lt _ _ hlt]
              rw [e]
              refine ⟨Or.inl ⟨roundNE_idem 53 _ (by norm_num), hlt⟩, ?_⟩
              by_cases heq : roundNE 53 0 (m - mi) = m
              · right; rw [heq]
              · left
                simp [f64Lt, f64Le]
                omega
            · subst h
              have e : f64Add (.fin true mi) (.fin false mi) = .fin false 0 := by
                simp [f64Add]
              rw [e]
              refine ⟨Or.inl ⟨by decide, by decide⟩, Or.inl ?_⟩
              simp [f64Lt, f64Le]
              omega
            · have hle : roundNE 53 0 (mi - m) ≤ mi :=
                roundNE_le 53 (mi - m) mi hri (by omega)
              have hlt : roundNE 53 0 (mi - m) < f64Limit := by omega
              have hp : 0 < roundNE 53 0 (mi - m) :=
                roundNE_pos 53 _ (by norm_num) (by omega)
              have h2 : ¬ mi < m := by omega
              have e : f64Add (.fin true m) (.fin false mi)
                  = .fin false (roundNE 53 0 (mi - m)) := by
                simp [f64Add, h, h2, f64Round_of_lt _ _ hlt]
              rw [e]
              refine ⟨Or.inl ⟨roundNE_idem 53 _ (by norm_num), hlt⟩, Or.inl ?_⟩
              simp [f64Lt, f64Le]
              omega
      · exact ⟨Or.inr rfl, Or.inr rfl⟩

theorem sweepEnds_stuck (cfg : Config) (v : GoFloat)
    (hstuck : f64Add v cfg.knobTuneIncrement = v) (hle : f64Le v cfg.knobTuneMax = true) :
    ∀ n, sweepEnds cfg n v = false := by
  intro n
  induction n with
  | zero => simp [sweepEnds, hle]
  | succ k ih => simp [sweepEnds, hle, hstuck, ih]

theorem knobSweep_head (cfg : Config) (fuel : Nat) (v : GoFloat) :
    ∀ y ∈ (knobSweep cfg fuel v).head?, y = v ∧ f64Le v cfg.knobTuneMax = true := by
  intro y hy
  cases fuel with
  | zero => simp [knobSweep] at hy
  | succ f =>
    by_cases hle : f64Le v cfg.knobTuneMax = true
    · simp [knobSweep, hle] at hy
      exact ⟨hy.symm, hle⟩
    · simp [knobSweep, hle] at hy

theorem knobSweep_le_max (cfg : Config) :
    ∀ fuel v, ∀ y ∈ knobSweep cfg fuel v, f64Le y cfg.knobTuneMax = true := by
  intro fuel
  induction fuel with
  | zero => intro v y hy; simp [knobSweep] at hy
  | succ f ih =>
    intro v y hy
    by_cases hle : f64Le v cfg.knobTuneMax = true
    · simp only [knobSweep, hle, if_true, List.mem_cons] at hy
      rcases hy with rfl | hy
      · exact hle
      · exact ih _ y hy
    · simp [knobSweep, hle] at hy

theorem knobSweep_chain (cfg : Config) (hinc : IsF64 cfg.knobTuneIncrement)
    (hpos : f64Lt (.fin false 0) cfg.knobTuneIncrement = true) :
    ∀ fuel v, (Rep v ∨ v = .inf false) → sweepEnds cfg fuel v = true →
      List.Chain' (fun a b => f64Lt a b = true) (knobSweep cfg fuel v) := by
  intro fuel
  induction fuel with
  | zero => intro v _ _; simp [knobSweep]
  | succ f ih =>
    intro v hv hends
    by_cases hle : f64Le v cfg.knobTuneMax = true
    · obtain ⟨h1, h2⟩ := f64Add_step v cfg.knobTuneIncrement hv hinc hpos
      simp only [sweepEnds, hle, if_true] at hends
      simp only [knobSweep, hle, if_true]
      rw [List.chain'_cons']
      refine ⟨?_, ih _ h1 hends⟩
      intro y hy
      obtain ⟨rfl, -⟩ := knobSweep_head cfg f _ y hy
      rcases h2 with h2 | h2
      · exact h2
      · have := sweepEnds_stuck cfg v h2 hle f
        rw [h2] at hends
        rw [this] at hends
        exact absurd hends (by simp)
    · simp [knobSweep, hle]

theorem knobSweep_getElem (cfg : Config) :
    ∀ fuel v i, (h : i < (knobSweep cfg fuel v).length) →
      (knobSweep cfg fuel v)[i] = (fun k => f64Add k cfg.knobTuneIncrement)^[i] v := by
  intro fuel
  induction fuel with
  | zero => intro v i h; simp [knobSweep] at h
  | succ f ih =>
    intro v i h
    by_cases hle : f64Le v cfg.knobTuneMax = true
    · simp only [knobSweep, hle, if_true] at h ⊢
      cases i with
      | zero => simp
      | succ j =>
        simp only [List.getElem_cons_succ, Function.iterate_succ, Function.comp]
        exact ih _ j (by simpa using h)
    · simp [knobSweep, hle] at h

/-! ## The knob sweep without rounding -/

theorem f64Le_units (s1 s2 : Bool) (m1 m2 : Nat) :
    f64Le (.fin s1 m1) (.fin s2 m2) = true
      ↔ (GoFloat.fin s1 m1).units ≤ (GoFloat.fin s2 m2).units := by
  cases s1 <;> cases s2 <;> simp [f64Le, GoFloat.units] <;> omega

theorem count_step (d c : Int) (hd : 0 ≤ d) (hc : 0 < c) :
    d / c + 1 = (if c ≤ d then (d - c) / c + 1 else 0) + 1 := by
  split
  · have h := Int.add_mul_ediv_right (d - c) 1 (ne_of_gt hc)
    have e : d - c + 1 * c = d := by ring
    rw [e] at h
    omega
  · rw [Int.ediv_eq_zero_of_lt hd (by omega)]

theorem knobSweep_exact (cfg : Config) (sM : Bool) (mM : Nat)
    (hmax : cfg.knobTuneMax = .fin sM mM) (hc : 0 < cfg.knobTuneIncrement.units) :
    ∀ fuel s m,
      (∀ y ∈ knobSweep cfg fuel (.fin s m), AddsExactly y cfg.knobTuneIncrement) →
      (∀ i (h : i < (knobSweep cfg fuel (.fin s m)).length),
        (knobSweep cfg fuel (.fin s m))[i].units
          = (GoFloat.fin s m).units + i * cfg.knobTuneIncrement.units) ∧
      (sweepEnds cfg fuel (.fin s m) = true →
        ((knobSweep cfg fuel (.fin s m)).length : Int)
          = if (GoFloat.fin s m).units ≤ cfg.knobTuneMax.units then
              (cfg.knobTuneMax.units - (GoFloat.fin s m).units) / cfg.knobTuneIncrement.units + 1
            else 0) := by
  intro fuel
  induction fuel with
  | zero =>
    intro s m _
    refine ⟨fun i h => by simp [knobSweep] at h, ?_⟩
    intro hends
    have hle : f64Le (.fin s m) cfg.knobTuneMax = false := by
      simpa [sweepEnds] using hends
    have hn : ¬ (GoFloat.fin s m).units ≤ cfg.knobTuneMax.units := by
      rw [hmax] at hle ⊢
      rw [← f64Le_units]
      simp [hle]
    simp [knobSweep, hn]
  | succ f ih =>
    intro s m hex
    by_cases hle : f64Le (.fin s m) cfg.knobTuneMax = true
    · have hu : (GoFloat.fin s m).units ≤ cfg.knobTuneMax.units := by
        rw [hmax] at hle ⊢
        exact (f64Le_units _ _ _ _).1 hle
      have hsw : knobSweep cfg (f + 1) (.fin s m)
          = .fin s m :: knobSweep cfg f (f64Add (.fin s m) cfg.knobTuneIncrement) := by
        simp [knobSweep, hle]
      obtain ⟨s2, m2, hadd, hun⟩ := hex (.fin s m) (by rw [hsw]; exact List.mem_cons_self _ _)
      rw [hadd] at hsw
      have hex2 : ∀ y ∈ knobSweep cfg f (.fin s2 m2), AddsExactly y cfg.knobTuneIncrement := by
        intro y hy
        exact hex y (by rw [hsw]; exact List.mem_cons_of_mem _ hy)
      obtain ⟨ih1, ih2⟩ := ih s2 m2 hex2
      constructor
      · intro i h
        cases i with
        | zero => simp [hsw]
        | succ j =>
          have hj : j < (knobSweep cfg f (.fin s2 m2)).length := by
            rw [hsw] at h
            simpa using h
          have h3 := ih1 j hj
          simp only [hsw, List.getElem_cons_succ]
          rw [h3, hun]
          push_cast
          ring
      · intro hends
        have hends2 : sweepEnds cfg f (.fin s2 m2) = true := by
          simpa [sweepEnds, hle, hadd] using hends
        have h4 := ih2 hends2
        rw [hsw, List.length_cons]
        push_cast
        rw [h4, hun, if_pos hu]
        have h5 := count_step (cfg.knobTuneMax.units - (GoFloat.fin s m).units)
          cfg.knobTuneIncrement.units (by omega) hc
        rw [h5]
        have e1 : (cfg.knobTuneIncrement.units
            ≤ cfg.knobTuneMax.units - (GoFloat.fin s m).units)
            ↔ ((GoFloat.fin s m).units + cfg.knobTuneIncrement.units
              ≤ cfg.knobTuneMax.units) := by omega
        have e2 : cfg.knobTuneMax.units - (GoFloat.fin s m).units - cfg.knobTuneIncrement.units
            = cfg.knobTuneMax.units - ((GoFloat.fin s m).units + cfg.knobTuneIncrement.units) := by
          ring
        simp only [e1, e2]
    · have hn : ¬ (GoFloat.fin s m).units ≤ cfg.knobTuneMax.units := by
        rw [hmax] at hle ⊢
        rw [← f64Le_units]
        exact hle
      refine ⟨fun i h => by simp [knobSweep, hle] at h, ?_⟩
      intro _
      simp [knobSweep, hle, hn]

theorem knobSweep_congr (cfg cfg2 : Config) (h1 : cfg.knobTuneMax = cfg2.knobTuneMax)
    (h2 : cfg.knobTuneIncrement = cfg2.knobTuneIncrement) :
    ∀ fuel v, knobSweep cfg fuel v = knobSweep cfg2 fuel v ∧
      sweepEnds cfg fuel v = sweepEnds cfg2 fuel v := by
  intro fuel
  induction fuel with
  | zero => intro v; simp [knobSweep, sweepEnds, h1]
  | succ f ih =>
    intro v
    simp only [knobSweep, sweepEnds, h1, h2, (ih _).1, (ih _).2, and_self]

theorem knobSweep_fuel (cfg : Config) :
    ∀ f1 f2 v, sweepEnds cfg f1 v = true → sweepEnds cfg f2 v = true →
      knobSweep cfg f1 v = knobSweep cfg f2 v := by
  intro f1
  induction f1 with
  | zero =>
    intro f2 v h1 _
    have hle : f64Le v cfg.knobTuneMax = false := by simpa [sweepEnds] using h1
    cases f2 <;> simp [knobSweep, hle]
  | succ k ih =>
    intro f2 v h1 h2
    by_cases hle : f64Le v cfg.knobTuneMax = true
    · cases f2 with
      | zero => simp [sweepEnds, hle] at h2
      | succ j =>
        simp only [sweepEnds, hle, if_true] at h1 h2
        simp only [knobSweep, hle, if_true]
        rw [ih j _ h1 h2]
    · cases f2 <;> simp [knobSweep, hle]

theorem sweepEnds_iterate (cfg : Config) :
    ∀ fuel v, sweepEnds cfg fuel v = true →
      f64Le ((fun k => f64Add k cfg.knobTuneIncrement)^[(knobSweep cfg fuel v).length] v)
        cfg.knobTuneMax = false := by
  intro fuel
  induction fuel with
  | zero =>
    intro v h
    simpa [sweepEnds, knobSweep] using h
  | succ f ih =>
    intro v h
    by_cases hle : f64Le v cfg.knobTuneMax = true
    · simp only [sweepEnds, hle, if_true] at h
      simp only [knobSweep, hle, if_true, List.length_cons, Function.iterate_succ,
        Function.comp]
      exact ih _ h
    · simp only [knobSweep, hle, if_false, List.length_nil, Function.iterate_zero, id]
      simpa using hle

theorem requestsOf_eventsFrom (cfg : Config) (w : World) (prfx : String) (l : List GoFloat) :
    ∀ k, requestsOf (eventsFrom cfg w (l.map (fun v => (prfx, v))) k)
      = l.map (requestFor cfg) := by
  induction l with
  | nil => intro k; simp [eventsFrom, requestsOf]
  | cons a l ih =>
    intro k
    show requestsOf (iterationEvents cfg w prfx a k
      ++ eventsFrom cfg w (l.map (fun v => (prfx, v))) (k + 1)) = _
    rw [requestsOf_append, ih, requestsOf_iterationEvents]
    rfl

theorem innerLoop_ok (cfg : Config) (w : World) (prfx : String) (fuel : Nat) (v : GoFloat)
    (st : St) (hsel : cfg.endpointSpecifier = 1 ∨ cfg.endpointSpecifier = 2)
    (hdry : cfg.dryFire = false) (hE : ErrorFree cfg w) :
    innerLoop cfg w prfx fuel v st
      = (⟨st.events ++ eventsFrom cfg w ((knobSweep cfg fuel v).map (fun x => (prfx, x))) st.sent,
            st.sent + (knobSweep cfg fuel v).length,
            st.wrote + 6 * (knobSweep cfg fuel v).length⟩,
          if sweepEnds cfg fuel v then none else some .outOfFuel) := by
  rw [innerLoop_eq, runIters_ok cfg w hsel hdry hE]
  simp

/-! ## The knob sweep: properties -/

set_option maxRecDepth 100000 in
/-- Claim C4 as stated fails: for the knob range from 1.0 to 1.3 by 0.1,
`floor((max - min) / increment) + 1` is 4 (on the exact `float64` values, as on
the decimal ones), and one pass of the inner loop, with no error, issues 3
requests, for 1.0, 1.1 and 1.2: the running sum after 1.2 is above 1.3. -/
theorem C4_counterexample :
    f64Le tenthsConfig.knobTuneMin tenthsConfig.knobTuneMax = true ∧
      f64Lt (.fin false 0) tenthsConfig.knobTuneIncrement = true ∧
      (innerLoop tenthsConfig sampleWorld (fmtD02 1) 10 tenthsConfig.knobTuneMin ⟨[], 0, 0⟩).2
        = none ∧
      (requestsOf (innerLoop tenthsConfig sampleWorld (fmtD02 1) 10 tenthsConfig.knobTuneMin
        ⟨[], 0, 0⟩).1.events).length = 3 ∧
      (knobSweep tenthsConfig 10 tenthsConfig.knobTuneMin).map fmtF1 = ["1.0", "1.1", "1.2"] ∧
      specCount tenthsConfig.knobTuneMin tenthsConfig.knobTuneMax tenthsConfig.knobTuneIncrement
        = 4 := by
  decide

set_option maxRecDepth 100000 in
theorem sourceSweep :
    sweepEnds (sourceConfig "") 10 (f64OfRat false 6 10) = true ∧
      knobSweep (sourceConfig "") 10 (f64OfRat false 6 10)
        = [f64OfRat false 6 10, f64OfRat false 8 10, f64OfRat false 1 1] ∧
      [f64OfRat false 6 10, f64OfRat false 8 10, f64OfRat false 1 1].map
          (fun v => fmtF1 (toFloat32 v)) = ["0.6", "0.8", "1.0"] ∧
      [f64OfRat false 6 10, f64OfRat false 8 10, f64OfRat false 1 1].map fmtF1
        = ["0.6", "0.8", "1.0"] := by
  decide

set_option maxRecDepth 100000 in
theorem commentSweep :
    sweepEnds commentConfig 10 (f64OfRat false 0 1) = true ∧
      (knobSweep commentConfig 10 (f64OfRat false 0 1)).length = 5 := by
  decide

theorem sourceConfig_max : (sourceConfig "").knobTuneMax = f64OfRat false 1 1 := by
  simp only [sourceConfig]

theorem sourceConfig_inc : (sourceConfig "").knobTuneIncrement = f64OfRat false 2 10 := by
  simp only [sourceConfig]

theorem commentConfig_max : commentConfig.knobTuneMax = f64OfRat false 8 10 := by
  simp only [commentConfig]

theorem commentConfig_inc : commentConfig.knobTuneIncrement = f64OfRat false 2 10 := by
  simp only [commentConfig, sourceConfig]

set_option maxRecDepth 100000 in
theorem stuckConfig_stuck :
    f64Add stuckConfig.knobTuneMin stuckConfig.knobTuneIncrement = stuckConfig.knobTuneMin ∧
      f64Le stuckConfig.knobTuneMin stuckConfig.knobTuneMax = true ∧
      f64Lt (.fin false 0) stuckConfig.knobTuneIncrement = true := by
  decide

/-- A pass of the inner loop need not end: from 2^53 to 2^53 + 2 by 1 the
running sum stays at 2^53, so the loop condition holds for ever. -/
theorem stuckConfig_never_ends (n : Nat) :
    sweepEnds stuckConfig n stuckConfig.knobTuneMin = false :=
  sweepEnds_stuck stuckConfig _ stuckConfig_stuck.1 stuckConfig_stuck.2.1 n

set_option maxRecDepth 100000 in
/-- A sweep in which no addition rounds: from 0.5 to 1.0 by 0.25, with the 3
values of the formula. -/
theorem quarterConfig_exact :
    knobSweep quarterConfig 10 quarterConfig.knobTuneMin
        = [f64OfRat false 1 2, f64OfRat false 3 4, f64OfRat false 1 1] ∧
      (∀ v ∈ knobSweep quarterConfig 10 quarterConfig.knobTuneMin,
        AddsExactly v quarterConfig.knobTuneIncrement) ∧
      specCount quarterConfig.knobTuneMin quarterConfig.knobTuneMax
        quarterConfig.knobTuneIncrement = 3 := by
  have h : knobSweep quarterConfig 10 quarterConfig.knobTuneMin
      = [f64OfRat false 1 2, f64OfRat false 3 4, f64OfRat false 1 1] := by decide
  refine ⟨h, ?_, by decide⟩
  rw [h]
  intro v hv
  simp only [List.mem_cons, List.mem_singleton, List.not_mem_nil, or_false] at hv
  rcases hv with rfl | rfl | rfl
  · exact ⟨false, 3 * 2 ^ 1072, by decide, by decide⟩
  · exact ⟨false, 2 ^ 1074, by decide, by decide⟩
  · exact ⟨false, 5 * 2 ^ 1072, by decide, by decide⟩

theorem units_pos_of_pos (x : GoFloat) (hx : IsF64 x) (hpos : f64Lt (.fin false 0) x = true) :
    0 < x.units := by
  cases x with
  | inf s => exact absurd hx (by simp [IsF64])
  | nan => exact absurd hx (by simp [IsF64])
  | fin s m =>
    cases s with
    | true => simp [f64Lt, f64Le] at hpos
    | false =>
      simp [f64Lt, f64Le] at hpos
      simp [GoFloat.units]
      omega

/-- Claim C4, amended: for every knob range of `float64` constants with
min <= max and a positive increment, one pass of the inner loop of
`executeRequests` that has no error and ends issues one request for each term
of the running `float64` sum min, min + increment, (min + increment) +
increment, ..., up to the last term that does not exceed max, the i-th request
(from 0) carrying the i-th term; the terms are strictly increasing and none
exceeds max; when no addition of the pass rounds, there are exactly
floor((max - min) / increment) + 1 requests and the i-th term is
min + i * increment; for min = 0.6, max = 1.0, increment = 0.2 the values are
exactly 0.6, 0.8, 1.0 (3 requests), and for min = 0.0, max = 0.8,
increment = 0.2 there are 5 requests. -/
theorem C4_knob_sweep (cfg : Config) (w : World) (prfx : String) (fuel : Nat) (st : St)
    (hsel : cfg.endpointSpecifier = 1 ∨ cfg.endpointSpecifier = 2)
    (hdry : cfg.dryFire = false) (hE : ErrorFree cfg w)
    (hmin : IsF64 cfg.knobTuneMin) (hmax : IsF64 cfg.knobTuneMax)
    (hinc : IsF64 cfg.knobTuneIncrement)
    (hle : f64Le cfg.knobTuneMin cfg.knobTuneMax = true)
    (hpos : f64Lt (.fin false 0) cfg.knobTuneIncrement = true)
    (hends : sweepEnds cfg fuel cfg.knobTuneMin = true) :
    (innerLoop cfg w prfx fuel cfg.knobTuneMin st).2 = none ∧
      requestsOf (innerLoop cfg w prfx fuel cfg.knobTuneMin st).1.events
        = requestsOf st.events ++ (knobSweep cfg fuel cfg.knobTuneMin).map (requestFor cfg) ∧
      (∀ i (h : i < (knobSweep cfg fuel cfg.knobTuneMin).length),
        (knobSweep cfg fuel cfg.knobTuneMin)[i]
          = (fun k => f64Add k cfg.knobTuneIncrement)^[i] cfg.knobTuneMin) ∧
      (∀ v ∈ knobSweep cfg fuel cfg.knobTuneMin, f64Le v cfg.knobTuneMax = true) ∧
      f64Le ((fun k => f64Add k cfg.knobTuneIncrement)^[(knobSweep cfg fuel
        cfg.knobTuneMin).length] cfg.knobTuneMin) cfg.knobTuneMax = false ∧
      List.Chain' (fun a b => f64Lt a b = true) (knobSweep cfg fuel cfg.knobTuneMin) ∧
      ((∀ v ∈ knobSweep cfg fuel cfg.knobTuneMin, AddsExactly v cfg.knobTuneIncrement) →
        ((knobSweep cfg fuel cfg.knobTuneMin).length : Int)
            = specCount cfg.knobTuneMin cfg.knobTuneMax cfg.knobTuneIncrement ∧
          ∀ i (h : i < (knobSweep cfg fuel cfg.knobTuneMin).length),
            (knobSweep cfg fuel cfg.knobTuneMin)[i].units
              = cfg.knobTuneMin.units + i * cfg.knobTuneIncrement.units) ∧
      (cfg.knobTuneMin = f64OfRat false 6 10 → cfg.knobTuneMax = f64OfRat false 1 1 →
        cfg.knobTuneIncrement = f64OfRat false 2 10 →
        knobSweep cfg fuel cfg.knobTuneMin
            = [f64OfRat false 6 10, f64OfRat false 8 10, f64OfRat false 1 1] ∧
          (knobSweep cfg fuel cfg.knobTuneMin).map (fun v => fmtF1 (toFloat32 v))
            = ["0.6", "0.8", "1.0"] ∧
          (knobSweep cfg fuel cfg.knobTuneMin).map fmtF1 = ["0.6", "0.8", "1.0"]) ∧
      (cfg.knobTuneMin = f64OfRat false 0 1 → cfg.knobTuneMax = f64OfRat false 8 10 →
        cfg.knobTuneIncrement = f64OfRat false 2 10 →
        (knobSweep cfg fuel cfg.knobTuneMin).length = 5) := by
  have hloop := innerLoop_ok cfg w prfx fuel cfg.knobTuneMin st hsel hdry hE
  refine ⟨by rw [hloop, hends]; rfl, ?_, knobSweep_getElem cfg fuel _,
    knobSweep_le_max cfg fuel _, sweepEnds_iterate cfg fuel _ hends,
    knobSweep_chain cfg hinc hpos fuel _ (Or.inl (isF64_rep _ hmin)) hends, ?_, ?_, ?_⟩
  · rw [hloop]
    simp only
    rw [requestsOf_append, requestsOf_eventsFrom]
  · intro hex
    have hc := units_pos_of_pos _ hinc hpos
    cases hM : cfg.knobTuneMax with
    | inf s => rw [hM] at hmax; exact absurd hmax (by simp [IsF64])
    | nan => rw [hM] at hmax; exact absurd hmax (by simp [IsF64])
    | fin sM mM =>
      cases hm : cfg.knobTuneMin with
      | inf s => rw [hm] at hmin; exact absurd hmin (by simp [IsF64])
      | nan => rw [hm] at hmin; exact absurd hmin (by simp [IsF64])
      | fin s m =>
        rw [hm] at hex hends hle
        obtain ⟨h1, h2⟩ := knobSweep_exact cfg sM mM hM hc fuel s m hex
        have hu : (GoFloat.fin s m).units ≤ cfg.knobTuneMax.units := by
          rw [hM] at hle ⊢
          exact (f64Le_units _ _ _ _).1 hle
        refine ⟨?_, h1⟩
        rw [h2 hends, if_pos hu, specCount, Int.fdiv_eq_ediv _ (le_of_lt hc), hM]
  · intro e1 e2 e3
    obtain ⟨c1, c2⟩ := knobSweep_congr cfg (sourceConfig "") (by rw [e2, sourceConfig_max])
      (by rw [e3, sourceConfig_inc]) fuel cfg.knobTuneMin
    rw [c2, e1] at hends
    rw [c1, e1, knobSweep_fuel (sourceConfig "") fuel 10 _ hends sourceSweep.1,
      sourceSweep.2.1]
    exact ⟨rfl, sourceSweep.2.2.1, sourceSweep.2.2.2⟩
  · intro e1 e2 e3
    obtain ⟨c1, c2⟩ := knobSweep_congr cfg commentConfig (by rw [e2, commentConfig_max])
      (by rw [e3, commentConfig_inc]) fuel cfg.knobTuneMin
    rw [c2, e1] at hends
    rw [c1, e1, knobSweep_fuel commentConfig fuel 10 _ hends commentSweep.1]
    exact commentSweep.2

set_option maxRecDepth 100000 in
theorem sourceConfig_isF64_min : IsF64 (sourceConfig "").knobTuneMin := by
  decide

set_option maxRecDepth 100000 in
theorem sourceConfig_isF64_max : IsF64 (sourceConfig "").knobTuneMax := by
  decide

set_option maxRecDepth 100000 in
theorem sourceConfig_isF64_inc : IsF64 (sourceConfig "").knobTuneIncrement := by
  decide

set_option maxRecDepth 100000 in
theorem sourceConfig_inc_pos :
    f64Lt (.fin false 0) (sourceConfig "").knobTuneIncrement = true := by
  decide

set_option maxRecDepth 100000 in
theorem C4_knob_sweep_witness :
    (innerLoop (sourceConfig "") sampleWorld (fmtD02 1) 10 (sourceConfig "").knobTuneMin
        ⟨[], 0, 0⟩).2 = none ∧
      List.Chain' (fun a b => f64Lt a b = true)
        (knobSweep (sourceConfig "") 10 (sourceConfig "").knobTuneMin) := by
  have h := C4_knob_sweep (sourceConfig "") sampleWorld (fmtD02 1) 10 ⟨[], 0, 0⟩ (Or.inl rfl) rfl
    sampleWorld_errorFree sourceConfig_isF64_min sourceConfig_isF64_max sourceConfig_isF64_inc
    sourceConfig_min_le_max sourceConfig_inc_pos sourceConfig_sweepEnds
  exact ⟨h.1, h.2.2.2.2.2.1⟩

end RunJobs
